import Mathlib

/-!
# SimpleSD bootloader (STM32F429): a shallow embedding

The definitions below follow `SimpleSD_bootloader.h` and `SimpleSD_bootloader.c`.
Machine integers are natural numbers; `uint32_t` arithmetic is reduced modulo `2^32`
wherever the C code could wrap.  Peripherals and the FatFs driver are not part of the
library: they are supplied by a `World`, an arbitrary deterministic environment.
-/

namespace SimpleSD

/-! ## Constants of `SimpleSD_bootloader.h` -/

/-- Modulus of `uint32_t` arithmetic. -/
def U32 : Nat := 2 ^ 32

def CRC_USING_PERIPHERAL : Nat := 1
def CRC_USING_FUNCTION : Nat := 0
def CRC_CALCULATION_METHOD : Nat := CRC_USING_PERIPHERAL
def STM32_POLYNOMIAL : Nat := 0x04C11DB7
def CRC_POLYNOMIAL : Nat := STM32_POLYNOMIAL

def ADDR_FLASH_SECTOR_0 : Nat := 0x08000000
def ADDR_FLASH_SECTOR_1 : Nat := 0x08004000
def ADDR_FLASH_SECTOR_2 : Nat := 0x08008000
def ADDR_FLASH_SECTOR_3 : Nat := 0x0800C000
def ADDR_FLASH_SECTOR_4 : Nat := 0x08010000
def ADDR_FLASH_SECTOR_5 : Nat := 0x08020000
def ADDR_FLASH_SECTOR_6 : Nat := 0x08040000
def ADDR_FLASH_SECTOR_7 : Nat := 0x08060000
def ADDR_FLASH_SECTOR_8 : Nat := 0x08080000
def ADDR_FLASH_SECTOR_9 : Nat := 0x080A0000
def ADDR_FLASH_SECTOR_10 : Nat := 0x080C0000
def ADDR_FLASH_SECTOR_11 : Nat := 0x080E0000
def ADDR_FLASH_SECTOR_12 : Nat := 0x08100000
def ADDR_FLASH_SECTOR_13 : Nat := 0x08104000
def ADDR_FLASH_SECTOR_14 : Nat := 0x08108000
def ADDR_FLASH_SECTOR_15 : Nat := 0x0810C000
def ADDR_FLASH_SECTOR_16 : Nat := 0x08110000
def ADDR_FLASH_SECTOR_17 : Nat := 0x08120000
def ADDR_FLASH_SECTOR_18 : Nat := 0x08140000
def ADDR_FLASH_SECTOR_19 : Nat := 0x08160000
def ADDR_FLASH_SECTOR_20 : Nat := 0x08180000
def ADDR_FLASH_SECTOR_21 : Nat := 0x081A0000
def ADDR_FLASH_SECTOR_22 : Nat := 0x081C0000
def ADDR_FLASH_SECTOR_23 : Nat := 0x081E0000

def APPLICATION_START_ADDRESS : Nat := 0x08020000
def APPLICATION_END_ADDRESS : Nat := 0x081FFFFF
def APPLICATION_CRC_SIZE : Nat := 4

/-- The macro `((uint32_t)(END - START - CRC_SIZE + 1)/4)`: the cast binds tighter than
the division. -/
def APPLICATION_CRC_CALCULATION_SIZE : Nat :=
  ((APPLICATION_END_ADDRESS - APPLICATION_START_ADDRESS - APPLICATION_CRC_SIZE + 1) % U32) / 4

def APPLICATION_CRC_ADDRESS : Nat :=
  APPLICATION_END_ADDRESS - APPLICATION_CRC_SIZE + 1

def SDSimple_CD_Detect_Samples : Nat := 10
def SDSimple_CD_Detect_Level : Nat := 0

/-! `enum SimpleSD_ErrorCodes` -/

def SIMPLESD_OK : Nat := 0
def SIMPLESD_NO_SD : Nat := 1
def SIMPLESD_FS_MOUNT_ERROR : Nat := 2
def SIMPLESD_FS_OPEN_ERROR : Nat := 3
def SIMPLESD_FS_READ_ERROR : Nat := 4
def SIMPLESD_FLASH_ERASE_ERROR : Nat := 5
def SIMPLESD_FLASH_WRITE_ERROR : Nat := 6
def SIMPLESD_FLASH_WRITE_COMPARE_ERROR : Nat := 7

/-! `enum SimpleSD_LEDModes` -/

def SIMPLESD_LED_STOPPED_MODE : Nat := 0
def SIMPLESD_LED_0_5_HZ_MODE : Nat := 1
def SIMPLESD_LED_1HZ_MODE : Nat := 2
def SIMPLESD_LED_2HZ_MODE : Nat := 4
def SIMPLESD_LED_4HZ_MODE : Nat := 8
def SIMPLESD_LED_10HZ_MODE : Nat := 20
def SIMPLESD_LED_ON_MODE : Nat := 100

/-! `enum SimpleSD_Detect`, `enum SimpleSD_CRC` -/

def SIMPLESD_NOT_DETECTED : Nat := 0
def SIMPLESD_DETECTED : Nat := 1
def SIMPLESD_CRC_SAME : Nat := 0
def SIMPLESD_CRC_ERROR : Nat := 1

/-! Constants of the vendor headers that the library uses. -/

/-- Vendor constant `HAL_OK` of `HAL_StatusTypeDef`. -/
def HAL_OK : Nat := 0
/-- Vendor constant `FR_OK` of the FatFs `FRESULT`. -/
def FR_OK : Nat := 0
/-- Vendor constant `GPIO_PIN_SET`. -/
def GPIO_PIN_SET : Nat := 1
/-- Vendor constant `GPIO_PIN_RESET`. -/
def GPIO_PIN_RESET : Nat := 0

/-- Vendor constants `FLASH_SECTOR_0 .. FLASH_SECTOR_23` (the sector numbers themselves,
as the comment of `SimpleSD_FindSector` says: "0 to 23: The flash sector"). -/
def FLASH_SECTOR (n : Nat) : Nat := n

/-! ## Memory region map -/

/-- The function `SimpleSD_FindSector`: the if/else chain of the source, branch for branch. -/
def SimpleSD_FindSector (Address : Nat) : Nat :=
  if Address < ADDR_FLASH_SECTOR_1 ∧ Address ≥ ADDR_FLASH_SECTOR_0 then FLASH_SECTOR 0
  else if Address < ADDR_FLASH_SECTOR_2 ∧ Address ≥ ADDR_FLASH_SECTOR_1 then FLASH_SECTOR 1
  else if Address < ADDR_FLASH_SECTOR_3 ∧ Address ≥ ADDR_FLASH_SECTOR_2 then FLASH_SECTOR 2
  else if Address < ADDR_FLASH_SECTOR_4 ∧ Address ≥ ADDR_FLASH_SECTOR_3 then FLASH_SECTOR 3
  else if Address < ADDR_FLASH_SECTOR_5 ∧ Address ≥ ADDR_FLASH_SECTOR_4 then FLASH_SECTOR 4
  else if Address < ADDR_FLASH_SECTOR_6 ∧ Address ≥ ADDR_FLASH_SECTOR_5 then FLASH_SECTOR 5
  else if Address < ADDR_FLASH_SECTOR_7 ∧ Address ≥ ADDR_FLASH_SECTOR_6 then FLASH_SECTOR 6
  else if Address < ADDR_FLASH_SECTOR_8 ∧ Address ≥ ADDR_FLASH_SECTOR_7 then FLASH_SECTOR 7
  else if Address < ADDR_FLASH_SECTOR_9 ∧ Address ≥ ADDR_FLASH_SECTOR_8 then FLASH_SECTOR 8
  else if Address < ADDR_FLASH_SECTOR_10 ∧ Address ≥ ADDR_FLASH_SECTOR_9 then FLASH_SECTOR 9
  else if Address < ADDR_FLASH_SECTOR_11 ∧ Address ≥ ADDR_FLASH_SECTOR_10 then FLASH_SECTOR 10
  else if Address < ADDR_FLASH_SECTOR_12 ∧ Address ≥ ADDR_FLASH_SECTOR_11 then FLASH_SECTOR 11
  else if Address < ADDR_FLASH_SECTOR_13 ∧ Address ≥ ADDR_FLASH_SECTOR_12 then FLASH_SECTOR 12
  else if Address < ADDR_FLASH_SECTOR_14 ∧ Address ≥ ADDR_FLASH_SECTOR_13 then FLASH_SECTOR 13
  else if Address < ADDR_FLASH_SECTOR_15 ∧ Address ≥ ADDR_FLASH_SECTOR_14 then FLASH_SECTOR 14
  else if Address < ADDR_FLASH_SECTOR_16 ∧ Address ≥ ADDR_FLASH_SECTOR_15 then FLASH_SECTOR 15
  else if Address < ADDR_FLASH_SECTOR_17 ∧ Address ≥ ADDR_FLASH_SECTOR_16 then FLASH_SECTOR 16
  else if Address < ADDR_FLASH_SECTOR_18 ∧ Address ≥ ADDR_FLASH_SECTOR_17 then FLASH_SECTOR 17
  else if Address < ADDR_FLASH_SECTOR_19 ∧ Address ≥ ADDR_FLASH_SECTOR_18 then FLASH_SECTOR 18
  else if Address < ADDR_FLASH_SECTOR_20 ∧ Address ≥ ADDR_FLASH_SECTOR_19 then FLASH_SECTOR 19
  else if Address < ADDR_FLASH_SECTOR_21 ∧ Address ≥ ADDR_FLASH_SECTOR_20 then FLASH_SECTOR 20
  else if Address < ADDR_FLASH_SECTOR_22 ∧ Address ≥ ADDR_FLASH_SECTOR_21 then FLASH_SECTOR 21
  else if Address < ADDR_FLASH_SECTOR_23 ∧ Address ≥ ADDR_FLASH_SECTOR_22 then FLASH_SECTOR 22
  else FLASH_SECTOR 23

/-- The table of sector base addresses `ADDR_FLASH_SECTOR_0 .. ADDR_FLASH_SECTOR_23` of the
header.  From index 24 on the entry is `0x08200000`, the first address after sector 23
(which, like its neighbours, is commented "128 Kbytes" in the header). -/
def sectorBase : Nat → Nat
  | 0 => ADDR_FLASH_SECTOR_0
  | 1 => ADDR_FLASH_SECTOR_1
  | 2 => ADDR_FLASH_SECTOR_2
  | 3 => ADDR_FLASH_SECTOR_3
  | 4 => ADDR_FLASH_SECTOR_4
  | 5 => ADDR_FLASH_SECTOR_5
  | 6 => ADDR_FLASH_SECTOR_6
  | 7 => ADDR_FLASH_SECTOR_7
  | 8 => ADDR_FLASH_SECTOR_8
  | 9 => ADDR_FLASH_SECTOR_9
  | 10 => ADDR_FLASH_SECTOR_10
  | 11 => ADDR_FLASH_SECTOR_11
  | 12 => ADDR_FLASH_SECTOR_12
  | 13 => ADDR_FLASH_SECTOR_13
  | 14 => ADDR_FLASH_SECTOR_14
  | 15 => ADDR_FLASH_SECTOR_15
  | 16 => ADDR_FLASH_SECTOR_16
  | 17 => ADDR_FLASH_SECTOR_17
  | 18 => ADDR_FLASH_SECTOR_18
  | 19 => ADDR_FLASH_SECTOR_19
  | 20 => ADDR_FLASH_SECTOR_20
  | 21 => ADDR_FLASH_SECTOR_21
  | 22 => ADDR_FLASH_SECTOR_22
  | 23 => ADDR_FLASH_SECTOR_23
  | _ => 0x08200000

/-! ## Checksum engine -/

/-- One pass of the body of the `for` loop of `CalculateCRC_32`: test the top bit, shift
left within 32 bits, and XOR the polynomial in when the bit was set. -/
def crcShift (crc : Nat) : Nat :=
  if crc &&& 0x80000000 ≠ 0 then ((crc <<< 1) % U32) ^^^ CRC_POLYNOMIAL
  else (crc <<< 1) % U32

/-- The loop `for (uint8_t i = 0; i < 32; i++)` of `CalculateCRC_32`; the first argument is
the number of passes still to run (`32 - i`). -/
def crcBits : Nat → Nat → Nat
  | 0, crc => crc
  | n + 1, crc => crcBits n (crcShift crc)

/-- The function `CalculateCRC_32`: XOR the data word into the running value, then the 32 passes. -/
def CalculateCRC_32 (crc data : Nat) : Nat :=
  crcBits 32 (crc ^^^ data)

/-- The loop `while (count_crc--)` of `SimpleSD_CRC_Check`: one word per pass, read at
`address`, which then advances by 4 in `uint32_t` arithmetic. -/
def crcWords (mem : Nat → Nat) : Nat → Nat → Nat → Nat
  | 0, calculated_crc, _ => calculated_crc
  | count_crc + 1, calculated_crc, address =>
    crcWords mem count_crc (CalculateCRC_32 calculated_crc (mem address % U32))
      ((address + 4) % U32)

/-- Modelled from the spec: the vendor routine `HAL_CRC_Calculate(&hcrc, pBuffer, n)` is
not part of the library; the CRC unit is reset to `0xFFFFFFFF` and accumulates the `n`
words it is given with the same polynomial, one `CalculateCRC_32` step per word. -/
def HAL_CRC_Calculate (mem : Nat → Nat) (pBuffer BufferLength : Nat) : Nat :=
  crcWords mem BufferLength 0xFFFFFFFF pBuffer

/-- The function `SimpleSD_CRC_Check`, with the preprocessor switch `CRC_CALCULATION_METHOD` as the
first argument: non-zero selects the peripheral branch, zero the software loop.  `mem` is
the flash as seen by `*(uint32_t*)address`. -/
def SimpleSD_CRC_Check (method : Nat) (mem : Nat → Nat) : Nat :=
  let result := SIMPLESD_CRC_SAME
  let flash_crc := mem APPLICATION_CRC_ADDRESS % U32
  let calculated_crc :=
    if method ≠ 0 then
      HAL_CRC_Calculate mem APPLICATION_START_ADDRESS 16
    else
      crcWords mem APPLICATION_CRC_CALCULATION_SIZE 0xFFFFFFFF APPLICATION_START_ADDRESS
  if calculated_crc ≠ flash_crc then SIMPLESD_CRC_ERROR else result

/-! ## The environment and the machine state -/

/-- What the library does to its collaborators, in program order.  Calls whose outcome
the code inspects carry that outcome. -/
inductive Event where
  | SimpleSD_ModeLED (Mode : Nat)
  | HAL_IWDG_Refresh
  | HAL_GPIO_ReadPin (level : Nat)
  | HAL_Delay (ms : Nat)
  | SimpleSD_DetectCard (result : Nat)
  | f_mount (fresult : Nat)
  | f_open (fresult : Nat)
  | f_close
  | f_unmount
  | HAL_FLASH_Unlock
  | HAL_FLASH_Lock
  | FLASH_CLEAR_FLAG
  | FLASH_CACHE_RESET
  | HAL_FLASHEx_Erase (Sector NbSectors status : Nat)
  | f_read (fresult Bytes : Nat)
  | HAL_FLASH_Program (Address Data status : Nat)
  | readBack (Address value FileData : Nat)
  | SimpleSD_CRC_Check (result : Nat)
  | HAL_GPIO_WritePin (PinState : Nat)
  | HAL_GPIO_TogglePin
  deriving DecidableEq, Repr

/-- What `f_read(&SimpleSD_file, &FileData, sizeof(FileData), &Bytes)` hands back: the
result code, the byte count and the content of the 4-byte buffer afterwards. -/
structure ReadResult where
  fresult : Nat
  Bytes : Nat
  FileData : Nat

/-- The collaborators of the library (detect pin, FatFs, flash controller), as an arbitrary
deterministic environment.
* `HAL_GPIO_ReadPin k` is the level of the card-detect pin at its `k`-th sampling;
* `f_mount`, `f_open` are the result codes of mounting and of opening the image;
* `f_read n buf` is the `n`-th read since the file was opened (counted from 0), into a
  buffer that held `buf`;
* `HAL_FLASHEx_Erase mem Sector NbSectors` and `HAL_FLASH_Program mem Address Data` give the
  status and the flash content afterwards;
* `FileData` is what the uninitialised local `FileData` holds at entry. -/
structure World where
  HAL_GPIO_ReadPin : Nat → Nat
  f_mount : Nat
  f_open : Nat
  f_read : Nat → Nat → ReadResult
  HAL_FLASHEx_Erase : (Nat → Nat) → Nat → Nat → Nat × (Nat → Nat)
  HAL_FLASH_Program : (Nat → Nat) → Nat → Nat → Nat × (Nat → Nat)
  FileData : Nat

/-- The state the library acts on: flash content (the word read by `*(uint32_t*)a`), the
lock bit of the flash control register, the FatFs volume and file, how often the pin was
sampled and how often the file was read since it was opened, the two LED variables of the
library, the LED pin, and the log. -/
structure Machine where
  flash : Nat → Nat
  locked : Bool
  mounted : Bool
  fileOpen : Bool
  pinReads : Nat
  fileReads : Nat
  LED_Reload_Value : Int
  LED_Toggle_Counter : Int
  LED_Pin : Nat
  trace : List Event

/-- Append one event to the log. -/
def Machine.log (s : Machine) (e : Event) : Machine :=
  { s with trace := s.trace ++ [e] }

/-! ## Status indicator -/

/-- The assignment of `SimpleSD_ModeLED`, on the reload variable alone. -/
def reloadValue (Mode : Nat) : Int :=
  if Mode ≠ SIMPLESD_LED_STOPPED_MODE then ((1000 / Mode : Nat) : Int) else 0

/-- The function `SimpleSD_ModeLED`. -/
def SimpleSD_ModeLED (Mode : Nat) (s : Machine) : Machine :=
  { s with LED_Reload_Value := reloadValue Mode,
           trace := s.trace ++ [Event.SimpleSD_ModeLED Mode] }

/-- Conversion of an `int` value to `int16_t` (two's complement, as on the target). -/
def int16 (x : Int) : Int := (x + 32768) % 65536 - 32768

/-- The call `HAL_GPIO_WritePin(SDSimple_LED_Port, SDSimple_LED_Pin, PinState)`. -/
def HAL_GPIO_WritePin (PinState : Nat) (s : Machine) : Machine :=
  { s with LED_Pin := PinState, trace := s.trace ++ [Event.HAL_GPIO_WritePin PinState] }

/-- The call `HAL_GPIO_TogglePin(SDSimple_LED_Port, SDSimple_LED_Pin)`: the output level of
the pin is inverted. -/
def HAL_GPIO_TogglePin (s : Machine) : Machine :=
  { s with LED_Pin := if s.LED_Pin = GPIO_PIN_RESET then GPIO_PIN_SET else GPIO_PIN_RESET,
           trace := s.trace ++ [Event.HAL_GPIO_TogglePin] }

/-- The function `SimpleSD_BlinkLED`, the tick of the status indicator. -/
def SimpleSD_BlinkLED (s : Machine) : Machine :=
  if s.LED_Reload_Value = 0 then
    HAL_GPIO_WritePin GPIO_PIN_SET s
  else
    let s := { s with LED_Toggle_Counter := int16 (s.LED_Toggle_Counter - 1) }
    if s.LED_Toggle_Counter ≤ 0 then
      let s := HAL_GPIO_TogglePin s
      { s with LED_Toggle_Counter := s.LED_Reload_Value }
    else s

/-! ## Collaborator calls -/

/-- The call `HAL_IWDG_Refresh(&hiwdg)` (`SD_WATCHDOG_RUNNING` is 1). -/
def HAL_IWDG_Refresh (s : Machine) : Machine :=
  s.log Event.HAL_IWDG_Refresh

/-- The call `f_close(&SimpleSD_file)`. -/
def f_close (s : Machine) : Machine :=
  { s with fileOpen := false, trace := s.trace ++ [Event.f_close] }

/-- The call `f_mount(NULL, APPLICATION_FS_DIR, 0)`: unregister the volume. -/
def f_unmount (s : Machine) : Machine :=
  { s with mounted := false, trace := s.trace ++ [Event.f_unmount] }

/-- The function `SimpleSD_DeInit`. -/
def SimpleSD_DeInit (s : Machine) : Machine :=
  f_unmount (f_close s)

/-- The call `HAL_FLASH_Unlock()`. -/
def HAL_FLASH_Unlock (s : Machine) : Machine :=
  { s with locked := false, trace := s.trace ++ [Event.HAL_FLASH_Unlock] }

/-- The call `HAL_FLASH_Lock()`. -/
def HAL_FLASH_Lock (s : Machine) : Machine :=
  { s with locked := true, trace := s.trace ++ [Event.HAL_FLASH_Lock] }

/-- The call `f_mount(&FileSystem, APPLICATION_FS_DIR, 1)`. -/
def f_mount (w : World) (s : Machine) : Nat × Machine :=
  (w.f_mount,
   { s with mounted := decide (w.f_mount = FR_OK),
            trace := s.trace ++ [Event.f_mount w.f_mount] })

/-- The call `f_open(&SimpleSD_file, APPLICATION_BIN_FILENAME, FA_OPEN_EXISTING | FA_READ)`; the
read pointer of the file object starts at the beginning of the file. -/
def f_open (w : World) (s : Machine) : Nat × Machine :=
  (w.f_open,
   { s with fileOpen := decide (w.f_open = FR_OK),
            fileReads := 0,
            trace := s.trace ++ [Event.f_open w.f_open] })

/-- The call `HAL_GPIO_ReadPin(SDSimple_CD_Port, SDSimple_CD_Pin)`. -/
def HAL_GPIO_ReadPin (w : World) (s : Machine) : Nat × Machine :=
  (w.HAL_GPIO_ReadPin s.pinReads,
   { s with pinReads := s.pinReads + 1,
            trace := s.trace ++ [Event.HAL_GPIO_ReadPin (w.HAL_GPIO_ReadPin s.pinReads)] })

/-! ## Storage presence detector -/

/-- The loop of `SimpleSD_DetectCard`; the first argument is the number of samples still
to take (`SDSimple_CD_Detect_Samples - counter`). -/
def detectLoop (w : World) : Nat → Machine → Nat × Machine
  | 0, s => (SIMPLESD_DETECTED, s)
  | n + 1, s =>
    let r := HAL_GPIO_ReadPin w s
    if r.1 ≠ SDSimple_CD_Detect_Level then (SIMPLESD_NOT_DETECTED, r.2)
    else detectLoop w n (r.2.log (Event.HAL_Delay 1))

/-- The function `SimpleSD_DetectCard`. -/
def SimpleSD_DetectCard (w : World) (s : Machine) : Nat × Machine :=
  detectLoop w SDSimple_CD_Detect_Samples s

/-! ## Update orchestrator -/

/-- The erase loop of `SimpleSD_FirmwareUpgrade` (source lines 104-114):
`for (current_sector = firstSector; current_sector < firstSector + max_sectors;
current_sector++)`.  The first component of the result is the code of an early `return`,
or `none` when the loop runs to its end. -/
def eraseLoop (w : World) (firstSector max_sectors current_sector : Nat) (s : Machine) :
    Option Nat × Machine :=
  if current_sector < (firstSector + max_sectors) % U32 then
    let r := w.HAL_FLASHEx_Erase s.flash current_sector 1
    let s1 := { s with flash := r.2,
                       trace := s.trace ++ [Event.HAL_FLASHEx_Erase current_sector 1 r.1] }
    if r.1 ≠ HAL_OK then
      (some SIMPLESD_FLASH_ERASE_ERROR, HAL_FLASH_Lock (SimpleSD_DeInit s1))
    else
      eraseLoop w firstSector max_sectors ((current_sector + 1) % U32) s1
  else (none, s)
termination_by (firstSector + max_sectors) % U32 - current_sector
decreasing_by
  have hb : (firstSector + max_sectors) % U32 < U32 := Nat.mod_lt _ (by decide)
  have hc : (current_sector + 1) % U32 = current_sector + 1 := Nat.mod_eq_of_lt (by omega)
  omega

/-- The programming loop of `SimpleSD_FirmwareUpgrade` (source lines 153-184):
`while (Address < APPLICATION_END_ADDRESS)`.  `FileData` is the 4-byte buffer, which keeps
its content from one pass to the next.  The first component of the result is the code of
an early `return`, or `none` when the loop runs to its end. -/
def programLoop (w : World) (Address FileData : Nat) (s : Machine) : Option Nat × Machine :=
  if Address < APPLICATION_END_ADDRESS then
    let r := w.f_read s.fileReads FileData
    let FileData := r.FileData % U32
    let s1 := { s with fileReads := s.fileReads + 1,
                       trace := s.trace ++ [Event.f_read r.fresult r.Bytes] }
    if r.Bytes = 0 ∨ r.fresult ≠ FR_OK then
      (some SIMPLESD_FS_READ_ERROR, HAL_FLASH_Lock (SimpleSD_DeInit s1))
    else
      let p := w.HAL_FLASH_Program s1.flash Address FileData
      let s2 := { s1 with flash := p.2,
                          trace := s1.trace ++ [Event.HAL_FLASH_Program Address FileData p.1] }
      if p.1 = HAL_OK then
        let s3 := s2.log (Event.readBack Address (s2.flash Address % U32) FileData)
        if s2.flash Address % U32 ≠ FileData then
          (some SIMPLESD_FLASH_WRITE_COMPARE_ERROR, HAL_FLASH_Lock (SimpleSD_DeInit s3))
        else
          programLoop w ((Address + 4) % U32) FileData s3
      else
        (some SIMPLESD_FLASH_WRITE_ERROR, HAL_FLASH_Lock (SimpleSD_DeInit s2))
  else (none, s)
termination_by APPLICATION_END_ADDRESS - Address
decreasing_by
  have hc : (Address + 4) % U32 = Address + 4 := by
    apply Nat.mod_eq_of_lt
    have : APPLICATION_END_ADDRESS + 4 < U32 := by decide
    omega
  omega

/-- The value of the local `Address` when the programming loop (source lines 153-184) is
left, at its end or by an early `return`: the passes are those of `programLoop`, and the
result is the cursor instead of the code. -/
def programCursor (w : World) (Address FileData : Nat) (s : Machine) : Nat :=
  if Address < APPLICATION_END_ADDRESS then
    let r := w.f_read s.fileReads FileData
    let FileData := r.FileData % U32
    let s1 := { s with fileReads := s.fileReads + 1,
                       trace := s.trace ++ [Event.f_read r.fresult r.Bytes] }
    if r.Bytes = 0 ∨ r.fresult ≠ FR_OK then Address
    else
      let p := w.HAL_FLASH_Program s1.flash Address FileData
      let s2 := { s1 with flash := p.2,
                          trace := s1.trace ++ [Event.HAL_FLASH_Program Address FileData p.1] }
      if p.1 = HAL_OK then
        let s3 := s2.log (Event.readBack Address (s2.flash Address % U32) FileData)
        if s2.flash Address % U32 ≠ FileData then Address
        else programCursor w ((Address + 4) % U32) FileData s3
      else Address
  else Address
termination_by APPLICATION_END_ADDRESS - Address
decreasing_by
  have hc : (Address + 4) % U32 = Address + 4 := by
    apply Nat.mod_eq_of_lt
    have : APPLICATION_END_ADDRESS + 4 < U32 := by decide
    omega
  omega

/-- The function `SimpleSD_FirmwareUpgrade`.  The result is the returned code and the state
at return.
The flag-clearing macro and the six cache macros act on registers that are not modelled;
they are logged only. -/
def SimpleSD_FirmwareUpgrade (w : World) (s : Machine) : Nat × Machine :=
  let s := SimpleSD_ModeLED SIMPLESD_LED_STOPPED_MODE s
  let s := HAL_IWDG_Refresh s
  let d := SimpleSD_DetectCard w s
  let s := d.2.log (Event.SimpleSD_DetectCard d.1)
  if d.1 ≠ 0 then
    let m := f_mount w s
    if m.1 ≠ FR_OK then (SIMPLESD_FS_MOUNT_ERROR, m.2)
    else
      let o := f_open w m.2
      if o.1 ≠ FR_OK then (SIMPLESD_FS_OPEN_ERROR, SimpleSD_DeInit o.2)
      else
        let s := SimpleSD_ModeLED SIMPLESD_LED_4HZ_MODE o.2
        let s := HAL_IWDG_Refresh s
        let s := HAL_FLASH_Unlock s
        let s := s.log Event.FLASH_CLEAR_FLAG
        let firstSector := SimpleSD_FindSector APPLICATION_START_ADDRESS
        let max_sectors :=
          (SimpleSD_FindSector APPLICATION_END_ADDRESS + U32 - firstSector + 1) % U32
        let e := eraseLoop w firstSector max_sectors firstSector s
        match e.1 with
        | some code => (code, e.2)
        | none =>
          let s := e.2.log Event.FLASH_CLEAR_FLAG
          let s := HAL_IWDG_Refresh s
          let s := HAL_IWDG_Refresh s
          let s := s.log Event.FLASH_CACHE_RESET
          let s := HAL_IWDG_Refresh s
          let s := SimpleSD_ModeLED SIMPLESD_LED_10HZ_MODE s
          let s := s.log Event.FLASH_CLEAR_FLAG
          let p := programLoop w APPLICATION_START_ADDRESS w.FileData s
          match p.1 with
          | some code => (code, p.2)
          | none =>
            let s := SimpleSD_DeInit p.2
            let s := HAL_FLASH_Lock s
            let c := SimpleSD_CRC_Check CRC_CALCULATION_METHOD s.flash
            let s := s.log (Event.SimpleSD_CRC_Check c)
            if c = SIMPLESD_CRC_SAME then (SIMPLESD_OK, s)
            else (SIMPLESD_NO_SD, s)
  else (SIMPLESD_NO_SD, s)

/-! ## Hand-over to the application -/

/-- The registers of the processor core that `SimpleSD_JumpToMainFirmware` writes:
`SysTick->CTRL`, `SysTick->LOAD`, `SysTick->VAL`, `SCB->VTOR`, the main stack pointer, and
the program counter. -/
structure Core where
  SysTick_CTRL : Nat
  SysTick_LOAD : Nat
  SysTick_VAL : Nat
  SCB_VTOR : Nat
  MSP : Nat
  PC : Nat
  deriving DecidableEq, Repr

/-- The two vendor routines that `SimpleSD_JumpToMainFirmware` calls first.  They are not
part of the library; whatever they do to the core registers, they return. -/
structure Vendor where
  HAL_RCC_DeInit : Core → Core
  HAL_DeInit : Core → Core

/-- The function `SimpleSD_JumpToMainFirmware`, statement by statement; `mem` is the flash
as seen by `*(__IO uint32_t*)address`.  The function does not return: the result is the core
at the moment the call `JumpToApplication()` has transferred control. -/
def SimpleSD_JumpToMainFirmware (v : Vendor) (mem : Nat → Nat) (c : Core) : Core :=
  let c := v.HAL_RCC_DeInit c
  let c := v.HAL_DeInit c
  let c := { c with SysTick_CTRL := 0 }
  let c := { c with SysTick_LOAD := 0 }
  let c := { c with SysTick_VAL := 0 }
  let c := { c with SCB_VTOR := APPLICATION_START_ADDRESS }
  let JumpAddress := mem (APPLICATION_START_ADDRESS + 4) % U32
  let JumpToApplication := JumpAddress
  let c := { c with MSP := mem APPLICATION_START_ADDRESS % U32 }
  { c with PC := JumpToApplication }

/-! ## Reading the log -/

/-- A step whose outcome makes `SimpleSD_FirmwareUpgrade` give up. -/
def Event.isFailure : Event → Bool
  | .SimpleSD_DetectCard result => decide (result = 0)
  | .f_mount fresult => decide (fresult ≠ FR_OK)
  | .f_open fresult => decide (fresult ≠ FR_OK)
  | .HAL_FLASHEx_Erase _ _ status => decide (status ≠ HAL_OK)
  | .f_read fresult Bytes => decide (Bytes = 0 ∨ fresult ≠ FR_OK)
  | .HAL_FLASH_Program _ _ status => decide (status ≠ HAL_OK)
  | .readBack _ value FileData => decide (value ≠ FileData)
  | .SimpleSD_CRC_Check result => decide (result ≠ SIMPLESD_CRC_SAME)
  | _ => false

/-- The outcome that the comment block of `SimpleSD_FirmwareUpgrade` and the comments of
`enum SimpleSD_ErrorCodes` assign to a failing step before verification. -/
def Event.assignedOutcome : Event → Option Nat
  | .SimpleSD_DetectCard _ => some SIMPLESD_NO_SD
  | .f_mount _ => some SIMPLESD_FS_MOUNT_ERROR
  | .f_open _ => some SIMPLESD_FS_OPEN_ERROR
  | .HAL_FLASHEx_Erase _ _ _ => some SIMPLESD_FLASH_ERASE_ERROR
  | .f_read _ _ => some SIMPLESD_FS_READ_ERROR
  | .HAL_FLASH_Program _ _ _ => some SIMPLESD_FLASH_WRITE_ERROR
  | .readBack _ _ _ => some SIMPLESD_FLASH_WRITE_COMPARE_ERROR
  | _ => none

/-- The verification step. -/
def Event.isVerification : Event → Bool
  | .SimpleSD_CRC_Check _ => true
  | _ => false

/-- A mount, open, erase, read or program operation. -/
def Event.isOperation : Event → Bool
  | .f_mount _ => true
  | .f_open _ => true
  | .HAL_FLASHEx_Erase _ _ _ => true
  | .f_read _ _ => true
  | .HAL_FLASH_Program _ _ _ => true
  | _ => false

/-- The cleanup calls: close, unmount, relock. -/
def Event.isCleanup : Event → Bool
  | .f_close => true
  | .f_unmount => true
  | .HAL_FLASH_Lock => true
  | _ => false

/-- The sectors handed to `HAL_FLASHEx_Erase`, with `NbSectors`, in call order. -/
def erasedSectors : List Event → List (Nat × Nat)
  | [] => []
  | .HAL_FLASHEx_Erase Sector NbSectors _ :: t => (Sector, NbSectors) :: erasedSectors t
  | _ :: t => erasedSectors t

/-- The addresses handed to `HAL_FLASH_Program`, in call order. -/
def programmedAddresses : List Event → List Nat
  | [] => []
  | .HAL_FLASH_Program Address _ _ :: t => Address :: programmedAddresses t
  | _ :: t => programmedAddresses t

/-- The levels returned by the samplings of the detect pin, in call order. -/
def pinLevels : List Event → List Nat
  | [] => []
  | .HAL_GPIO_ReadPin level :: t => level :: pinLevels t
  | _ :: t => pinLevels t

/-- The number of `HAL_GPIO_TogglePin` calls in a log. -/
def toggleCount : List Event → Nat
  | [] => 0
  | .HAL_GPIO_TogglePin :: t => toggleCount t + 1
  | _ :: t => toggleCount t

/-- The rate selected by the last `SimpleSD_ModeLED` call of a log, if there is one. -/
def lastMode : List Event → Option Nat
  | [] => none
  | .SimpleSD_ModeLED Mode :: t => (lastMode t).orElse (fun _ => some Mode)
  | _ :: t => lastMode t

/-- The 32-bit word that the `k`-th further `f_read` leaves in the buffer `FileData`, when
the next read is the `r`-th since the file was opened and the buffer holds `buf`: the words
of the image in the order in which the programming loop receives them. -/
def fileWord (w : World) : Nat → Nat → Nat → Nat
  | 0, r, buf => (w.f_read r buf).FileData % U32
  | k + 1, r, buf => fileWord w k (r + 1) ((w.f_read r buf).FileData % U32)

/-! ## Concrete environments -/

/-- Byte `i` (0 = least significant) of a 32-bit word. -/
def byteOf (word i : Nat) : Nat := (word / 256 ^ i) % 256

/-- FatFs `f_read` of up to 4 bytes on a healthy medium, for an image of `size` bytes with
content `byte`: the `n`-th call finds the read pointer at `min (4 n) size`, transfers
`min 4 (size - pointer)` bytes to the start of the buffer (little-endian, as on the target)
and leaves the remaining buffer bytes as they were. -/
def fileRead (size : Nat) (byte : Nat → Nat) (n buf : Nat) : ReadResult :=
  let fptr := min (4 * n) size
  let cnt := min 4 (size - fptr)
  let b := fun i => if i < cnt then byte (fptr + i) % 256 else byteOf buf i
  { fresult := FR_OK, Bytes := cnt,
    FileData := b 0 + 256 * b 1 + 256 ^ 2 * b 2 + 256 ^ 3 * b 3 }

/-- The little-endian 32-bit word made of bytes `4 n .. 4 n + 3` of an image. -/
def imageWord (byte : Nat → Nat) (n : Nat) : Nat :=
  byte (4 * n) % 256 + 256 * (byte (4 * n + 1) % 256) + 256 ^ 2 * (byte (4 * n + 2) % 256) +
    256 ^ 3 * (byte (4 * n + 3) % 256)

/-- A healthy board: the card is seated, the volume mounts, the image of `size` bytes opens,
an erase succeeds and leaves `0xFFFFFFFF` in every word of the erased sectors, and
programming a word succeeds and stores it at its address. -/
def healthyWorld (size : Nat) (byte : Nat → Nat) : World where
  HAL_GPIO_ReadPin := fun _ => SDSimple_CD_Detect_Level
  f_mount := FR_OK
  f_open := FR_OK
  f_read := fileRead size byte
  HAL_FLASHEx_Erase := fun mem Sector NbSectors =>
    (HAL_OK, fun a =>
      if ADDR_FLASH_SECTOR_0 ≤ a ∧ a < 0x08200000 ∧ Sector ≤ SimpleSD_FindSector a ∧
          SimpleSD_FindSector a < Sector + NbSectors then 0xFFFFFFFF
      else mem a)
  HAL_FLASH_Program := fun mem Address Data => (HAL_OK, Function.update mem Address Data)
  FileData := 0

/-- An image whose checksum verifies in both configurations: the first word is
`0xFFFFFFFF`, which takes the running checksum from the seed to 0, and every later byte,
the stored checksum included, is 0. -/
def validImage : Nat → Nat := fun i => if i < 4 then 255 else 0

/-- The image `validImage` with its stored checksum word (the last word of the region)
changed from 0 to 1. -/
def corruptImage : Nat → Nat :=
  fun i => if i < 4 then 255 else if i = 0x1DFFFC then 1 else 0

/-- A board without a card: the first sample of the detect pin is at the other level. -/
def absentWorld : World :=
  { healthyWorld 0 (fun _ => 0) with HAL_GPIO_ReadPin := fun _ => 1 }

/-- A healthy board whose card holds no image: `f_open` returns `FR_NO_FILE` (4). -/
def noFileWorld : World :=
  { healthyWorld 0 (fun _ => 0) with f_open := 4 }

/-- The log of ten good samplings of the detect pin. -/
def tenSamples : List Event :=
  (List.replicate 10 [Event.HAL_GPIO_ReadPin SDSimple_CD_Detect_Level, Event.HAL_Delay 1]).flatten

/-- A machine at reset: flash locked, nothing mounted or open, empty log. -/
def resetMachine (mem : Nat → Nat) : Machine where
  flash := mem
  locked := true
  mounted := false
  fileOpen := false
  pinReads := 0
  fileReads := 0
  LED_Reload_Value := 0
  LED_Toggle_Counter := 0
  LED_Pin := GPIO_PIN_SET
  trace := []

/-! ## Reference checksum step: polynomial division over GF(2)

A polynomial over GF(2) is written as the natural number whose bit `i` is the coefficient
of `x^i`; addition of polynomials is XOR, multiplication by `x^k` is a left shift by `k`. -/

/-- Degree of the polynomial `p` (of a non-zero one). -/
def gf2Degree (p : Nat) : Nat := Nat.log2 p

/-- Schoolbook long division, leading term first: `k` passes; the pass that is followed
by `j` more passes cancels the coefficient of `x^(deg p + j)` by adding `p * x^j`. -/
def gf2RemAux (p : Nat) : Nat → Nat → Nat
  | 0, a => a
  | k + 1, a =>
    gf2RemAux p k (if a.testBit (gf2Degree p + k) then a ^^^ (p <<< k) else a)

/-- The remainder of the polynomial `a` on division by the polynomial `p`, over GF(2):
long division over all terms of `a` of degree at least `deg p`. -/
def gf2Rem (a p : Nat) : Nat :=
  gf2RemAux p (gf2Degree a + 1 - gf2Degree p) a

/-- Carry-less product: the product of the polynomials `a` and `b` over GF(2), one pass
per coefficient of `a` among the lowest `k`. -/
def gf2MulAux (a b : Nat) : Nat → Nat
  | 0 => 0
  | k + 1 => gf2MulAux a b k ^^^ (if a.testBit k then b <<< k else 0)

/-- The product of the polynomials `a` and `b` over GF(2). -/
def gf2Mul (a b : Nat) : Nat := gf2MulAux a b (gf2Degree a + 1)

/-- The reference CRC step in the spec's words: the remainder of `(crc XOR data) * x^32`
on division by the degree-32 polynomial `0x104C11DB7`, most significant bit first, no
reflection, no final XOR. -/
def crcStepReference (crc data : Nat) : Nat :=
  gf2Rem ((crc ^^^ data) <<< 32) 0x104C11DB7

/-- The flash content used to tell the two checksum configurations apart: the first
application word is `0xFFFFFFFF`, the last word before the checksum is 1, every other
word, the stored checksum included, is 0. -/
def splitFlash : Nat → Nat :=
  fun a => if a = APPLICATION_START_ADDRESS then 0xFFFFFFFF
    else if a = APPLICATION_CRC_ADDRESS - 4 then 1 else 0

/-! ## The shape of a run

The log of a run is made of a few fixed stretches and of the passes of the three loops.
The definitions below name them; the theorems on the loops say which stretch occurs when. -/

/-- A sampling of the detect pin or the delay that follows it. -/
def Event.isSampling : Event → Bool
  | .HAL_GPIO_ReadPin _ => true
  | .HAL_Delay _ => true
  | _ => false

/-- One of the three calls of a pass of the programming loop. -/
def Event.isProgramStep : Event → Bool
  | .f_read _ _ => true
  | .HAL_FLASH_Program _ _ _ => true
  | .readBack _ _ _ => true
  | _ => false

/-- The number of `f_read` calls in a log. -/
def readCount : List Event → Nat
  | [] => 0
  | .f_read _ _ :: t => readCount t + 1
  | _ :: t => readCount t

/-- The log up to the return of `SimpleSD_DetectCard`. -/
def prologue (sampling : List Event) (d : Nat) : List Event :=
  [Event.SimpleSD_ModeLED SIMPLESD_LED_STOPPED_MODE, Event.HAL_IWDG_Refresh] ++ sampling ++
    [Event.SimpleSD_DetectCard d]

/-- Source lines 80-91: between a successful open and the erase loop. -/
def eraseSetup : List Event :=
  [Event.SimpleSD_ModeLED SIMPLESD_LED_4HZ_MODE, Event.HAL_IWDG_Refresh,
   Event.HAL_FLASH_Unlock, Event.FLASH_CLEAR_FLAG]

/-- Successful erases of `k` consecutive sectors from sector `c` on, one sector per call. -/
def eraseOk (c k : Nat) : List Event :=
  (List.range' c k).map (fun sec => Event.HAL_FLASHEx_Erase sec 1 HAL_OK)

/-- Source lines 116-149: between the erase loop and the programming loop. -/
def programSetup : List Event :=
  [Event.FLASH_CLEAR_FLAG, Event.HAL_IWDG_Refresh, Event.HAL_IWDG_Refresh,
   Event.FLASH_CACHE_RESET, Event.HAL_IWDG_Refresh,
   Event.SimpleSD_ModeLED SIMPLESD_LED_10HZ_MODE, Event.FLASH_CLEAR_FLAG]

/-- The calls of `SimpleSD_DeInit` followed by `HAL_FLASH_Lock`. -/
def cleanup : List Event :=
  [Event.f_close, Event.f_unmount, Event.HAL_FLASH_Lock]

/-- The events of `n` complete passes of the programming loop that start at address `A`
with the `r0`-th read of the file: the programmed addresses are `A`, `A + 4`, ..., there is
one read per pass, no call fails, and each read was a good answer of the environment. -/
def PassesOk (w : World) (A r0 n : Nat) (evs : List Event) : Prop :=
  programmedAddresses evs = (List.range n).map (fun k => A + 4 * k) ∧
  readCount evs = n ∧
  (∀ e ∈ evs, e.isProgramStep = true ∧ e.isFailure = false) ∧
  (∀ i, i < n → ∃ buf,
    (w.f_read (r0 + i) buf).Bytes ≠ 0 ∧ (w.f_read (r0 + i) buf).fresult = FR_OK)

/-- The events of a pass of the programming loop, at address `a` and with the `r`-th read,
that ends in an early return with `code`. -/
def ProgramFail (w : World) (a r : Nat) (tail : List Event) (code : Nat) : Prop :=
  ∃ buf,
    (tail = [Event.f_read (w.f_read r buf).fresult (w.f_read r buf).Bytes] ∧
      ((w.f_read r buf).Bytes = 0 ∨ (w.f_read r buf).fresult ≠ FR_OK) ∧
      code = SIMPLESD_FS_READ_ERROR) ∨
    (¬ ((w.f_read r buf).Bytes = 0 ∨ (w.f_read r buf).fresult ≠ FR_OK) ∧
      ∃ mem,
        (tail = [Event.f_read (w.f_read r buf).fresult (w.f_read r buf).Bytes,
            Event.HAL_FLASH_Program a ((w.f_read r buf).FileData % U32)
              (w.HAL_FLASH_Program mem a ((w.f_read r buf).FileData % U32)).1] ∧
          (w.HAL_FLASH_Program mem a ((w.f_read r buf).FileData % U32)).1 ≠ HAL_OK ∧
          code = SIMPLESD_FLASH_WRITE_ERROR) ∨
        (tail = [Event.f_read (w.f_read r buf).fresult (w.f_read r buf).Bytes,
            Event.HAL_FLASH_Program a ((w.f_read r buf).FileData % U32) HAL_OK,
            Event.readBack a
              ((w.HAL_FLASH_Program mem a ((w.f_read r buf).FileData % U32)).2 a % U32)
              ((w.f_read r buf).FileData % U32)] ∧
          (w.HAL_FLASH_Program mem a ((w.f_read r buf).FileData % U32)).1 = HAL_OK ∧
          (w.HAL_FLASH_Program mem a ((w.f_read r buf).FileData % U32)).2 a % U32 ≠
            (w.f_read r buf).FileData % U32 ∧
          code = SIMPLESD_FLASH_WRITE_COMPARE_ERROR))

/-- What the programming loop does from address `A` on: `n` complete passes, and then either
the end of the loop, with the cursor at or past the end address, or a failing pass, the
cleanup and an early return. -/
def ProgramLoopShape (w : World) (A FileData : Nat) (s : Machine) : Prop :=
  ∃ n mem evs, PassesOk w A s.fileReads n evs ∧
    ((programLoop w A FileData s =
        (none, { s with flash := mem, fileReads := s.fileReads + n,
                        trace := s.trace ++ evs }) ∧
      APPLICATION_END_ADDRESS ≤ A + 4 * n ∧
      (n = 0 ∨ A + 4 * (n - 1) < APPLICATION_END_ADDRESS)) ∨
    (A + 4 * n < APPLICATION_END_ADDRESS ∧ ∃ tail code,
      ProgramFail w (A + 4 * n) (s.fileReads + n) tail code ∧
      programLoop w A FileData s =
        (some code, HAL_FLASH_Lock (SimpleSD_DeInit
          { s with flash := mem, fileReads := s.fileReads + n + 1,
                   trace := s.trace ++ evs ++ tail }))))

/-- Source lines 116-192 of `SimpleSD_FirmwareUpgrade`, from the state in which the erase
loop ends: the code after the erase loop, cut out of the function for the proofs. -/
def programPhase (w : World) (s : Machine) : Nat × Machine :=
  let s := s.log Event.FLASH_CLEAR_FLAG
  let s := HAL_IWDG_Refresh s
  let s := HAL_IWDG_Refresh s
  let s := s.log Event.FLASH_CACHE_RESET
  let s := HAL_IWDG_Refresh s
  let s := SimpleSD_ModeLED SIMPLESD_LED_10HZ_MODE s
  let s := s.log Event.FLASH_CLEAR_FLAG
  let p := programLoop w APPLICATION_START_ADDRESS w.FileData s
  match p.1 with
  | some code => (code, p.2)
  | none =>
    let s := SimpleSD_DeInit p.2
    let s := HAL_FLASH_Lock s
    let c := SimpleSD_CRC_Check CRC_CALCULATION_METHOD s.flash
    let s := s.log (Event.SimpleSD_CRC_Check c)
    if c = SIMPLESD_CRC_SAME then (SIMPLESD_OK, s)
    else (SIMPLESD_NO_SD, s)

/-- Source lines 80-192 of `SimpleSD_FirmwareUpgrade`, from the state after a successful
open: the code after the open, cut out of the function for the proofs. -/
def erasePhase (w : World) (s : Machine) : Nat × Machine :=
  let s := SimpleSD_ModeLED SIMPLESD_LED_4HZ_MODE s
  let s := HAL_IWDG_Refresh s
  let s := HAL_FLASH_Unlock s
  let s := s.log Event.FLASH_CLEAR_FLAG
  let firstSector := SimpleSD_FindSector APPLICATION_START_ADDRESS
  let max_sectors :=
    (SimpleSD_FindSector APPLICATION_END_ADDRESS + U32 - firstSector + 1) % U32
  let e := eraseLoop w firstSector max_sectors firstSector s
  match e.1 with
  | some code => (code, e.2)
  | none => programPhase w e.2

/-- The log of one call of `SimpleSD_FirmwareUpgrade`: what the call appended to the log
it found. -/
def runLog (w : World) (s : Machine) : List Event :=
  (SimpleSD_FirmwareUpgrade w s).2.trace.drop s.trace.length

/-- The first sector of the application region. -/
def firstSector : Nat := SimpleSD_FindSector APPLICATION_START_ADDRESS

/-- The number of sectors of the application region. -/
def sectorCount : Nat := SimpleSD_FindSector APPLICATION_END_ADDRESS - firstSector + 1

/-- The number of words of the application region, the checksum word included. -/
def regionWords : Nat := (APPLICATION_END_ADDRESS + 1 - APPLICATION_START_ADDRESS) / 4

/-- The six ways in which a call of `SimpleSD_FirmwareUpgrade w s` can go, each with the
returned code and the complete state at return.  `k` is the number of samples of the detect
pin and `sampling` their log. -/
def RunShape (w : World) (s : Machine) (k : Nat) (sampling : List Event) : Prop :=
  -- card absent
  ((SimpleSD_DetectCard w s).1 = SIMPLESD_NOT_DETECTED ∧
    SimpleSD_FirmwareUpgrade w s =
    (SIMPLESD_NO_SD,
      { s with LED_Reload_Value := reloadValue SIMPLESD_LED_STOPPED_MODE,
               pinReads := s.pinReads + k,
               trace := s.trace ++ (prologue sampling SIMPLESD_NOT_DETECTED) })) ∨
  -- mount refused
  ((SimpleSD_DetectCard w s).1 = SIMPLESD_DETECTED ∧ w.f_mount ≠ FR_OK ∧
    SimpleSD_FirmwareUpgrade w s =
    (SIMPLESD_FS_MOUNT_ERROR,
      { s with LED_Reload_Value := reloadValue SIMPLESD_LED_STOPPED_MODE,
               pinReads := s.pinReads + k, mounted := false,
               trace := s.trace ++ (prologue sampling SIMPLESD_DETECTED ++
                 [Event.f_mount w.f_mount]) })) ∨
  -- open refused
  ((SimpleSD_DetectCard w s).1 = SIMPLESD_DETECTED ∧ w.f_mount = FR_OK ∧ w.f_open ≠ FR_OK ∧
    SimpleSD_FirmwareUpgrade w s =
    (SIMPLESD_FS_OPEN_ERROR,
      { s with LED_Reload_Value := reloadValue SIMPLESD_LED_STOPPED_MODE,
               pinReads := s.pinReads + k, mounted := false, fileOpen := false,
               fileReads := 0,
               trace := s.trace ++ (prologue sampling SIMPLESD_DETECTED ++
                 [Event.f_mount FR_OK, Event.f_open w.f_open, Event.f_close,
                  Event.f_unmount]) })) ∨
  -- an erase refused
  ((SimpleSD_DetectCard w s).1 = SIMPLESD_DETECTED ∧ w.f_mount = FR_OK ∧ w.f_open = FR_OK ∧
    ∃ j mem mem0,
    j < sectorCount ∧ (w.HAL_FLASHEx_Erase mem0 (firstSector + j) 1).1 ≠ HAL_OK ∧
    SimpleSD_FirmwareUpgrade w s =
    (SIMPLESD_FLASH_ERASE_ERROR,
      { s with LED_Reload_Value := reloadValue SIMPLESD_LED_4HZ_MODE,
               pinReads := s.pinReads + k, mounted := false, fileOpen := false,
               fileReads := 0, locked := true, flash := mem,
               trace := s.trace ++ (prologue sampling SIMPLESD_DETECTED ++
                 [Event.f_mount FR_OK, Event.f_open FR_OK] ++ eraseSetup ++
                 eraseOk firstSector j ++
                 [Event.HAL_FLASHEx_Erase (firstSector + j) 1
                   (w.HAL_FLASHEx_Erase mem0 (firstSector + j) 1).1] ++ cleanup) })) ∨
  -- a pass of the programming loop failed
  ((SimpleSD_DetectCard w s).1 = SIMPLESD_DETECTED ∧ w.f_mount = FR_OK ∧ w.f_open = FR_OK ∧
    ∃ n mem evs tail code,
    PassesOk w APPLICATION_START_ADDRESS 0 n evs ∧ n < regionWords ∧
    ProgramFail w (APPLICATION_START_ADDRESS + 4 * n) n tail code ∧
    SimpleSD_FirmwareUpgrade w s =
    (code,
      { s with LED_Reload_Value := reloadValue SIMPLESD_LED_10HZ_MODE,
               pinReads := s.pinReads + k, mounted := false, fileOpen := false,
               fileReads := n + 1, locked := true, flash := mem,
               trace := s.trace ++ (prologue sampling SIMPLESD_DETECTED ++
                 [Event.f_mount FR_OK, Event.f_open FR_OK] ++ eraseSetup ++
                 eraseOk firstSector sectorCount ++ programSetup ++ evs ++ tail ++
                 cleanup) })) ∨
  -- every word programmed; verification
  ((SimpleSD_DetectCard w s).1 = SIMPLESD_DETECTED ∧ w.f_mount = FR_OK ∧ w.f_open = FR_OK ∧
    ∃ mem evs,
    PassesOk w APPLICATION_START_ADDRESS 0 regionWords evs ∧
    (∃ S : Machine, S.fileReads = 0 ∧
      (programLoop w APPLICATION_START_ADDRESS w.FileData S).1 = none ∧
      (programLoop w APPLICATION_START_ADDRESS w.FileData S).2.flash = mem) ∧
    SimpleSD_FirmwareUpgrade w s =
    (if SimpleSD_CRC_Check CRC_CALCULATION_METHOD mem = SIMPLESD_CRC_SAME then SIMPLESD_OK
      else SIMPLESD_NO_SD,
      { s with LED_Reload_Value := reloadValue SIMPLESD_LED_10HZ_MODE,
               pinReads := s.pinReads + k, mounted := false, fileOpen := false,
               fileReads := regionWords, locked := true, flash := mem,
               trace := s.trace ++ (prologue sampling SIMPLESD_DETECTED ++
                 [Event.f_mount FR_OK, Event.f_open FR_OK] ++ eraseSetup ++
                 eraseOk firstSector sectorCount ++ programSetup ++ evs ++ cleanup ++
                 [Event.SimpleSD_CRC_Check
                   (SimpleSD_CRC_Check CRC_CALCULATION_METHOD mem)]) }))

/-! # Theorems -/

/-! ## Checksum engine -/

theorem crcShift_lt (r : Nat) : crcShift r < 2 ^ 32 := by
  unfold crcShift
  split
  · exact Nat.xor_lt_two_pow (Nat.mod_lt _ (by decide)) (by decide)
  · exact Nat.mod_lt _ (by decide)

theorem and_top_bit (r : Nat) :
    (r &&& 0x80000000 ≠ 0) ↔ r.testBit 31 = true := by
  constructor
  · intro h
    obtain ⟨i, hi⟩ := Nat.ne_zero_implies_bit_true h
    rw [Nat.testBit_and] at hi
    have h31 : (0x80000000 : Nat) = 2 ^ 31 := by norm_num
    rw [h31, Nat.testBit_two_pow] at hi
    simp only [Bool.and_eq_true, decide_eq_true_eq] at hi
    rw [hi.2]; exact hi.1
  · intro h hz
    have : (r &&& 0x80000000).testBit 31 = true := by
      rw [Nat.testBit_and, h]
      have h31 : (0x80000000 : Nat) = 2 ^ 31 := by norm_num
      rw [h31, Nat.testBit_two_pow_self]; rfl
    rw [hz] at this
    simp at this

/-- One pass of the register loop is one pass of long division, shifted. -/
theorem crcShift_shift (r k : Nat) (hr : r < 2 ^ 32) :
    crcShift r <<< k =
      if (r <<< (k + 1)).testBit (32 + k) then (r <<< (k + 1)) ^^^ (0x104C11DB7 <<< k)
      else r <<< (k + 1) := by
  have hbit : (r <<< (k + 1)).testBit (32 + k) = r.testBit 31 := by
    rw [Nat.testBit_shiftLeft]
    have h1 : 32 + k ≥ k + 1 := by omega
    have h2 : 32 + k - (k + 1) = 31 := by omega
    simp [h1, h2]
  rw [hbit]
  unfold crcShift
  by_cases h : r.testBit 31 = true
  · rw [if_pos ((and_top_bit r).2 h), if_pos h]
    apply Nat.eq_of_testBit_eq
    intro i
    have hP : (0x104C11DB7 : Nat) = 2 ^ 32 ^^^ CRC_POLYNOMIAL := by decide
    have hPlt : CRC_POLYNOMIAL < 2 ^ 32 := by decide
    simp only [Nat.testBit_shiftLeft, Nat.testBit_xor, U32, Nat.testBit_mod_two_pow, hP,
      Nat.testBit_two_pow]
    by_cases hik : i ≥ k
    · simp only [hik, decide_True, Bool.true_and]
      by_cases h32 : i - k < 32
      · have h3 : ¬ (32 = i - k) := by omega
        have h4 : i ≥ k + 1 ↔ i - k ≥ 1 := by omega
        have h5 : i - (k + 1) = i - k - 1 := by omega
        simp [h32, h3, h4, h5]
      · have hpz : CRC_POLYNOMIAL.testBit (i - k) = false :=
          Nat.testBit_lt_two_pow (lt_of_lt_of_le hPlt (Nat.pow_le_pow_right (by decide)
            (by omega)))
        have h6 : i ≥ k + 1 := by omega
        by_cases h7 : i - k = 32
        · have h8 : i - (k + 1) = 31 := by omega
          simp [h32, h7, h6, h8, h, hpz]
        · have h9 : r.testBit (i - (k + 1)) = false :=
            Nat.testBit_lt_two_pow (lt_of_lt_of_le hr (Nat.pow_le_pow_right (by decide)
              (by omega)))
          have h10 : ¬ (32 = i - k) := by omega
          simp [h32, h10, h6, h9, hpz]
    · simp [hik]
      intro h11; omega
  · have hf : r.testBit 31 = false := by simpa using h
    have hn : ¬ (r &&& 0x80000000 ≠ 0) := fun hc => h ((and_top_bit r).1 hc)
    rw [if_neg hn, if_neg h]
    have hlt : r < 2 ^ 31 := by
      apply Nat.lt_pow_two_of_testBit
      intro i hi
      by_cases h31 : i = 31
      · rw [h31]; exact hf
      · exact Nat.testBit_lt_two_pow (lt_of_lt_of_le hr (Nat.pow_le_pow_right (by decide)
          (by omega)))
    have : (r <<< 1) % U32 = r <<< 1 := by
      apply Nat.mod_eq_of_lt
      rw [Nat.shiftLeft_eq]; unfold U32; omega
    rw [this, Nat.shiftLeft_eq, Nat.shiftLeft_eq, Nat.shiftLeft_eq, pow_succ]
    ring

theorem gf2Degree_poly : gf2Degree 0x104C11DB7 = 32 := by
  unfold gf2Degree
  have h1 : 32 ≤ Nat.log2 0x104C11DB7 := (Nat.le_log2 (by decide)).2 (by decide)
  have h2 : Nat.log2 0x104C11DB7 < 33 := (Nat.log2_lt (by decide)).2 (by decide)
  omega

/-- The 32 passes of the register loop compute what `k` passes of long division compute
on the register content shifted up by `k`. -/
theorem crcBits_eq_gf2RemAux (k r : Nat) (hr : r < 2 ^ 32) :
    gf2RemAux 0x104C11DB7 k (r <<< k) = crcBits k r := by
  induction k generalizing r with
  | zero => simp [gf2RemAux, crcBits]
  | succ k ih =>
    rw [gf2RemAux, crcBits, gf2Degree_poly, ← crcShift_shift r k hr]
    exact ih _ (crcShift_lt r)

/-- Passes of long division over terms that are absent change nothing. -/
theorem gf2RemAux_extra (p k j a : Nat) (ha : a < 2 ^ (gf2Degree p + k)) :
    gf2RemAux p (k + j) a = gf2RemAux p k a := by
  induction j with
  | zero => rfl
  | succ j ih =>
    rw [← Nat.add_assoc, gf2RemAux]
    have hbit : a.testBit (gf2Degree p + (k + j)) = false :=
      Nat.testBit_lt_two_pow (lt_of_lt_of_le ha (Nat.pow_le_pow_right (by decide)
        (by omega)))
    simp only [hbit, Bool.false_eq_true, if_false]
    exact ih

theorem gf2Rem_eq_aux32 (a : Nat) (ha : a < 2 ^ 64) :
    gf2Rem a 0x104C11DB7 = gf2RemAux 0x104C11DB7 32 a := by
  unfold gf2Rem
  rw [gf2Degree_poly]
  have hk : gf2Degree a + 1 - 32 ≤ 32 := by
    unfold gf2Degree
    by_cases h0 : a = 0
    · subst h0; rw [Nat.log2_zero]; decide
    · have := (Nat.log2_lt h0).2 ha
      omega
  have hlt : a < 2 ^ (gf2Degree 0x104C11DB7 + (gf2Degree a + 1 - 32)) := by
    rw [gf2Degree_poly]
    unfold gf2Degree
    exact lt_of_lt_of_le Nat.lt_log2_self (Nat.pow_le_pow_right (by decide) (by omega))
  have := gf2RemAux_extra 0x104C11DB7 (gf2Degree a + 1 - 32) (32 - (gf2Degree a + 1 - 32)) a hlt
  rw [← this]
  congr 1
  omega

theorem CalculateCRC_32_eq_reference (crc data : Nat) (hc : crc < 2 ^ 32)
    (hd : data < 2 ^ 32) : CalculateCRC_32 crc data = crcStepReference crc data := by
  have hx : crc ^^^ data < 2 ^ 32 := Nat.xor_lt_two_pow hc hd
  unfold CalculateCRC_32 crcStepReference
  rw [gf2Rem_eq_aux32, crcBits_eq_gf2RemAux _ _ hx]
  rw [Nat.shiftLeft_eq]
  calc (crc ^^^ data) * 2 ^ 32 < 2 ^ 32 * 2 ^ 32 := Nat.mul_lt_mul_of_pos_right hx (by decide)
    _ = 2 ^ 64 := by norm_num

/-- Cancelling the leading term lowers the degree. -/
theorem gf2_cancel_lt (k a : Nat) (ha : a < 2 ^ (32 + k + 1)) :
    (if a.testBit (32 + k) then a ^^^ (0x104C11DB7 <<< k) else a) < 2 ^ (32 + k) := by
  apply Nat.lt_pow_two_of_testBit
  intro i hi
  have hhigh : ∀ j, j ≥ 32 + k + 1 → a.testBit j = false := fun j hj =>
    Nat.testBit_lt_two_pow (lt_of_lt_of_le ha (Nat.pow_le_pow_right (by decide) hj))
  by_cases hb : a.testBit (32 + k) = true
  · rw [if_pos hb, Nat.testBit_xor, Nat.testBit_shiftLeft]
    have hik : i ≥ k := by omega
    simp only [hik, decide_True, Bool.true_and]
    by_cases he : i = 32 + k
    · subst he
      have : 32 + k - k = 32 := by omega
      rw [this, hb]
      decide
    · have h1 : a.testBit i = false := hhigh i (by omega)
      have h2 : (0x104C11DB7 : Nat).testBit (i - k) = false :=
        Nat.testBit_lt_two_pow (lt_of_lt_of_le (by decide : (0x104C11DB7 : Nat) < 2 ^ 33)
          (Nat.pow_le_pow_right (by decide) (by omega)))
      rw [h1, h2]; rfl
  · rw [if_neg hb]
    by_cases he : i = 32 + k
    · subst he; simpa using hb
    · exact hhigh i (by omega)

theorem gf2MulAux_low (q b k j : Nat) (hj : j ≤ k) :
    gf2MulAux (2 ^ k + q) b j = gf2MulAux q b j := by
  induction j with
  | zero => rfl
  | succ j ih =>
    rw [gf2MulAux, gf2MulAux, ih (by omega), Nat.testBit_two_pow_add_gt (by omega)]

theorem gf2MulAux_extra (q b k j : Nat) (hq : q < 2 ^ k) :
    gf2MulAux q b (k + j) = gf2MulAux q b k := by
  induction j with
  | zero => rfl
  | succ j ih =>
    rw [← Nat.add_assoc, gf2MulAux, ih]
    have : q.testBit (k + j) = false :=
      Nat.testBit_lt_two_pow (lt_of_lt_of_le hq (Nat.pow_le_pow_right (by decide)
        (by omega)))
    simp [this]

theorem gf2Mul_eq_aux (q b k : Nat) (hq : q < 2 ^ k) (hk : 0 < k) :
    gf2Mul q b = gf2MulAux q b k := by
  unfold gf2Mul gf2Degree
  have hle : Nat.log2 q + 1 ≤ k := by
    by_cases h0 : q = 0
    · subst h0; rw [Nat.log2_zero]; omega
    · have := (Nat.log2_lt h0).2 hq
      omega
  have := gf2MulAux_extra q b (Nat.log2 q + 1) (k - (Nat.log2 q + 1)) Nat.lt_log2_self
  rw [← this]
  congr 1
  omega

/-- Long division by the CRC polynomial leaves a remainder of degree below 32 and a
quotient: `a = q * p + r` over GF(2). -/
theorem gf2RemAux_spec (k a : Nat) (ha : a < 2 ^ (32 + k)) :
    gf2RemAux 0x104C11DB7 k a < 2 ^ 32 ∧
      ∃ q, q < 2 ^ k ∧ a = gf2MulAux q 0x104C11DB7 k ^^^ gf2RemAux 0x104C11DB7 k a := by
  induction k generalizing a with
  | zero => exact ⟨by simpa [gf2RemAux] using ha, 0, by decide, by simp [gf2MulAux, gf2RemAux]⟩
  | succ k ih =>
    rw [gf2RemAux, gf2Degree_poly]
    have hlt := gf2_cancel_lt k a (by rw [Nat.add_assoc]; exact ha)
    obtain ⟨hr, q, hq, hdiv⟩ := ih _ hlt
    refine ⟨hr, ?_⟩
    by_cases hb : a.testBit (32 + k) = true
    · simp only [hb, if_true] at hdiv hr ⊢
      refine ⟨2 ^ k + q, by rw [pow_succ]; omega, ?_⟩
      rw [gf2MulAux, gf2MulAux_low q _ k k (le_refl k), Nat.testBit_two_pow_add_eq,
        Nat.testBit_lt_two_pow hq]
      simp only [Bool.not_false, if_true]
      have h1 : a = (a ^^^ 0x104C11DB7 <<< k) ^^^ 0x104C11DB7 <<< k := by
        rw [Nat.xor_assoc, Nat.xor_self, Nat.xor_zero]
      generalize gf2RemAux 0x104C11DB7 k (a ^^^ 0x104C11DB7 <<< k) = r at hdiv ⊢
      generalize gf2MulAux q 0x104C11DB7 k = m at hdiv ⊢
      calc a = (a ^^^ 0x104C11DB7 <<< k) ^^^ 0x104C11DB7 <<< k := h1
        _ = (m ^^^ r) ^^^ 0x104C11DB7 <<< k := by rw [hdiv]
        _ = (m ^^^ 0x104C11DB7 <<< k) ^^^ r := by
          rw [Nat.xor_assoc, Nat.xor_assoc, Nat.xor_comm r]
    · simp only [hb, Bool.false_eq_true, if_false] at hdiv hr ⊢
      refine ⟨q, by rw [pow_succ]; omega, ?_⟩
      rw [gf2MulAux, Nat.testBit_lt_two_pow hq]
      simpa using hdiv

/-! ### The word loop -/

theorem crcWords_add (mem : Nat → Nat) (n m c addr : Nat) (h : addr + 4 * (n + m) ≤ U32) :
    crcWords mem (n + m) c addr = crcWords mem m (crcWords mem n c addr) (addr + 4 * n) := by
  induction n generalizing c addr with
  | zero => simp [crcWords]
  | succ n ih =>
    have e : n + 1 + m = (n + m) + 1 := by omega
    rw [e, crcWords, crcWords]
    by_cases hz : n + m = 0
    · have hn : n = 0 := by omega
      have hm : m = 0 := by omega
      subst hn; subst hm
      simp [crcWords]
    · have hmod : (addr + 4) % U32 = addr + 4 := Nat.mod_eq_of_lt (by omega)
      rw [hmod, ih _ _ (by omega)]
      congr 1
      omega

/-- Over a stretch of zero words a zero running value stays zero. -/
theorem crcWords_zero (mem : Nat → Nat) (n addr : Nat) (h : addr + 4 * n ≤ U32)
    (hz : ∀ k, k < n → mem (addr + 4 * k) % U32 = 0) : crcWords mem n 0 addr = 0 := by
  induction n generalizing addr with
  | zero => rfl
  | succ n ih =>
    rw [crcWords]
    have h0 := hz 0 (by omega)
    simp only [Nat.mul_zero, Nat.add_zero] at h0
    rw [h0]
    have hc : CalculateCRC_32 0 0 = 0 := by rfl
    rw [hc]
    by_cases hn : n = 0
    · subst hn; rfl
    · have hmod : (addr + 4) % U32 = addr + 4 := Nat.mod_eq_of_lt (by omega)
      rw [hmod]
      apply ih _ (by omega)
      intro k hk
      have := hz (k + 1) (by omega)
      rw [← this]
      congr 2
      omega

/-- The word loop is a left fold of `CalculateCRC_32` over the words at `addr`, `addr + 4`,
and so on, as long as the addresses do not wrap. -/
theorem crcWords_eq_foldl (mem : Nat → Nat) (n c addr : Nat) (h : addr + 4 * n ≤ U32) :
    crcWords mem n c addr =
      List.foldl CalculateCRC_32 c ((List.range n).map (fun k => mem (addr + 4 * k) % U32)) := by
  induction n generalizing c addr with
  | zero => rfl
  | succ n ih =>
    rw [crcWords, List.range_succ_eq_map, List.map_cons, List.foldl_cons, List.map_map]
    by_cases hn : n = 0
    · subst hn; rfl
    · have hmod : (addr + 4) % U32 = addr + 4 := Nat.mod_eq_of_lt (by omega)
      rw [hmod, ih _ _ (by omega)]
      simp only [Nat.mul_zero, Nat.add_zero]
      congr 2
      funext k
      simp only [Function.comp, Nat.succ_eq_add_one]
      congr 2
      omega

theorem constants_eq :
    APPLICATION_START_ADDRESS = 0x08020000 ∧ APPLICATION_END_ADDRESS = 0x081FFFFF ∧
      APPLICATION_CRC_ADDRESS = 0x081FFFFC ∧ APPLICATION_CRC_CALCULATION_SIZE = 491519 ∧
      U32 = 4294967296 := by
  refine ⟨rfl, rfl, rfl, ?_, ?_⟩
  · norm_num [APPLICATION_CRC_CALCULATION_SIZE, APPLICATION_END_ADDRESS,
      APPLICATION_START_ADDRESS, APPLICATION_CRC_SIZE, U32]
  · norm_num [U32]

theorem splitFlash_at (a : Nat) :
    splitFlash a % U32 =
      if a = 0x08020000 then 0xFFFFFFFF else if a = 0x081FFFF8 then 1 else 0 := by
  unfold splitFlash
  rw [constants_eq.1, constants_eq.2.2.1, constants_eq.2.2.2.2]
  split
  · rfl
  · split <;> rfl

theorem splitFlash_first16 :
    crcWords splitFlash 16 0xFFFFFFFF APPLICATION_START_ADDRESS = 0 := by
  show crcWords splitFlash (15 + 1) 0xFFFFFFFF APPLICATION_START_ADDRESS = 0
  rw [crcWords, splitFlash_at, constants_eq.1, if_pos rfl]
  have h0 : CalculateCRC_32 0xFFFFFFFF 0xFFFFFFFF = 0 := by rfl
  rw [h0]
  apply crcWords_zero
  · rw [constants_eq.2.2.2.2]; norm_num
  · intro k hk
    rw [splitFlash_at, constants_eq.2.2.2.2]
    have h1 : ¬ ((0x08020000 + 4) % 4294967296 + 4 * k = 0x08020000) := by omega
    have h2 : ¬ ((0x08020000 + 4) % 4294967296 + 4 * k = 0x081FFFF8) := by omega
    rw [if_neg h1, if_neg h2]

theorem splitFlash_payload :
    crcWords splitFlash APPLICATION_CRC_CALCULATION_SIZE 0xFFFFFFFF APPLICATION_START_ADDRESS
      = 0x04C11DB7 := by
  have hsz : (491519 : Nat) = 1 + (491517 + 1) := by norm_num
  rw [constants_eq.2.2.2.1, constants_eq.1, hsz,
    crcWords_add _ _ _ _ _ (by rw [constants_eq.2.2.2.2]; norm_num),
    crcWords_add _ _ _ _ _ (by rw [constants_eq.2.2.2.2]; norm_num)]
  have h1 : crcWords splitFlash 1 0xFFFFFFFF 0x08020000 = 0 := by
    rw [crcWords, crcWords, splitFlash_at, if_pos rfl]
    rfl
  rw [h1]
  have h2 : crcWords splitFlash 491517 0 (0x08020000 + 4 * 1) = 0 := by
    apply crcWords_zero
    · rw [constants_eq.2.2.2.2]; norm_num
    · intro k hk
      rw [splitFlash_at]
      have h1 : ¬ (0x08020000 + 4 * 1 + 4 * k = 0x08020000) := by omega
      have h2 : ¬ (0x08020000 + 4 * 1 + 4 * k = 0x081FFFF8) := by omega
      rw [if_neg h1, if_neg h2]
  rw [h2, crcWords, crcWords, splitFlash_at]
  have h3 : ¬ (0x08020000 + 4 * 1 + 4 * 491517 = 0x08020000) := by norm_num
  have h4 : 0x08020000 + 4 * 1 + 4 * 491517 = 0x081FFFF8 := by norm_num
  rw [if_neg h3, if_pos h4]
  rfl

/-! ## The loops of the orchestrator -/

theorem detectLoop_spec (w : World) (n : Nat) (s : Machine) :
    ∃ k sampling, (∀ e ∈ sampling, e.isSampling = true) ∧
      (detectLoop w n s).2 =
        { s with pinReads := s.pinReads + k, trace := s.trace ++ sampling } ∧
      (((detectLoop w n s).1 = SIMPLESD_DETECTED ∧ k = n ∧
          ∀ i, i < n → w.HAL_GPIO_ReadPin (s.pinReads + i) = SDSimple_CD_Detect_Level) ∨
        ((detectLoop w n s).1 = SIMPLESD_NOT_DETECTED ∧ 0 < k ∧ k ≤ n ∧
          w.HAL_GPIO_ReadPin (s.pinReads + (k - 1)) ≠ SDSimple_CD_Detect_Level ∧
          ∀ i, i < k - 1 →
            w.HAL_GPIO_ReadPin (s.pinReads + i) = SDSimple_CD_Detect_Level)) := by
  induction n generalizing s with
  | zero =>
    exact ⟨0, [], by simp, by simp [detectLoop], Or.inl ⟨rfl, rfl, by simp⟩⟩
  | succ n ih =>
    by_cases h : w.HAL_GPIO_ReadPin s.pinReads ≠ SDSimple_CD_Detect_Level
    · rw [detectLoop]
      refine ⟨1, [Event.HAL_GPIO_ReadPin (w.HAL_GPIO_ReadPin s.pinReads)], ?_, ?_, Or.inr ?_⟩
      · simp [Event.isSampling]
      · simp [HAL_GPIO_ReadPin, h]
      · simp [HAL_GPIO_ReadPin, h]
    · have h0 : w.HAL_GPIO_ReadPin s.pinReads = SDSimple_CD_Detect_Level := by simpa using h
      have hstep : detectLoop w (n + 1) s =
          detectLoop w n { s with pinReads := s.pinReads + 1,
                                  trace := s.trace ++ [Event.HAL_GPIO_ReadPin
                                    (w.HAL_GPIO_ReadPin s.pinReads), Event.HAL_Delay 1] } := by
        rw [detectLoop]
        simp [HAL_GPIO_ReadPin, h0, Machine.log]
      rw [hstep]
      obtain ⟨k, sampling, hs, hst, hres⟩ :=
        ih { s with pinReads := s.pinReads + 1,
                    trace := s.trace ++ [Event.HAL_GPIO_ReadPin
                      (w.HAL_GPIO_ReadPin s.pinReads), Event.HAL_Delay 1] }
      refine ⟨k + 1, Event.HAL_GPIO_ReadPin (w.HAL_GPIO_ReadPin s.pinReads) ::
        Event.HAL_Delay 1 :: sampling, ?_, ?_, ?_⟩
      · intro e he
        simp only [List.mem_cons] at he
        rcases he with rfl | rfl | he
        · rfl
        · rfl
        · exact hs e he
      · rw [hst]
        simp [Nat.add_assoc, Nat.add_comm 1 k]
      · simp only at hres
        rcases hres with ⟨h1, h2, h3⟩ | ⟨h1, h2, h3, h4, h5⟩
        · refine Or.inl ⟨h1, by omega, ?_⟩
          intro i hi
          rcases Nat.eq_zero_or_pos i with rfl | hpos
          · simpa using h0
          · have := h3 (i - 1) (by omega)
            rw [← this]; congr 1; omega
        · refine Or.inr ⟨h1, by omega, by omega, ?_, ?_⟩
          · have e : s.pinReads + (k + 1 - 1) = s.pinReads + 1 + (k - 1) := by omega
            rw [e]; exact h4
          · intro i hi
            rcases Nat.eq_zero_or_pos i with rfl | hpos
            · simpa using h0
            · have := h5 (i - 1) (by omega)
              rw [← this]; congr 1; omega

theorem eraseOk_succ (c k : Nat) :
    eraseOk c (k + 1) = Event.HAL_FLASHEx_Erase c 1 HAL_OK :: eraseOk (c + 1) k := by
  simp [eraseOk, List.range'_succ]

/-- The erase loop either erases every sector up to the bound, or stops at the first erase
that the flash controller refuses and cleans up. -/
theorem eraseLoop_spec (w : World) (f m c : Nat) (s : Machine) :
    ∃ k mem,
      (eraseLoop w f m c s =
          (none, { s with flash := mem, trace := s.trace ++ eraseOk c k }) ∧
        k = (f + m) % U32 - c) ∨
      (c + k < (f + m) % U32 ∧ ∃ mem0,
        (w.HAL_FLASHEx_Erase mem0 (c + k) 1).1 ≠ HAL_OK ∧
        eraseLoop w f m c s =
          (some SIMPLESD_FLASH_ERASE_ERROR,
            HAL_FLASH_Lock (SimpleSD_DeInit
              { s with flash := mem,
                       trace := s.trace ++ eraseOk c k ++
                         [Event.HAL_FLASHEx_Erase (c + k) 1
                           (w.HAL_FLASHEx_Erase mem0 (c + k) 1).1] }))) := by
  refine eraseLoop.induct w f m
    (fun c s => ∃ k mem,
      (eraseLoop w f m c s =
          (none, { s with flash := mem, trace := s.trace ++ eraseOk c k }) ∧
        k = (f + m) % U32 - c) ∨
      (c + k < (f + m) % U32 ∧ ∃ mem0,
        (w.HAL_FLASHEx_Erase mem0 (c + k) 1).1 ≠ HAL_OK ∧
        eraseLoop w f m c s =
          (some SIMPLESD_FLASH_ERASE_ERROR,
            HAL_FLASH_Lock (SimpleSD_DeInit
              { s with flash := mem,
                       trace := s.trace ++ eraseOk c k ++
                         [Event.HAL_FLASHEx_Erase (c + k) 1
                           (w.HAL_FLASHEx_Erase mem0 (c + k) 1).1] })))) ?_ ?_ ?_ c s
  · intro c s hlt r hne
    refine ⟨0, r.2, Or.inr ⟨by simpa using hlt, s.flash, by simpa using hne, ?_⟩⟩
    rw [eraseLoop]
    simp only [hlt, if_true]
    rw [if_pos hne]
    simp [eraseOk, r]
  · intro c s hlt r s1 hok ih
    have hb : (f + m) % U32 < U32 := Nat.mod_lt _ (by decide)
    have hc : (c + 1) % U32 = c + 1 := Nat.mod_eq_of_lt (by omega)
    have hst : r.1 = HAL_OK := by simpa using hok
    rw [hc] at ih
    obtain ⟨k, mem, hcase⟩ := ih
    refine ⟨k + 1, mem, ?_⟩
    have hstep : eraseLoop w f m c s = eraseLoop w f m (c + 1) s1 := by
      rw [eraseLoop]
      simp only [hlt, if_true]
      rw [if_neg hok, hc]
    rw [hstep, eraseOk_succ]
    rcases hcase with ⟨h1, h2⟩ | ⟨h1, mem0, h2, h3⟩
    · refine Or.inl ⟨?_, by omega⟩
      rw [h1]
      simp [s1, hst]
    · refine Or.inr ⟨by omega, mem0, ?_, ?_⟩
      · rw [show c + (k + 1) = c + 1 + k by omega]; exact h2
      · rw [h3]
        simp [s1, hst, show c + (k + 1) = c + 1 + k by omega]
  · intro c s hge
    refine ⟨0, s.flash, Or.inl ⟨?_, by omega⟩⟩
    rw [eraseLoop]
    simp [hge, eraseOk]

theorem passesOk_zero (w : World) (A r0 : Nat) : PassesOk w A r0 0 [] := by
  refine ⟨rfl, rfl, ?_, ?_⟩
  · intro e he; cases he
  · intro i hi; omega

theorem passesOk_succ (w : World) (A r0 n buf mem : Nat) (v : Nat) (evs : List Event)
    (hrd : ¬ ((w.f_read r0 buf).Bytes = 0 ∨ (w.f_read r0 buf).fresult ≠ FR_OK))
    (h : PassesOk w (A + 4) (r0 + 1) n evs) :
    PassesOk w A r0 (n + 1)
      (Event.f_read (w.f_read r0 buf).fresult (w.f_read r0 buf).Bytes ::
        Event.HAL_FLASH_Program A v HAL_OK :: Event.readBack A mem mem :: evs) := by
  obtain ⟨h1, h2, h3, h4⟩ := h
  have hb : (w.f_read r0 buf).Bytes ≠ 0 := fun hc => hrd (Or.inl hc)
  have hf : (w.f_read r0 buf).fresult = FR_OK := by
    by_contra hc; exact hrd (Or.inr hc)
  refine ⟨?_, ?_, ?_, ?_⟩
  · simp only [programmedAddresses, h1, List.range_succ_eq_map, List.map_cons, List.map_map]
    simp only [Nat.mul_zero, Nat.add_zero, List.cons.injEq, true_and]
    apply List.map_congr_left
    intro k _
    simp only [Function.comp, Nat.succ_eq_add_one]
    omega
  · simp [readCount, h2]
  · intro e he
    simp only [List.mem_cons] at he
    rcases he with rfl | rfl | rfl | he
    · simp [Event.isProgramStep, Event.isFailure, hb, hf]
    · simp [Event.isProgramStep, Event.isFailure]
    · simp [Event.isProgramStep, Event.isFailure]
    · exact h3 e he
  · intro i hi
    rcases Nat.eq_zero_or_pos i with rfl | hpos
    · exact ⟨buf, hb, hf⟩
    · obtain ⟨b, hb1, hb2⟩ := h4 (i - 1) (by omega)
      have e : r0 + 1 + (i - 1) = r0 + i := by omega
      rw [e] at hb1 hb2
      exact ⟨b, hb1, hb2⟩

/-- The programming loop runs complete passes until the cursor reaches the end address or
a pass fails. -/
theorem programLoop_spec (w : World) (A FileData : Nat) (s : Machine) :
    ProgramLoopShape w A FileData s := by
  refine programLoop.induct w (fun A FileData s => ProgramLoopShape w A FileData s)
    ?_ ?_ ?_ ?_ ?_ A FileData s
  · intro A fd s hlt r hbad
    refine ⟨0, s.flash, [], passesOk_zero w A _, Or.inr ⟨by simpa using hlt, ?_⟩⟩
    refine ⟨[Event.f_read r.fresult r.Bytes], SIMPLESD_FS_READ_ERROR,
      ⟨fd, Or.inl ⟨rfl, hbad, rfl⟩⟩, ?_⟩
    rw [programLoop]
    simp only [hlt, if_true]
    rw [if_pos hbad]
    simp [r]
  · intro A fd s hlt r d s1 hgood p s2 hok hcmp
    refine ⟨0, p.2, [], passesOk_zero w A _, Or.inr ⟨by simpa using hlt, ?_⟩⟩
    refine ⟨[Event.f_read r.fresult r.Bytes, Event.HAL_FLASH_Program A d HAL_OK,
        Event.readBack A (p.2 A % U32) d], SIMPLESD_FLASH_WRITE_COMPARE_ERROR,
      ⟨fd, Or.inr ⟨hgood, s.flash, Or.inr ⟨rfl, hok, hcmp, rfl⟩⟩⟩, ?_⟩
    rw [programLoop]
    simp only [hlt, if_true]
    rw [if_neg hgood, if_pos hok, if_pos hcmp]
    have hok1 : (w.HAL_FLASH_Program s.flash A
        ((w.f_read s.fileReads fd).FileData % U32)).1 = HAL_OK := hok
    simp [Machine.log, s2, s1, p, r, d, hok1]
  · intro A fd s hlt r d s1 hgood p s2 hok s3 hcmp ih
    have hmod : (A + 4) % U32 = A + 4 := by
      apply Nat.mod_eq_of_lt
      have : APPLICATION_END_ADDRESS + 4 < U32 := by decide
      omega
    have heq : p.2 A % U32 = d := by simpa using hcmp
    have hok1 : (w.HAL_FLASH_Program s.flash A
        ((w.f_read s.fileReads fd).FileData % U32)).1 = HAL_OK := hok
    have heq1 : (w.HAL_FLASH_Program s.flash A
        ((w.f_read s.fileReads fd).FileData % U32)).2 A % U32 =
        (w.f_read s.fileReads fd).FileData % U32 := heq
    have hstep : programLoop w A fd s = programLoop w (A + 4) d s3 := by
      rw [programLoop]
      simp only [hlt, if_true]
      rw [if_neg hgood, if_pos hok, if_neg hcmp, hmod]
    rw [hmod] at ih
    obtain ⟨n, mem, evs, hpass, hcase⟩ := ih
    have hpass1 : PassesOk w A s.fileReads (n + 1)
        (Event.f_read r.fresult r.Bytes :: Event.HAL_FLASH_Program A d HAL_OK ::
          Event.readBack A d d :: evs) :=
      passesOk_succ w A s.fileReads n fd d d evs hgood hpass
    refine ⟨n + 1, mem, _, hpass1, ?_⟩
    rw [hstep]
    rcases hcase with ⟨h1, h2, h3⟩ | ⟨h1, tail, code, h2, h3⟩
    · refine Or.inl ⟨?_, by omega, Or.inr ?_⟩
      · rw [h1]
        simp [s3, Machine.log, s2, s1, heq1, hok1, Nat.add_assoc, p, r, d]
        omega
      · rcases h3 with rfl | h3
        · simpa using hlt
        · have e : A + 4 * (n + 1 - 1) = A + 4 + 4 * (n - 1) - 0 := by omega
          omega
    · refine Or.inr ⟨by omega, tail, code, ?_, ?_⟩
      · have e1 : A + 4 * (n + 1) = A + 4 + 4 * n := by omega
        have e2 : s.fileReads + (n + 1) = s3.fileReads + n := by
          simp [s3, Machine.log, s2, s1]; omega
        rw [e1, e2]; exact h2
      · rw [h3]
        have e3 : s.fileReads + (1 + (n + 1)) = s.fileReads + (n + 2) := by omega
        simp [s3, Machine.log, s2, s1, heq1, hok1, Nat.add_assoc, p, r, d, e3]
  · intro A fd s hlt r d s1 hgood p hbad
    refine ⟨0, p.2, [], passesOk_zero w A _, Or.inr ⟨by simpa using hlt, ?_⟩⟩
    refine ⟨[Event.f_read r.fresult r.Bytes, Event.HAL_FLASH_Program A d p.1],
      SIMPLESD_FLASH_WRITE_ERROR,
      ⟨fd, Or.inr ⟨hgood, s.flash, Or.inl ⟨rfl, hbad, rfl⟩⟩⟩, ?_⟩
    rw [programLoop]
    simp only [hlt, if_true]
    rw [if_neg hgood, if_neg hbad]
    simp [s1, p, r, d]
  · intro A fd s hge
    refine ⟨0, s.flash, [], passesOk_zero w A _, Or.inl ⟨?_, by omega, Or.inl rfl⟩⟩
    rw [programLoop]
    simp [hge]

/-! ## The orchestrator as a whole -/

theorem sector_constants :
    firstSector = 5 ∧ sectorCount = 19 ∧ regionWords = 491520 ∧
      SimpleSD_FindSector APPLICATION_END_ADDRESS = 23 := by
  refine ⟨?_, ?_, ?_, ?_⟩
  · decide
  · decide
  · norm_num [regionWords, APPLICATION_END_ADDRESS, APPLICATION_START_ADDRESS]
  · decide

theorem detectLoop_result_congr (w : World) (n : Nat) (s t : Machine)
    (h : s.pinReads = t.pinReads) : (detectLoop w n s).1 = (detectLoop w n t).1 := by
  induction n generalizing s t with
  | zero => rfl
  | succ n ih =>
    rw [detectLoop, detectLoop]
    simp only [HAL_GPIO_ReadPin, h]
    split
    · rfl
    · apply ih
      simp [Machine.log, h]

theorem SimpleSD_DetectCard_result (w : World) (s : Machine) :
    (SimpleSD_DetectCard w s).1 = SIMPLESD_DETECTED ∨
      (SimpleSD_DetectCard w s).1 = SIMPLESD_NOT_DETECTED := by
  obtain ⟨k, sampling, _, _, h | h⟩ := detectLoop_spec w SDSimple_CD_Detect_Samples s
  · exact Or.inl h.1
  · exact Or.inr h.1


theorem SimpleSD_FirmwareUpgrade_phases (w : World) (s : Machine) :
    SimpleSD_FirmwareUpgrade w s =
      (let s := SimpleSD_ModeLED SIMPLESD_LED_STOPPED_MODE s
       let s := HAL_IWDG_Refresh s
       let d := SimpleSD_DetectCard w s
       let s := d.2.log (Event.SimpleSD_DetectCard d.1)
       if d.1 ≠ 0 then
         let m := f_mount w s
         if m.1 ≠ FR_OK then (SIMPLESD_FS_MOUNT_ERROR, m.2)
         else
           let o := f_open w m.2
           if o.1 ≠ FR_OK then (SIMPLESD_FS_OPEN_ERROR, SimpleSD_DeInit o.2)
           else erasePhase w o.2
       else (SIMPLESD_NO_SD, s)) := by
  rfl

theorem programPhase_shape (w : World) (s : Machine) :
    (∃ n mem evs tail code,
      PassesOk w APPLICATION_START_ADDRESS s.fileReads n evs ∧ n < regionWords ∧
      ProgramFail w (APPLICATION_START_ADDRESS + 4 * n) (s.fileReads + n) tail code ∧
      programPhase w s =
        (code,
          { s with LED_Reload_Value := reloadValue SIMPLESD_LED_10HZ_MODE,
                   mounted := false, fileOpen := false,
                   fileReads := s.fileReads + n + 1, locked := true, flash := mem,
                   trace := s.trace ++ programSetup ++ evs ++ tail ++ cleanup })) ∨
    (∃ mem evs,
      PassesOk w APPLICATION_START_ADDRESS s.fileReads regionWords evs ∧
      (∃ S : Machine, S.fileReads = s.fileReads ∧
        (programLoop w APPLICATION_START_ADDRESS w.FileData S).1 = none ∧
        (programLoop w APPLICATION_START_ADDRESS w.FileData S).2.flash = mem) ∧
      programPhase w s =
        (if SimpleSD_CRC_Check CRC_CALCULATION_METHOD mem = SIMPLESD_CRC_SAME then SIMPLESD_OK
          else SIMPLESD_NO_SD,
          { s with LED_Reload_Value := reloadValue SIMPLESD_LED_10HZ_MODE,
                   mounted := false, fileOpen := false,
                   fileReads := s.fileReads + regionWords, locked := true, flash := mem,
                   trace := s.trace ++ programSetup ++ evs ++ cleanup ++
                     [Event.SimpleSD_CRC_Check
                       (SimpleSD_CRC_Check CRC_CALCULATION_METHOD mem)] })) := by
  have hS : (SimpleSD_ModeLED SIMPLESD_LED_10HZ_MODE (HAL_IWDG_Refresh
      ((HAL_IWDG_Refresh (HAL_IWDG_Refresh (s.log Event.FLASH_CLEAR_FLAG))).log
        Event.FLASH_CACHE_RESET))).log Event.FLASH_CLEAR_FLAG =
      { s with LED_Reload_Value := reloadValue SIMPLESD_LED_10HZ_MODE,
               trace := s.trace ++ programSetup } := by
    simp [Machine.log, HAL_IWDG_Refresh, SimpleSD_ModeLED, programSetup]
  unfold programPhase
  simp only []
  rw [hS]
  obtain ⟨n, mem, evs, hpass, hcase⟩ := programLoop_spec w APPLICATION_START_ADDRESS w.FileData
    { s with LED_Reload_Value := reloadValue SIMPLESD_LED_10HZ_MODE,
             trace := s.trace ++ programSetup }
  simp only [] at hpass hcase
  rcases hcase with ⟨h1, h2, h3⟩ | ⟨h1, tail, code, h2, h3⟩
  · right
    have hn : n = regionWords := by
      rw [sector_constants.2.2.1]
      rw [constants_eq.1, constants_eq.2.1] at h2 h3
      omega
    rw [hn] at hpass h1
    refine ⟨mem, evs, hpass,
      ⟨{ s with LED_Reload_Value := reloadValue SIMPLESD_LED_10HZ_MODE,
                trace := s.trace ++ programSetup }, rfl, by rw [h1], by rw [h1]⟩, ?_⟩
    rw [h1]
    by_cases hc : SimpleSD_CRC_Check CRC_CALCULATION_METHOD mem = SIMPLESD_CRC_SAME
    · simp [hc, Machine.log, cleanup, SimpleSD_DeInit, f_close, f_unmount, HAL_FLASH_Lock]
    · simp [hc, Machine.log, cleanup, SimpleSD_DeInit, f_close, f_unmount, HAL_FLASH_Lock]
  · left
    refine ⟨n, mem, evs, tail, code, hpass, ?_, h2, ?_⟩
    · rw [sector_constants.2.2.1]
      rw [constants_eq.1, constants_eq.2.1] at h1
      omega
    · rw [h3]
      simp [cleanup, SimpleSD_DeInit, f_close, f_unmount, HAL_FLASH_Lock]


theorem erase_bound :
    (SimpleSD_FindSector APPLICATION_START_ADDRESS +
      (SimpleSD_FindSector APPLICATION_END_ADDRESS + U32 -
        SimpleSD_FindSector APPLICATION_START_ADDRESS + 1) % U32) % U32 = 24 ∧
    SimpleSD_FindSector APPLICATION_START_ADDRESS = 5 := by
  constructor <;> decide

theorem erasePhase_shape (w : World) (s : Machine) :
    (∃ j mem mem0, j < sectorCount ∧
      (w.HAL_FLASHEx_Erase mem0 (firstSector + j) 1).1 ≠ HAL_OK ∧
      erasePhase w s =
        (SIMPLESD_FLASH_ERASE_ERROR,
          { s with LED_Reload_Value := reloadValue SIMPLESD_LED_4HZ_MODE,
                   mounted := false, fileOpen := false, locked := true, flash := mem,
                   trace := s.trace ++ eraseSetup ++ eraseOk firstSector j ++
                     [Event.HAL_FLASHEx_Erase (firstSector + j) 1
                       (w.HAL_FLASHEx_Erase mem0 (firstSector + j) 1).1] ++ cleanup })) ∨
    (∃ mem, erasePhase w s = programPhase w
      { s with LED_Reload_Value := reloadValue SIMPLESD_LED_4HZ_MODE, locked := false,
               flash := mem,
               trace := s.trace ++ eraseSetup ++ eraseOk firstSector sectorCount }) := by
  have hS : (HAL_FLASH_Unlock (HAL_IWDG_Refresh
      (SimpleSD_ModeLED SIMPLESD_LED_4HZ_MODE s))).log Event.FLASH_CLEAR_FLAG =
      { s with LED_Reload_Value := reloadValue SIMPLESD_LED_4HZ_MODE, locked := false,
               trace := s.trace ++ eraseSetup } := by
    simp [Machine.log, HAL_IWDG_Refresh, SimpleSD_ModeLED, HAL_FLASH_Unlock, eraseSetup]
  unfold erasePhase
  simp only []
  rw [hS]
  obtain ⟨k, mem, hcase⟩ := eraseLoop_spec w (SimpleSD_FindSector APPLICATION_START_ADDRESS)
    ((SimpleSD_FindSector APPLICATION_END_ADDRESS + U32 -
        SimpleSD_FindSector APPLICATION_START_ADDRESS + 1) % U32)
    (SimpleSD_FindSector APPLICATION_START_ADDRESS)
    { s with LED_Reload_Value := reloadValue SIMPLESD_LED_4HZ_MODE, locked := false,
             trace := s.trace ++ eraseSetup }
  rw [erase_bound.1] at hcase
  simp only [] at hcase
  have hf : firstSector = SimpleSD_FindSector APPLICATION_START_ADDRESS := rfl
  rw [← hf] at hcase ⊢
  rw [sector_constants.2.1]
  rcases hcase with ⟨h1, h2⟩ | ⟨h1, mem0, h2, h3⟩
  · right
    rw [sector_constants.1] at h2
    have hk : k = 19 := by omega
    rw [hk] at h1
    refine ⟨mem, ?_⟩
    rw [h1]
  · left
    refine ⟨k, mem, mem0, ?_, h2, ?_⟩
    · rw [sector_constants.1] at h1; omega
    · rw [h3]
      simp [cleanup, SimpleSD_DeInit, f_close, f_unmount, HAL_FLASH_Lock]

theorem run_shape (w : World) (s : Machine) :
    ∃ k sampling, (∀ e ∈ sampling, e.isSampling = true) ∧ RunShape w s k sampling := by
  have hdet := detectLoop_spec w SDSimple_CD_Detect_Samples
    (HAL_IWDG_Refresh (SimpleSD_ModeLED SIMPLESD_LED_STOPPED_MODE s))
  obtain ⟨k, sampling, hs, hst, hres⟩ := hdet
  have hcongr : (SimpleSD_DetectCard w s).1 =
      (detectLoop w SDSimple_CD_Detect_Samples
        (HAL_IWDG_Refresh (SimpleSD_ModeLED SIMPLESD_LED_STOPPED_MODE s))).1 :=
    detectLoop_result_congr w _ _ _ rfl
  refine ⟨k, sampling, hs, ?_⟩
  unfold RunShape
  rw [hcongr, SimpleSD_FirmwareUpgrade_phases]
  simp only [SimpleSD_DetectCard]
  rcases hres with ⟨hd, -, -⟩ | ⟨hd, -, -, -, -⟩
  · -- detected
    right
    rw [hd, hst]
    simp only [SIMPLESD_DETECTED, ne_eq, one_ne_zero, not_false_eq_true, if_true, true_and]
    by_cases hm : w.f_mount ≠ FR_OK
    · left
      refine ⟨hm, ?_⟩
      simp [f_mount, hm, Machine.log, HAL_IWDG_Refresh, SimpleSD_ModeLED, prologue]
    · right
      have hm0 : w.f_mount = FR_OK := by simpa using hm
      by_cases ho : w.f_open ≠ FR_OK
      · left
        refine ⟨hm0, ho, ?_⟩
        simp [f_mount, f_open, hm0, ho, Machine.log, HAL_IWDG_Refresh, SimpleSD_ModeLED,
          prologue, SimpleSD_DeInit, f_close, f_unmount]
      · right
        have ho0 : w.f_open = FR_OK := by simpa using ho
        simp only [f_mount, f_open, hm0, ho0, Machine.log, HAL_IWDG_Refresh, SimpleSD_ModeLED,
          ne_eq, not_true_eq_false, if_false, decide_True, true_and, not_false_eq_true,
          List.append_assoc, List.cons_append, List.nil_append]
        obtain ⟨j, mem, mem0, h1, h2, h3⟩ | ⟨mem, h1⟩ := erasePhase_shape w
          { flash := s.flash, locked := s.locked, mounted := true, fileOpen := true,
            pinReads := s.pinReads + k, fileReads := 0,
            LED_Reload_Value := reloadValue SIMPLESD_LED_STOPPED_MODE,
            LED_Toggle_Counter := s.LED_Toggle_Counter, LED_Pin := s.LED_Pin,
            trace := s.trace ++ Event.SimpleSD_ModeLED SIMPLESD_LED_STOPPED_MODE ::
              Event.HAL_IWDG_Refresh :: (sampling ++ [Event.SimpleSD_DetectCard 1,
                Event.f_mount FR_OK, Event.f_open FR_OK]) }
        · left
          refine ⟨j, mem, mem0, h1, h2, ?_⟩
          rw [h3]
          simp [prologue]
        · right
          rw [h1]
          obtain ⟨n, mem1, evs, tail, code, h2, h3, h4, h5⟩ | ⟨mem1, evs, h2, hprov, h3⟩ :=
            programPhase_shape w
              { flash := mem, locked := false, mounted := true, fileOpen := true,
                pinReads := s.pinReads + k, fileReads := 0,
                LED_Reload_Value := reloadValue SIMPLESD_LED_4HZ_MODE,
                LED_Toggle_Counter := s.LED_Toggle_Counter, LED_Pin := s.LED_Pin,
                trace := s.trace ++ Event.SimpleSD_ModeLED SIMPLESD_LED_STOPPED_MODE ::
                  Event.HAL_IWDG_Refresh :: (sampling ++ [Event.SimpleSD_DetectCard 1,
                    Event.f_mount FR_OK, Event.f_open FR_OK]) ++ eraseSetup ++
                  eraseOk firstSector sectorCount }
          · left
            simp only [Nat.zero_add] at h2 h4 h5
            refine ⟨n, mem1, evs, tail, code, h2, h3, h4, ?_⟩
            simp only at h5 ⊢
            rw [h5]
            simp [prologue]
          · right
            obtain ⟨S, hS1, hS2, hS3⟩ := hprov
            simp only [Nat.zero_add] at h2 h3 hS1
            refine ⟨mem1, evs, h2, ⟨S, hS1, hS2, hS3⟩, ?_⟩
            simp only at h3 ⊢
            rw [h3]
            simp [prologue]
  · left
    rw [hd, hst]
    simp [SIMPLESD_NOT_DETECTED, Machine.log, HAL_IWDG_Refresh, SimpleSD_ModeLED, prologue]

/-! ## Reading logs -/

theorem erasedSectors_append (a b : List Event) :
    erasedSectors (a ++ b) = erasedSectors a ++ erasedSectors b := by
  induction a with
  | nil => rfl
  | cons e t ih => cases e <;> simp [erasedSectors, ih]

theorem programmedAddresses_append (a b : List Event) :
    programmedAddresses (a ++ b) = programmedAddresses a ++ programmedAddresses b := by
  induction a with
  | nil => rfl
  | cons e t ih => cases e <;> simp [programmedAddresses, ih]

theorem readCount_append (a b : List Event) :
    readCount (a ++ b) = readCount a + readCount b := by
  induction a with
  | nil => simp [readCount]
  | cons e t ih =>
    cases e <;> simp [readCount, ih]
    omega

theorem sampling_reads (l : List Event) (h : ∀ e ∈ l, e.isSampling = true) :
    erasedSectors l = [] ∧ programmedAddresses l = [] ∧ readCount l = 0 := by
  induction l with
  | nil => exact ⟨rfl, rfl, rfl⟩
  | cons e t ih =>
    have ht := ih (fun x hx => h x (List.mem_cons_of_mem _ hx))
    have he := h e (List.mem_cons_self _ _)
    cases e <;> simp [Event.isSampling] at he <;>
      simp [erasedSectors, programmedAddresses, readCount, ht]

theorem programSteps_erased (l : List Event) (h : ∀ e ∈ l, e.isProgramStep = true) :
    erasedSectors l = [] := by
  induction l with
  | nil => rfl
  | cons e t ih =>
    have ht := ih (fun x hx => h x (List.mem_cons_of_mem _ hx))
    have he := h e (List.mem_cons_self _ _)
    cases e <;> simp [Event.isProgramStep] at he <;> simp [erasedSectors, ht]

theorem eraseOk_reads (c k : Nat) :
    erasedSectors (eraseOk c k) = (List.range' c k).map (fun sec => (sec, 1)) ∧
      programmedAddresses (eraseOk c k) = [] ∧ readCount (eraseOk c k) = 0 := by
  induction k generalizing c with
  | zero => exact ⟨rfl, rfl, rfl⟩
  | succ k ih =>
    rw [eraseOk_succ]
    obtain ⟨h1, h2, h3⟩ := ih (c + 1)
    simp [erasedSectors, programmedAddresses, readCount, h1, h2, h3, List.range'_succ]

theorem sampling_quiet (e : Event) (h : e.isSampling = true) :
    e.isFailure = false ∧ e.isOperation = false ∧ e.isCleanup = false ∧
      ∀ r, e ≠ Event.SimpleSD_CRC_Check r := by
  cases e <;> simp [Event.isSampling] at h <;>
    simp [Event.isFailure, Event.isOperation, Event.isCleanup]

theorem programStep_quiet (e : Event) (h : e.isProgramStep = true) :
    e.isCleanup = false ∧ ∀ r, e ≠ Event.SimpleSD_CRC_Check r := by
  cases e <;> simp [Event.isProgramStep] at h <;> simp [Event.isCleanup]

theorem eraseOk_mem (c k : Nat) (e : Event) (h : e ∈ eraseOk c k) :
    ∃ sec, c ≤ sec ∧ sec < c + k ∧ e = Event.HAL_FLASHEx_Erase sec 1 HAL_OK := by
  simp only [eraseOk, List.mem_map, List.mem_range'_1] at h
  obtain ⟨sec, ⟨h1, h2⟩, rfl⟩ := h
  exact ⟨sec, h1, h2, rfl⟩

theorem runLog_eq (w : World) (s : Machine) (code : Nat) (t : Machine) (l : List Event)
    (h : SimpleSD_FirmwareUpgrade w s = (code, t)) (ht : t.trace = s.trace ++ l) :
    runLog w s = l := by
  simp [runLog, h, ht]

theorem programFail_structure (w : World) (a r : Nat) (tail : List Event) (code : Nat)
    (h : ProgramFail w a r tail code) :
    ∃ pre f, tail = pre ++ [f] ∧
      (∀ e ∈ pre, e.isFailure = false ∧ e.isProgramStep = true) ∧
      f.isFailure = true ∧ f.assignedOutcome = some code ∧ f.isProgramStep = true := by
  obtain ⟨buf, h⟩ := h
  rcases h with ⟨h1, h2, h3⟩ | ⟨hgood, mem, ⟨h1, h2, h3⟩ | ⟨h1, h2, h3, h4⟩⟩
  · refine ⟨[], _, h1, by simp, ?_, ?_, rfl⟩
    · simpa [Event.isFailure] using h2
    · simp [Event.assignedOutcome, h3]
  · have hb : (w.f_read r buf).Bytes ≠ 0 := fun hc => hgood (Or.inl hc)
    have hf : (w.f_read r buf).fresult = FR_OK := by
      by_contra hc; exact hgood (Or.inr hc)
    refine ⟨[_], _, h1, ?_, ?_, ?_, rfl⟩
    · simp [Event.isFailure, Event.isProgramStep, hb, hf]
    · simpa [Event.isFailure] using h2
    · simp [Event.assignedOutcome, h3]
  · have hb : (w.f_read r buf).Bytes ≠ 0 := fun hc => hgood (Or.inl hc)
    have hf : (w.f_read r buf).fresult = FR_OK := by
      by_contra hc; exact hgood (Or.inr hc)
    refine ⟨[_, _], _, h1, ?_, ?_, ?_, rfl⟩
    · simp [Event.isFailure, Event.isProgramStep, hb, hf]
    · simpa [Event.isFailure] using h3
    · simp [Event.assignedOutcome, h4]

theorem forall_mem_append_of {P : Event → Prop} {a b : List Event}
    (ha : ∀ e ∈ a, P e) (hb : ∀ e ∈ b, P e) : ∀ e ∈ a ++ b, P e :=
  List.forall_mem_append.2 ⟨ha, hb⟩

theorem quiet_prologue (sampling : List Event) (hs : ∀ e ∈ sampling, e.isSampling = true) :
    ∀ e ∈ prologue sampling SIMPLESD_DETECTED,
      e.isFailure = false ∧ e.isVerification = false := by
  intro e he
  simp only [prologue, List.mem_append, List.mem_cons, List.mem_singleton, List.not_mem_nil,
    or_false] at he
  rcases he with ((rfl | rfl) | he) | rfl
  · decide
  · decide
  · have := hs e he
    cases e <;> simp [Event.isSampling] at this <;>
      simp [Event.isFailure, Event.isVerification]
  · decide

theorem quiet_opened :
    ∀ e ∈ [Event.f_mount FR_OK, Event.f_open FR_OK] ++ eraseSetup,
      e.isFailure = false ∧ e.isVerification = false := by
  decide

theorem quiet_programSetup :
    ∀ e ∈ programSetup, e.isFailure = false ∧ e.isVerification = false := by
  decide

theorem quiet_cleanup :
    ∀ e ∈ cleanup, e.isFailure = false ∧ e.isVerification = false := by
  decide

theorem quiet_eraseOk (c k : Nat) :
    ∀ e ∈ eraseOk c k, e.isFailure = false ∧ e.isVerification = false := by
  intro e he
  obtain ⟨sec, _, _, rfl⟩ := eraseOk_mem c k e he
  exact ⟨by simp [Event.isFailure], rfl⟩

theorem quiet_passes (w : World) (A r0 n : Nat) (evs : List Event)
    (h : PassesOk w A r0 n evs) :
    ∀ e ∈ evs, e.isFailure = false ∧ e.isVerification = false := by
  intro e he
  have := h.2.2.1 e he
  refine ⟨this.2, ?_⟩
  have hp := this.1
  cases e <;> simp [Event.isProgramStep] at hp <;> rfl

theorem quiet_steps (pre : List Event)
    (h : ∀ e ∈ pre, e.isFailure = false ∧ e.isProgramStep = true) :
    ∀ e ∈ pre, e.isFailure = false ∧ e.isVerification = false := by
  intro e he
  refine ⟨(h e he).1, ?_⟩
  have hp := (h e he).2
  cases e <;> simp [Event.isProgramStep] at hp <;> rfl

theorem cleanup_isCleanup : ∀ e ∈ cleanup, e.isCleanup = true := by
  decide


/-- Every run either succeeds, with a log that holds no failing step and holds the detection,
the mount, the open and a matching verification, or its log is a stretch without failing
step, then one failing step, then cleanup calls only; the code returned is the one assigned
to that step, and `SIMPLESD_NO_SD` when the step is the verification. -/
theorem runLog_structure (w : World) (s : Machine) :
    ((SimpleSD_FirmwareUpgrade w s).1 = SIMPLESD_OK ∧
      (∀ e ∈ runLog w s, e.isFailure = false) ∧
      Event.SimpleSD_DetectCard SIMPLESD_DETECTED ∈ runLog w s ∧
      Event.f_mount FR_OK ∈ runLog w s ∧ Event.f_open FR_OK ∈ runLog w s ∧
      Event.SimpleSD_CRC_Check SIMPLESD_CRC_SAME ∈ runLog w s ∧
      ∃ body, (∀ e ∈ body ++ cleanup, e.isVerification = false) ∧
        runLog w s = (body ++ cleanup) ++ [Event.SimpleSD_CRC_Check SIMPLESD_CRC_SAME]) ∨
    (∃ oks f cl, runLog w s = oks ++ f :: cl ∧
      (∀ e ∈ oks, e.isFailure = false ∧ e.isVerification = false) ∧
      f.isFailure = true ∧
      (f.assignedOutcome = some (SimpleSD_FirmwareUpgrade w s).1 ∨
        (f.isVerification = true ∧ (SimpleSD_FirmwareUpgrade w s).1 = SIMPLESD_NO_SD ∧
          cl = [] ∧ ∃ body, oks = body ++ cleanup)) ∧
      (∀ e ∈ cl, e.isCleanup = true)) := by
  obtain ⟨k, sampling, hs, hshape⟩ := run_shape w s
  have hq := quiet_prologue sampling hs
  rcases hshape with ⟨_, hrun⟩ | ⟨_, hm, hrun⟩ | ⟨_, hm, ho, hrun⟩ |
    ⟨_, hm, ho, j, mem, mem0, hj, hbad, hrun⟩ |
    ⟨_, hm, ho, n, mem, evs, tail, code, hpass, hn, hfail, hrun⟩ |
    ⟨_, hm, ho, mem, evs, hpass, _, hrun⟩
  · right
    have hlog := runLog_eq w s _ _ _ hrun rfl
    refine ⟨[Event.SimpleSD_ModeLED SIMPLESD_LED_STOPPED_MODE, Event.HAL_IWDG_Refresh] ++
      sampling, Event.SimpleSD_DetectCard SIMPLESD_NOT_DETECTED, [], ?_, ?_, rfl, ?_, by simp⟩
    · rw [hlog]; simp [prologue]
    · intro e he
      apply hq
      simp only [prologue, List.mem_append] at he ⊢
      exact Or.inl he
    · left; rw [hrun]; rfl
  · right
    have hlog := runLog_eq w s _ _ _ hrun rfl
    refine ⟨prologue sampling SIMPLESD_DETECTED, Event.f_mount w.f_mount, [], ?_, hq, ?_, ?_,
      by simp⟩
    · rw [hlog]
    · simpa [Event.isFailure] using hm
    · left; rw [hrun]; rfl
  · right
    have hlog := runLog_eq w s _ _ _ hrun rfl
    refine ⟨prologue sampling SIMPLESD_DETECTED ++ [Event.f_mount FR_OK],
      Event.f_open w.f_open, [Event.f_close, Event.f_unmount], ?_, ?_, ?_, ?_, by decide⟩
    · rw [hlog]; simp
    · exact forall_mem_append_of hq (by decide)
    · simpa [Event.isFailure] using ho
    · left; rw [hrun]; rfl
  · right
    have hlog := runLog_eq w s _ _ _ hrun rfl
    refine ⟨prologue sampling SIMPLESD_DETECTED ++
        ([Event.f_mount FR_OK, Event.f_open FR_OK] ++ eraseSetup) ++ eraseOk firstSector j,
      Event.HAL_FLASHEx_Erase (firstSector + j) 1
        (w.HAL_FLASHEx_Erase mem0 (firstSector + j) 1).1, cleanup, ?_, ?_, ?_, ?_,
      cleanup_isCleanup⟩
    · rw [hlog]; simp
    · exact forall_mem_append_of (forall_mem_append_of hq quiet_opened) (quiet_eraseOk _ _)
    · simpa [Event.isFailure] using hbad
    · left; rw [hrun]; rfl
  · right
    have hlog := runLog_eq w s _ _ _ hrun rfl
    obtain ⟨pre, f, htail, hpre, hf, hcode, _⟩ := programFail_structure w _ _ _ _ hfail
    refine ⟨prologue sampling SIMPLESD_DETECTED ++
        ([Event.f_mount FR_OK, Event.f_open FR_OK] ++ eraseSetup) ++
        eraseOk firstSector sectorCount ++ programSetup ++ evs ++ pre,
      f, cleanup, ?_, ?_, hf, ?_, cleanup_isCleanup⟩
    · rw [hlog, htail]; simp
    · exact forall_mem_append_of (forall_mem_append_of (forall_mem_append_of
        (forall_mem_append_of (forall_mem_append_of hq quiet_opened) (quiet_eraseOk _ _))
        quiet_programSetup) (quiet_passes _ _ _ _ _ hpass)) (quiet_steps _ hpre)
    · left; rw [hrun]; exact hcode
  · have hlog := runLog_eq w s _ _ _ hrun rfl
    have hbody : ∀ e ∈ prologue sampling SIMPLESD_DETECTED ++
        ([Event.f_mount FR_OK, Event.f_open FR_OK] ++ eraseSetup) ++
        eraseOk firstSector sectorCount ++ programSetup ++ evs ++ cleanup,
        e.isFailure = false ∧ e.isVerification = false :=
      forall_mem_append_of (forall_mem_append_of (forall_mem_append_of
        (forall_mem_append_of (forall_mem_append_of hq quiet_opened) (quiet_eraseOk _ _))
        quiet_programSetup) (quiet_passes _ _ _ _ _ hpass)) quiet_cleanup
    by_cases hc : SimpleSD_CRC_Check CRC_CALCULATION_METHOD mem = SIMPLESD_CRC_SAME
    · left
      have hlog1 : runLog w s = (prologue sampling SIMPLESD_DETECTED ++
          ([Event.f_mount FR_OK, Event.f_open FR_OK] ++ eraseSetup) ++
          eraseOk firstSector sectorCount ++ programSetup ++ evs ++ cleanup) ++
          [Event.SimpleSD_CRC_Check SIMPLESD_CRC_SAME] := by
        rw [hlog, hc]; simp
      refine ⟨by rw [hrun, if_pos hc], ?_, ?_, ?_, ?_, ?_, ?_⟩
      · rw [hlog1]
        exact forall_mem_append_of (fun e he => (hbody e he).1) (by decide)
      · rw [hlog1]; simp [prologue]
      · rw [hlog1]; simp
      · rw [hlog1]; simp
      · rw [hlog1]; simp
      · exact ⟨_, fun e he => (hbody e he).2, hlog1⟩
    · right
      refine ⟨_, Event.SimpleSD_CRC_Check (SimpleSD_CRC_Check CRC_CALCULATION_METHOD mem), [],
        ?_, hbody, ?_, ?_, by simp⟩
      · rw [hlog]; simp
      · simpa [Event.isFailure] using hc
      · right; exact ⟨rfl, by rw [hrun, if_neg hc], rfl, _, rfl⟩

/-! ## Runs in which every operation succeeds -/

/-- When no operation fails, the run is of the sixth shape: every word of the region is
programmed and the verification is reached. -/
theorem complete_run (w : World) (s : Machine)
    (hdet : (SimpleSD_DetectCard w s).1 = SIMPLESD_DETECTED)
    (hm : w.f_mount = FR_OK) (ho : w.f_open = FR_OK)
    (he : ∀ mem sec nb, (w.HAL_FLASHEx_Erase mem sec nb).1 = HAL_OK)
    (hp : ∀ mem a d, (w.HAL_FLASH_Program mem a d).1 = HAL_OK ∧
      (w.HAL_FLASH_Program mem a d).2 a % U32 = d % U32)
    (hr : ∀ n buf, n < regionWords →
      (w.f_read n buf).Bytes ≠ 0 ∧ (w.f_read n buf).fresult = FR_OK) :
    ∃ k sampling mem evs, (∀ e ∈ sampling, e.isSampling = true) ∧
      PassesOk w APPLICATION_START_ADDRESS 0 regionWords evs ∧
      (∃ S : Machine, S.fileReads = 0 ∧
        (programLoop w APPLICATION_START_ADDRESS w.FileData S).1 = none ∧
        (programLoop w APPLICATION_START_ADDRESS w.FileData S).2.flash = mem) ∧
      SimpleSD_FirmwareUpgrade w s =
      (if SimpleSD_CRC_Check CRC_CALCULATION_METHOD mem = SIMPLESD_CRC_SAME then SIMPLESD_OK
        else SIMPLESD_NO_SD,
        { s with LED_Reload_Value := reloadValue SIMPLESD_LED_10HZ_MODE,
                 pinReads := s.pinReads + k, mounted := false, fileOpen := false,
                 fileReads := regionWords, locked := true, flash := mem,
                 trace := s.trace ++ (prologue sampling SIMPLESD_DETECTED ++
                   [Event.f_mount FR_OK, Event.f_open FR_OK] ++ eraseSetup ++
                   eraseOk firstSector sectorCount ++ programSetup ++ evs ++ cleanup ++
                   [Event.SimpleSD_CRC_Check
                     (SimpleSD_CRC_Check CRC_CALCULATION_METHOD mem)]) }) := by
  obtain ⟨k, sampling, hs, hshape⟩ := run_shape w s
  rcases hshape with ⟨hd, _⟩ | ⟨_, hm1, _⟩ | ⟨_, _, ho1, _⟩ |
    ⟨_, _, _, j, mem, mem0, hj, hbad, _⟩ |
    ⟨_, _, _, n, mem, evs, tail, code, hpass, hn, hfail, hrun⟩ |
    ⟨_, _, _, mem, evs, hpass, hprov, hrun⟩
  · rw [hdet] at hd; exact absurd hd (by decide)
  · exact absurd hm hm1
  · exact absurd ho ho1
  · exact absurd (he _ _ _) hbad
  · exfalso
    obtain ⟨buf, h⟩ := hfail
    rcases h with ⟨_, h2, _⟩ | ⟨_, mem1, ⟨_, h2, _⟩ | ⟨_, _, h3, _⟩⟩
    · have := hr n buf hn
      rcases h2 with h2 | h2
      · exact this.1 h2
      · exact h2 this.2
    · exact h2 (hp _ _ _).1
    · apply h3
      rw [(hp _ _ _).2, Nat.mod_mod]
  · exact ⟨k, sampling, mem, evs, hs, hpass, hprov, hrun⟩

/-- In an environment whose flash stores what is programmed, the programming loop leaves
the words below its start address alone, and when it runs to its end every word from the
start address on holds what was read for it. -/
theorem programLoop_store (w : World) (word : Nat → Nat)
    (hp : ∀ mem a d, (w.HAL_FLASH_Program mem a d).2 = Function.update mem a d)
    (A FileData : Nat) (s : Machine) :
    (∀ k buf, A + 4 * k < APPLICATION_END_ADDRESS →
        (w.f_read (s.fileReads + k) buf).FileData % U32 = word (s.fileReads + k)) →
      (∀ a, a < A → (programLoop w A FileData s).2.flash a = s.flash a) ∧
      ((programLoop w A FileData s).1 = none → ∀ k, A + 4 * k < APPLICATION_END_ADDRESS →
        (programLoop w A FileData s).2.flash (A + 4 * k) = word (s.fileReads + k)) := by
  refine programLoop.induct w (fun A FileData s =>
    (∀ k buf, A + 4 * k < APPLICATION_END_ADDRESS →
        (w.f_read (s.fileReads + k) buf).FileData % U32 = word (s.fileReads + k)) →
      (∀ a, a < A → (programLoop w A FileData s).2.flash a = s.flash a) ∧
      ((programLoop w A FileData s).1 = none → ∀ k, A + 4 * k < APPLICATION_END_ADDRESS →
        (programLoop w A FileData s).2.flash (A + 4 * k) = word (s.fileReads + k)))
    ?_ ?_ ?_ ?_ ?_ A FileData s
  · intro A fd s hlt r hbad _
    have hrun : programLoop w A fd s =
        (some SIMPLESD_FS_READ_ERROR, HAL_FLASH_Lock (SimpleSD_DeInit
          { s with fileReads := s.fileReads + 1,
                   trace := s.trace ++ [Event.f_read r.fresult r.Bytes] })) := by
      rw [programLoop]; simp only [hlt, if_true]; rw [if_pos hbad]
    rw [hrun]
    exact ⟨fun a _ => rfl, fun h => by simp at h⟩
  · intro A fd s hlt r d s1 hgood p s2 hok hcmp _
    have hrun : programLoop w A fd s =
        (some SIMPLESD_FLASH_WRITE_COMPARE_ERROR, HAL_FLASH_Lock (SimpleSD_DeInit
          (s2.log (Event.readBack A (s2.flash A % U32) d)))) := by
      rw [programLoop]; simp only [hlt, if_true]
      rw [if_neg hgood, if_pos hok, if_pos hcmp]
    rw [hrun]
    refine ⟨fun a ha => ?_, fun h => by simp at h⟩
    show p.2 a = s.flash a
    rw [hp, Function.update_noteq (by omega)]
  · intro A fd s hlt r d s1 hgood p s2 hok s3 hcmp ih hw
    have hmod : (A + 4) % U32 = A + 4 := by
      apply Nat.mod_eq_of_lt
      have : APPLICATION_END_ADDRESS + 4 < U32 := by decide
      omega
    have hstep : programLoop w A fd s = programLoop w (A + 4) d s3 := by
      rw [programLoop]
      simp only [hlt, if_true]
      rw [if_neg hgood, if_pos hok, if_neg hcmp, hmod]
    rw [hmod] at ih
    have hs3r : s3.fileReads = s.fileReads + 1 := rfl
    have hs3f : s3.flash = Function.update s.flash A d := by
      show p.2 = _
      rw [hp]
    have ih1 := ih (by
      intro k buf hk
      rw [hs3r]
      have := hw (k + 1) buf (by omega)
      rw [show s.fileReads + 1 + k = s.fileReads + (k + 1) by omega]
      exact this)
    rw [hstep]
    refine ⟨fun a ha => ?_, fun hnone k hk => ?_⟩
    · rw [ih1.1 a (by omega), hs3f, Function.update_noteq (by omega)]
    · rcases Nat.eq_zero_or_pos k with rfl | hpos
      · simp only [Nat.mul_zero, Nat.add_zero]
        rw [ih1.1 A (by omega), hs3f, Function.update_same]
        exact hw 0 fd (by simpa using hlt)
      · have := ih1.2 hnone (k - 1) (by omega)
        rw [show A + 4 + 4 * (k - 1) = A + 4 * k by omega, hs3r,
          show s.fileReads + 1 + (k - 1) = s.fileReads + k by omega] at this
        exact this
  · intro A fd s hlt r d s1 hgood p hbad _
    have hrun : programLoop w A fd s =
        (some SIMPLESD_FLASH_WRITE_ERROR, HAL_FLASH_Lock (SimpleSD_DeInit
          { s1 with flash := p.2,
                    trace := s1.trace ++ [Event.HAL_FLASH_Program A d p.1] })) := by
      rw [programLoop]; simp only [hlt, if_true]
      rw [if_neg hgood, if_neg hbad]
    rw [hrun]
    refine ⟨fun a ha => ?_, fun h => by simp at h⟩
    show p.2 a = s.flash a
    rw [hp, Function.update_noteq (by omega)]
  · intro A fd s hge _
    have hrun : programLoop w A fd s = (none, s) := by
      rw [programLoop]; simp [hge]
    rw [hrun]
    exact ⟨fun a _ => rfl, fun _ k hk => absurd (by omega : A < APPLICATION_END_ADDRESS) hge⟩

/-! ## The healthy board -/

theorem healthy_detect (size : Nat) (byte : Nat → Nat) (s : Machine) :
    (SimpleSD_DetectCard (healthyWorld size byte) s).1 = SIMPLESD_DETECTED := by
  obtain ⟨k, sampling, _, _, h | h⟩ :=
    detectLoop_spec (healthyWorld size byte) SDSimple_CD_Detect_Samples s
  · exact h.1
  · exact absurd rfl h.2.2.2.1

theorem fileRead_full (size : Nat) (byte : Nat → Nat) (n buf : Nat) (h : 4 * n + 4 ≤ size) :
    (fileRead size byte n buf).Bytes = 4 ∧ (fileRead size byte n buf).fresult = FR_OK ∧
      (fileRead size byte n buf).FileData % U32 = imageWord byte n := by
  have h1 : min (4 * n) size = 4 * n := by omega
  have h2 : min 4 (size - 4 * n) = 4 := by omega
  refine ⟨?_, rfl, ?_⟩
  · simp [fileRead, h1, h2]
  · simp only [fileRead, h1, h2, imageWord]
    simp only [show (0 : Nat) < 4 by decide, show (1 : Nat) < 4 by decide,
      show (2 : Nat) < 4 by decide, show (3 : Nat) < 4 by decide, if_true, Nat.add_zero]
    apply Nat.mod_eq_of_lt
    have b0 := Nat.mod_lt (byte (4 * n)) (by decide : 256 > 0)
    have b1 := Nat.mod_lt (byte (4 * n + 1)) (by decide : 256 > 0)
    have b2 := Nat.mod_lt (byte (4 * n + 2)) (by decide : 256 > 0)
    have b3 := Nat.mod_lt (byte (4 * n + 3)) (by decide : 256 > 0)
    rw [constants_eq.2.2.2.2]
    norm_num
    omega

/-- A run on the healthy board with an image that fills the region: the final flash holds
the image and the run is of the sixth shape. -/
theorem healthy_run (size : Nat) (byte : Nat → Nat) (s : Machine)
    (hsize : 4 * regionWords ≤ size) :
    ∃ k sampling mem evs, (∀ e ∈ sampling, e.isSampling = true) ∧
      PassesOk (healthyWorld size byte) APPLICATION_START_ADDRESS 0 regionWords evs ∧
      (∀ n, n < regionWords → mem (APPLICATION_START_ADDRESS + 4 * n) = imageWord byte n) ∧
      SimpleSD_FirmwareUpgrade (healthyWorld size byte) s =
      (if SimpleSD_CRC_Check CRC_CALCULATION_METHOD mem = SIMPLESD_CRC_SAME then SIMPLESD_OK
        else SIMPLESD_NO_SD,
        { s with LED_Reload_Value := reloadValue SIMPLESD_LED_10HZ_MODE,
                 pinReads := s.pinReads + k, mounted := false, fileOpen := false,
                 fileReads := regionWords, locked := true, flash := mem,
                 trace := s.trace ++ (prologue sampling SIMPLESD_DETECTED ++
                   [Event.f_mount FR_OK, Event.f_open FR_OK] ++ eraseSetup ++
                   eraseOk firstSector sectorCount ++ programSetup ++ evs ++ cleanup ++
                   [Event.SimpleSD_CRC_Check
                     (SimpleSD_CRC_Check CRC_CALCULATION_METHOD mem)]) }) := by
  have hreads : ∀ n buf, n < regionWords →
      ((healthyWorld size byte).f_read n buf).Bytes ≠ 0 ∧
        ((healthyWorld size byte).f_read n buf).fresult = FR_OK := by
    intro n buf hn
    have := fileRead_full size byte n buf (by omega)
    exact ⟨by show (fileRead size byte n buf).Bytes ≠ 0; rw [this.1]; decide, this.2.1⟩
  obtain ⟨k, sampling, mem, evs, hs, hpass, ⟨S, hS0, hnone, hflash⟩, hrun⟩ :=
    complete_run (healthyWorld size byte) s (healthy_detect size byte s) rfl rfl
      (fun _ _ _ => rfl)
      (fun mem a d => ⟨rfl, by
        show Function.update mem a d a % U32 = d % U32
        rw [Function.update_same]⟩)
      hreads
  refine ⟨k, sampling, mem, evs, hs, hpass, ?_, hrun⟩
  intro n hn
  have hstore := programLoop_store (healthyWorld size byte) (imageWord byte)
    (fun _ _ _ => rfl) APPLICATION_START_ADDRESS (healthyWorld size byte).FileData S (by
      intro k buf hk
      have hk1 : k < regionWords := by
        rw [sector_constants.2.2.1]
        rw [constants_eq.1, constants_eq.2.1] at hk
        omega
      rw [hS0, Nat.zero_add]
      exact (fileRead_full size byte k buf (by omega)).2.2)
  have := hstore.2 hnone n (by
    rw [sector_constants.2.2.1] at hn
    rw [constants_eq.1, constants_eq.2.1]
    omega)
  rw [hflash, hS0, Nat.zero_add] at this
  exact this

theorem crcWords_first_ffff (mem : Nat → Nat) (n : Nat)
    (h0 : mem APPLICATION_START_ADDRESS % U32 = 0xFFFFFFFF)
    (hz : ∀ k, 1 ≤ k → k < n + 1 → mem (APPLICATION_START_ADDRESS + 4 * k) % U32 = 0)
    (hn : n < 491520) :
    crcWords mem (n + 1) 0xFFFFFFFF APPLICATION_START_ADDRESS = 0 := by
  rw [crcWords, h0]
  have hc : CalculateCRC_32 0xFFFFFFFF 0xFFFFFFFF = 0 := by rfl
  rw [hc]
  have hmod : (APPLICATION_START_ADDRESS + 4) % U32 = APPLICATION_START_ADDRESS + 4 := by
    decide
  rw [hmod]
  apply crcWords_zero
  · rw [constants_eq.1, constants_eq.2.2.2.2]; omega
  · intro k hk
    have := hz (k + 1) (by omega) (by omega)
    rw [← this]
    congr 2
    omega

theorem crc_check_peripheral (mem : Nat → Nat)
    (h0 : mem APPLICATION_START_ADDRESS % U32 = 0xFFFFFFFF)
    (hz : ∀ k, 1 ≤ k → k < 16 → mem (APPLICATION_START_ADDRESS + 4 * k) % U32 = 0) :
    SimpleSD_CRC_Check CRC_CALCULATION_METHOD mem =
      if mem APPLICATION_CRC_ADDRESS % U32 = 0 then SIMPLESD_CRC_SAME
      else SIMPLESD_CRC_ERROR := by
  unfold SimpleSD_CRC_Check HAL_CRC_Calculate
  have hm : CRC_CALCULATION_METHOD ≠ 0 := by decide
  simp only [hm, ne_eq, not_false_eq_true, if_true]
  rw [crcWords_first_ffff mem 15 h0 hz (by decide)]
  by_cases h : mem APPLICATION_CRC_ADDRESS % U32 = 0
  · rw [if_pos h, h]; rfl
  · rw [if_neg h, if_pos (fun hc => h hc.symm)]

theorem imageWord_validImage (n : Nat) :
    imageWord validImage n = if n = 0 then 0xFFFFFFFF else 0 := by
  unfold imageWord validImage
  by_cases h : n = 0
  · subst h; rfl
  · have h1 : ¬ (4 * n < 4) := by omega
    have h2 : ¬ (4 * n + 1 < 4) := by omega
    have h3 : ¬ (4 * n + 2 < 4) := by omega
    have h4 : ¬ (4 * n + 3 < 4) := by omega
    simp [h, h1, h2, h3, h4]

theorem imageWord_corruptImage (n : Nat) :
    imageWord corruptImage n =
      if n = 0 then 0xFFFFFFFF else if n = 491519 then 1 else 0 := by
  unfold imageWord corruptImage
  by_cases h : n = 0
  · subst h; rfl
  · have h1 : ¬ (4 * n < 4) := by omega
    have h2 : ¬ (4 * n + 1 < 4) := by omega
    have h3 : ¬ (4 * n + 2 < 4) := by omega
    have h4 : ¬ (4 * n + 3 < 4) := by omega
    have h5 : ¬ (4 * n + 1 = 0x1DFFFC) := by omega
    have h6 : ¬ (4 * n + 2 = 0x1DFFFC) := by omega
    have h7 : ¬ (4 * n + 3 = 0x1DFFFC) := by omega
    by_cases h8 : n = 491519
    · subst h8; rfl
    · have h9 : ¬ (4 * n = 0x1DFFFC) := by omega
      simp [h, h1, h2, h3, h4, h5, h6, h7, h8, h9]

/-- The verdict of the configured checksum check on a flash that holds an image whose
first word is `0xFFFFFFFF` and whose words 1 to 15 are 0. -/
theorem crc_check_image (mem : Nat → Nat) (word : Nat → Nat)
    (hmem : ∀ n, n < regionWords → mem (APPLICATION_START_ADDRESS + 4 * n) = word n)
    (h0 : word 0 = 0xFFFFFFFF) (hz : ∀ k, 1 ≤ k → k < 16 → word k = 0)
    (hlt : word 491519 < U32) :
    SimpleSD_CRC_Check CRC_CALCULATION_METHOD mem =
      if word 491519 = 0 then SIMPLESD_CRC_SAME else SIMPLESD_CRC_ERROR := by
  have hr := sector_constants.2.2.1
  rw [crc_check_peripheral mem]
  · have hc : APPLICATION_CRC_ADDRESS = APPLICATION_START_ADDRESS + 4 * 491519 := by decide
    rw [hc, hmem 491519 (by rw [hr]; decide), Nat.mod_eq_of_lt hlt]
  · have := hmem 0 (by rw [hr]; decide)
    simp only [Nat.mul_zero, Nat.add_zero] at this
    rw [this, h0]; rfl
  · intro k hk1 hk2
    rw [hmem k (by rw [hr]; omega), hz k hk1 hk2]; rfl

/-! ## Splitting a log at a step -/

/-- The first element with a property is where it is. -/
theorem first_split_unique (P : Event → Bool) (a c : List Event) :
    ∀ (b d : List Event) (x y : Event), a ++ x :: b = c ++ y :: d →
      (∀ e ∈ a, P e = false) → (∀ e ∈ c, P e = false) → P x = true → P y = true →
      a = c ∧ x = y ∧ b = d := by
  induction a generalizing c with
  | nil =>
    intro b d x y h _ hc hx _
    cases c with
    | nil =>
      simp only [List.nil_append, List.cons.injEq] at h
      exact ⟨rfl, h.1, h.2⟩
    | cons e c =>
      simp only [List.nil_append, List.cons_append, List.cons.injEq] at h
      have := hc e (List.mem_cons_self _ _)
      rw [← h.1, hx] at this
      exact absurd this (by decide)
  | cons e a ih =>
    intro b d x y h ha hc hx hy
    cases c with
    | nil =>
      simp only [List.nil_append, List.cons_append, List.cons.injEq] at h
      have := ha e (List.mem_cons_self _ _)
      rw [h.1, hy] at this
      exact absurd this (by decide)
    | cons e2 c =>
      simp only [List.cons_append, List.cons.injEq] at h
      obtain ⟨h1, h2, h3⟩ := ih c b d x y h.2
        (fun z hz => ha z (List.mem_cons_of_mem _ hz))
        (fun z hz => hc z (List.mem_cons_of_mem _ hz)) hx hy
      exact ⟨by rw [h.1, h1], h2, h3⟩

/-- An element with a property, in a list whose last element alone has it, is the last. -/
theorem last_split_unique (P : Event → Bool) (c : List Event) :
    ∀ (a b : List Event) (x y : Event), a ++ x :: b = c ++ [y] →
      (∀ e ∈ c, P e = false) → P x = true → a = c ∧ x = y ∧ b = [] := by
  induction c with
  | nil =>
    intro a b x y h _ _
    cases a with
    | nil =>
      simp only [List.nil_append, List.cons.injEq] at h
      exact ⟨rfl, h.1, h.2⟩
    | cons e a =>
      simp only [List.nil_append, List.cons_append, List.cons.injEq] at h
      have := h.2
      simp at this
  | cons e c ih =>
    intro a b x y h hc hx
    cases a with
    | nil =>
      simp only [List.nil_append, List.cons_append, List.cons.injEq] at h
      have := hc e (List.mem_cons_self _ _)
      rw [← h.1, hx] at this
      exact absurd this (by decide)
    | cons e2 a =>
      simp only [List.cons_append, List.cons.injEq] at h
      obtain ⟨h1, h2, h3⟩ := ih a b x y h.2
        (fun z hz => hc z (List.mem_cons_of_mem _ hz)) hx
      exact ⟨by rw [h.1, h1], h2, h3⟩

theorem cleanup_quiet (e : Event) (h : e.isCleanup = true) :
    e.isFailure = false ∧ e.isOperation = false ∧ e.isVerification = false := by
  cases e <;> simp [Event.isCleanup] at h <;>
    simp [Event.isFailure, Event.isOperation, Event.isVerification]

theorem assignedOutcome_ne_ok (f : Event) (c : Nat) (h : f.assignedOutcome = some c) :
    c ≠ SIMPLESD_OK ∧ f.isVerification = false := by
  cases f <;> simp [Event.assignedOutcome] at h <;> subst h <;>
    exact ⟨by decide, rfl⟩

/-- A failing step in the log of a run is the one step at which the run gave up. -/
theorem failure_in_runLog (w : World) (s : Machine) (x : Event) (hx : x ∈ runLog w s)
    (hf : x.isFailure = true) :
    (SimpleSD_FirmwareUpgrade w s).1 ≠ SIMPLESD_OK ∧
    (x.assignedOutcome = some (SimpleSD_FirmwareUpgrade w s).1 ∨
      (x.isVerification = true ∧ (SimpleSD_FirmwareUpgrade w s).1 = SIMPLESD_NO_SD)) ∧
    ∀ e ∈ runLog w s, e.isFailure = true → e = x := by
  rcases runLog_structure w s with ⟨_, hno, _⟩ | ⟨oks, f, cl, hlog, hoks, hff, hcode, hcl⟩
  · rw [hno x hx] at hf
    exact absurd hf (by decide)
  · have key : ∀ e ∈ runLog w s, e.isFailure = true → e = f := by
      intro e he hef
      rw [hlog] at he
      simp only [List.mem_append, List.mem_cons] at he
      rcases he with he | rfl | he
      · rw [(hoks e he).1] at hef; exact absurd hef (by decide)
      · rfl
      · rw [(cleanup_quiet e (hcl e he)).1] at hef; exact absurd hef (by decide)
    have hxf : x = f := key x hx hf
    subst hxf
    refine ⟨?_, ?_, fun e he hef => key e he hef⟩
    swap
    · rcases hcode with h | ⟨h1, h2, _⟩
      · exact Or.inl h
      · exact Or.inr ⟨h1, h2⟩
    rcases hcode with h | ⟨_, h, _⟩
    · exact (assignedOutcome_ne_ok _ _ h).1
    · rw [h]; decide

theorem corrupt_run :
    (SimpleSD_FirmwareUpgrade (healthyWorld 0x1E0000 corruptImage)
        (resetMachine (fun _ => 0))).1 = SIMPLESD_NO_SD ∧
      Event.SimpleSD_DetectCard SIMPLESD_DETECTED ∈
        runLog (healthyWorld 0x1E0000 corruptImage) (resetMachine (fun _ => 0)) ∧
      Event.SimpleSD_CRC_Check SIMPLESD_CRC_ERROR ∈
        runLog (healthyWorld 0x1E0000 corruptImage) (resetMachine (fun _ => 0)) := by
  obtain ⟨k, sampling, mem, evs, hs, hpass, hmem, hrun⟩ :=
    healthy_run 0x1E0000 corruptImage (resetMachine (fun _ => 0))
      (by rw [sector_constants.2.2.1])
  have hcrc : SimpleSD_CRC_Check CRC_CALCULATION_METHOD mem = SIMPLESD_CRC_ERROR := by
    rw [crc_check_image mem (imageWord corruptImage) hmem]
    · rw [imageWord_corruptImage]; rfl
    · rw [imageWord_corruptImage]; rfl
    · intro k h1 h2
      rw [imageWord_corruptImage, if_neg (by omega), if_neg (by omega)]
    · rw [imageWord_corruptImage]; decide
  rw [hcrc] at hrun
  have hlog := runLog_eq _ _ _ _ _ hrun rfl
  refine ⟨by rw [hrun]; rfl, ?_, ?_⟩
  · rw [hlog]; simp [prologue]
  · rw [hlog]; simp

theorem valid_run :
    (SimpleSD_FirmwareUpgrade (healthyWorld 0x1E0000 validImage)
        (resetMachine (fun _ => 0))).1 = SIMPLESD_OK := by
  obtain ⟨k, sampling, mem, evs, hs, hpass, hmem, hrun⟩ :=
    healthy_run 0x1E0000 validImage (resetMachine (fun _ => 0))
      (by rw [sector_constants.2.2.1])
  have hcrc : SimpleSD_CRC_Check CRC_CALCULATION_METHOD mem = SIMPLESD_CRC_SAME := by
    rw [crc_check_image mem (imageWord validImage) hmem]
    · rw [imageWord_validImage]; rfl
    · rw [imageWord_validImage]; rfl
    · intro k h1 h2
      rw [imageWord_validImage, if_neg (by omega)]
    · rw [imageWord_validImage]; decide
  rw [hcrc] at hrun
  rw [hrun]; rfl

theorem absent_run :
    (SimpleSD_DetectCard absentWorld (resetMachine (fun _ => 0))).1 = SIMPLESD_NOT_DETECTED ∧
    (SimpleSD_FirmwareUpgrade absentWorld (resetMachine (fun _ => 0))).1 = SIMPLESD_NO_SD := by
  constructor <;> rfl

theorem not_mem_sampling (sampling : List Event) (hs : ∀ e ∈ sampling, e.isSampling = true)
    (x : Event) (hx : x.isSampling = false) : x ∉ sampling := by
  intro h
  rw [hs x h] at hx
  exact absurd hx (by decide)

theorem not_mem_passes (w : World) (A r0 n : Nat) (evs : List Event)
    (h : PassesOk w A r0 n evs) (x : Event) (hx : x.isProgramStep = false) : x ∉ evs := by
  intro hm
  rw [(h.2.2.1 x hm).1] at hx
  exact absurd hx (by decide)

theorem prologue_reads (sampling : List Event) (hs : ∀ e ∈ sampling, e.isSampling = true)
    (d : Nat) :
    erasedSectors (prologue sampling d) = [] ∧ programmedAddresses (prologue sampling d) = [] ∧
      readCount (prologue sampling d) = 0 := by
  obtain ⟨h1, h2, h3⟩ := sampling_reads sampling hs
  simp [prologue, erasedSectors_append, programmedAddresses_append, readCount_append,
    erasedSectors, programmedAddresses, readCount, h1, h2, h3]

/-- What was erased, programmed and read in a run that got as far as the programming loop. -/
theorem body_reads (w : World) (sampling evs rest : List Event) (A r0 n c k : Nat)
    (hs : ∀ e ∈ sampling, e.isSampling = true) (hpass : PassesOk w A r0 n evs) :
    erasedSectors (prologue sampling SIMPLESD_DETECTED ++
        [Event.f_mount FR_OK, Event.f_open FR_OK] ++ eraseSetup ++ eraseOk c k ++
        programSetup ++ evs ++ rest) =
      (List.range' c k).map (fun sec => (sec, 1)) ++ erasedSectors rest ∧
    programmedAddresses (prologue sampling SIMPLESD_DETECTED ++
        [Event.f_mount FR_OK, Event.f_open FR_OK] ++ eraseSetup ++ eraseOk c k ++
        programSetup ++ evs ++ rest) =
      (List.range n).map (fun j => A + 4 * j) ++ programmedAddresses rest ∧
    readCount (prologue sampling SIMPLESD_DETECTED ++
        [Event.f_mount FR_OK, Event.f_open FR_OK] ++ eraseSetup ++ eraseOk c k ++
        programSetup ++ evs ++ rest) = n + readCount rest := by
  obtain ⟨p1, p2, p3⟩ := prologue_reads sampling hs SIMPLESD_DETECTED
  obtain ⟨e1, e2, e3⟩ := eraseOk_reads c k
  have v1 := programSteps_erased evs (fun e he => (hpass.2.2.1 e he).1)
  have v2 := hpass.1
  have v3 := hpass.2.1
  simp only [erasedSectors_append, programmedAddresses_append, readCount_append, p1, p2, p3,
    e1, e2, e3, v1, v2, v3]
  simp [erasedSectors, programmedAddresses, readCount, eraseSetup, programSetup]

theorem programFail_reads (w : World) (a r : Nat) (tail : List Event) (code : Nat)
    (h : ProgramFail w a r tail code) :
    erasedSectors tail = [] ∧ readCount tail = 1 ∧
      (code = SIMPLESD_FS_READ_ERROR → programmedAddresses tail = []) ∧
      (code = SIMPLESD_FS_READ_ERROR ∨ code = SIMPLESD_FLASH_WRITE_ERROR ∨
        code = SIMPLESD_FLASH_WRITE_COMPARE_ERROR) ∧
      (∀ e ∈ tail, e.isProgramStep = true) := by
  obtain ⟨buf, h⟩ := h
  rcases h with ⟨h1, _, h3⟩ | ⟨_, mem, ⟨h1, _, h3⟩ | ⟨h1, _, _, h3⟩⟩
  · subst h1 h3
    simp [erasedSectors, readCount, programmedAddresses, Event.isProgramStep]
  · subst h1 h3
    simp [erasedSectors, readCount, programmedAddresses, Event.isProgramStep]
    decide
  · subst h1 h3
    simp [erasedSectors, readCount, programmedAddresses, Event.isProgramStep]
    decide

/-- A run on the healthy board with an image that ends before the last word of the region:
some read finds the file exhausted and the run ends in `SIMPLESD_FS_READ_ERROR`. -/
theorem short_image_run (size : Nat) (byte : Nat → Nat) (s : Machine)
    (hsize : size ≤ 4 * (regionWords - 1)) :
    ∃ k sampling n mem evs, (∀ e ∈ sampling, e.isSampling = true) ∧
      PassesOk (healthyWorld size byte) APPLICATION_START_ADDRESS 0 n evs ∧ n < regionWords ∧
      SimpleSD_FirmwareUpgrade (healthyWorld size byte) s =
      (SIMPLESD_FS_READ_ERROR,
        { s with LED_Reload_Value := reloadValue SIMPLESD_LED_10HZ_MODE,
                 pinReads := s.pinReads + k, mounted := false, fileOpen := false,
                 fileReads := n + 1, locked := true, flash := mem,
                 trace := s.trace ++ (prologue sampling SIMPLESD_DETECTED ++
                   [Event.f_mount FR_OK, Event.f_open FR_OK] ++ eraseSetup ++
                   eraseOk firstSector sectorCount ++ programSetup ++ evs ++
                   [Event.f_read FR_OK 0] ++ cleanup) }) := by
  obtain ⟨k, sampling, hs, hshape⟩ := run_shape (healthyWorld size byte) s
  rcases hshape with ⟨hd, _⟩ | ⟨_, hm1, _⟩ | ⟨_, _, ho1, _⟩ |
    ⟨_, _, _, j, mem, mem0, hj, hbad, _⟩ |
    ⟨_, _, _, n, mem, evs, tail, code, hpass, hn, hfail, hrun⟩ |
    ⟨_, _, _, mem, evs, hpass, _, _⟩
  · rw [healthy_detect] at hd; exact absurd hd (by decide)
  · exact absurd rfl hm1
  · exact absurd rfl ho1
  · exact absurd rfl hbad
  · obtain ⟨buf, h⟩ := hfail
    rcases h with ⟨h1, h2, h3⟩ | ⟨_, mem1, ⟨_, h2, _⟩ | ⟨_, _, h3, _⟩⟩
    · have hb : ((healthyWorld size byte).f_read n buf).Bytes = 0 := by
        rcases h2 with h2 | h2
        · exact h2
        · exact absurd rfl h2
      have hf : ((healthyWorld size byte).f_read n buf).fresult = FR_OK := rfl
      rw [hb, hf] at h1
      subst h1 h3
      exact ⟨k, sampling, n, mem, evs, hs, hpass, hn, hrun⟩
    · exact absurd rfl h2
    · exfalso
      apply h3
      show Function.update mem1 _ _ _ % U32 = _
      rw [Function.update_same, Nat.mod_mod]
  · exfalso
    have hr := sector_constants.2.2.1
    obtain ⟨buf, hb, _⟩ := hpass.2.2.2 (regionWords - 1) (by rw [hr]; decide)
    apply hb
    show (fileRead size byte (0 + (regionWords - 1)) buf).Bytes = 0
    have h1 : min (4 * (0 + (regionWords - 1))) size = size := by omega
    simp only [fileRead, h1]
    omega

/-- A matching verification in the log means success. -/
theorem verification_same_ok (w : World) (s : Machine)
    (hcrc : Event.SimpleSD_CRC_Check SIMPLESD_CRC_SAME ∈ runLog w s) :
    (SimpleSD_FirmwareUpgrade w s).1 = SIMPLESD_OK := by
  rcases runLog_structure w s with ⟨hok, _⟩ | ⟨oks, f, cl, hlog, hoks, hff, _, hcl⟩
  · exact hok
  · exfalso
    rw [hlog] at hcrc
    simp only [List.mem_append, List.mem_cons] at hcrc
    rcases hcrc with h | h | h
    · have := (hoks _ h).2
      exact absurd this (by decide)
    · rw [← h] at hff
      exact absurd hff (by decide)
    · have := hcl _ h
      exact absurd this (by decide)

/-- The log of a run on the healthy board with a short image. -/
theorem short_image_log (size : Nat) (byte : Nat → Nat) (s : Machine)
    (hsize : size ≤ 4 * (regionWords - 1)) :
    (SimpleSD_FirmwareUpgrade (healthyWorld size byte) s).1 = SIMPLESD_FS_READ_ERROR ∧
    Event.f_open FR_OK ∈ runLog (healthyWorld size byte) s ∧
    Event.f_read FR_OK 0 ∈ runLog (healthyWorld size byte) s ∧
    (∀ e ∈ runLog (healthyWorld size byte) s,
      e.isFailure = true → e = Event.f_read FR_OK 0) ∧
    (∀ result, Event.SimpleSD_CRC_Check result ∉ runLog (healthyWorld size byte) s) := by
  obtain ⟨k, sampling, n, mem, evs, hs, hpass, hn, hrun⟩ := short_image_run size byte s hsize
  have hlog := runLog_eq _ _ _ _ _ hrun rfl
  have hcode : (SimpleSD_FirmwareUpgrade (healthyWorld size byte) s).1 =
      SIMPLESD_FS_READ_ERROR := by rw [hrun]
  have hread : Event.f_read FR_OK 0 ∈ runLog (healthyWorld size byte) s := by
    rw [hlog]; simp
  have huniq := (failure_in_runLog _ _ _ hread (by decide)).2.2
  refine ⟨hcode, ?_, hread, huniq, ?_⟩
  · rw [hlog]; simp
  · intro result hmem
    by_cases hr : result = SIMPLESD_CRC_SAME
    · subst hr
      have := verification_same_ok _ _ hmem
      rw [hcode] at this
      exact absurd this (by decide)
    · have := huniq _ hmem (by simpa [Event.isFailure] using hr)
      cases this

/-! ## The sector table -/

theorem sectorBase_step (i : Nat) (h : i < 24) : sectorBase i < sectorBase (i + 1) := by
  interval_cases i <;> decide

theorem sectorBase_mono : Monotone sectorBase := by
  apply monotone_nat_of_le_succ
  intro i
  by_cases h : i < 24
  · exact Nat.le_of_lt (sectorBase_step i h)
  · have h1 : sectorBase i = 0x08200000 := by
      unfold sectorBase
      split <;> omega
    have h2 : sectorBase (i + 1) = 0x08200000 := by
      unfold sectorBase
      split <;> omega
    omega

theorem sectorBase_unique (a i j : Nat) (hi : sectorBase i ≤ a) (hi1 : a < sectorBase (i + 1))
    (hj : sectorBase j ≤ a) (hj1 : a < sectorBase (j + 1)) : i = j := by
  rcases Nat.lt_trichotomy i j with h | h | h
  · have := sectorBase_mono (show i + 1 ≤ j by omega)
    omega
  · exact h
  · have := sectorBase_mono (show j + 1 ≤ i by omega)
    omega

theorem SimpleSD_FindSector_spec (a : Nat) (h0 : ADDR_FLASH_SECTOR_0 ≤ a)
    (h1 : a ≤ APPLICATION_END_ADDRESS) :
    SimpleSD_FindSector a < 24 ∧ sectorBase (SimpleSD_FindSector a) ≤ a ∧
      a < sectorBase (SimpleSD_FindSector a + 1) := by
  have h0 : 134217728 ≤ a := h0
  have h1 : a ≤ 136314879 := h1
  generalize hi : SimpleSD_FindSector a = i
  unfold SimpleSD_FindSector at hi
  simp only [ADDR_FLASH_SECTOR_0, ADDR_FLASH_SECTOR_1, ADDR_FLASH_SECTOR_2, ADDR_FLASH_SECTOR_3,
    ADDR_FLASH_SECTOR_4, ADDR_FLASH_SECTOR_5, ADDR_FLASH_SECTOR_6, ADDR_FLASH_SECTOR_7,
    ADDR_FLASH_SECTOR_8, ADDR_FLASH_SECTOR_9, ADDR_FLASH_SECTOR_10, ADDR_FLASH_SECTOR_11,
    ADDR_FLASH_SECTOR_12, ADDR_FLASH_SECTOR_13, ADDR_FLASH_SECTOR_14, ADDR_FLASH_SECTOR_15,
    ADDR_FLASH_SECTOR_16, ADDR_FLASH_SECTOR_17, ADDR_FLASH_SECTOR_18, ADDR_FLASH_SECTOR_19,
    ADDR_FLASH_SECTOR_20, ADDR_FLASH_SECTOR_21, ADDR_FLASH_SECTOR_22, ADDR_FLASH_SECTOR_23,
    FLASH_SECTOR] at hi
  by_cases c0 : a < 134234112 ∧ a ≥ 134217728
  · rw [if_pos c0] at hi
    subst hi
    exact ⟨by omega, show 134217728 ≤ a by omega, show a < 134234112 by omega⟩
  rw [if_neg c0] at hi
  by_cases c1 : a < 134250496 ∧ a ≥ 134234112
  · rw [if_pos c1] at hi
    subst hi
    exact ⟨by omega, show 134234112 ≤ a by omega, show a < 134250496 by omega⟩
  rw [if_neg c1] at hi
  by_cases c2 : a < 134266880 ∧ a ≥ 134250496
  · rw [if_pos c2] at hi
    subst hi
    exact ⟨by omega, show 134250496 ≤ a by omega, show a < 134266880 by omega⟩
  rw [if_neg c2] at hi
  by_cases c3 : a < 134283264 ∧ a ≥ 134266880
  · rw [if_pos c3] at hi
    subst hi
    exact ⟨by omega, show 134266880 ≤ a by omega, show a < 134283264 by omega⟩
  rw [if_neg c3] at hi
  by_cases c4 : a < 134348800 ∧ a ≥ 134283264
  · rw [if_pos c4] at hi
    subst hi
    exact ⟨by omega, show 134283264 ≤ a by omega, show a < 134348800 by omega⟩
  rw [if_neg c4] at hi
  by_cases c5 : a < 134479872 ∧ a ≥ 134348800
  · rw [if_pos c5] at hi
    subst hi
    exact ⟨by omega, show 134348800 ≤ a by omega, show a < 134479872 by omega⟩
  rw [if_neg c5] at hi
  by_cases c6 : a < 134610944 ∧ a ≥ 134479872
  · rw [if_pos c6] at hi
    subst hi
    exact ⟨by omega, show 134479872 ≤ a by omega, show a < 134610944 by omega⟩
  rw [if_neg c6] at hi
  by_cases c7 : a < 134742016 ∧ a ≥ 134610944
  · rw [if_pos c7] at hi
    subst hi
    exact ⟨by omega, show 134610944 ≤ a by omega, show a < 134742016 by omega⟩
  rw [if_neg c7] at hi
  by_cases c8 : a < 134873088 ∧ a ≥ 134742016
  · rw [if_pos c8] at hi
    subst hi
    exact ⟨by omega, show 134742016 ≤ a by omega, show a < 134873088 by omega⟩
  rw [if_neg c8] at hi
  by_cases c9 : a < 135004160 ∧ a ≥ 134873088
  · rw [if_pos c9] at hi
    subst hi
    exact ⟨by omega, show 134873088 ≤ a by omega, show a < 135004160 by omega⟩
  rw [if_neg c9] at hi
  by_cases c10 : a < 135135232 ∧ a ≥ 135004160
  · rw [if_pos c10] at hi
    subst hi
    exact ⟨by omega, show 135004160 ≤ a by omega, show a < 135135232 by omega⟩
  rw [if_neg c10] at hi
  by_cases c11 : a < 135266304 ∧ a ≥ 135135232
  · rw [if_pos c11] at hi
    subst hi
    exact ⟨by omega, show 135135232 ≤ a by omega, show a < 135266304 by omega⟩
  rw [if_neg c11] at hi
  by_cases c12 : a < 135282688 ∧ a ≥ 135266304
  · rw [if_pos c12] at hi
    subst hi
    exact ⟨by omega, show 135266304 ≤ a by omega, show a < 135282688 by omega⟩
  rw [if_neg c12] at hi
  by_cases c13 : a < 135299072 ∧ a ≥ 135282688
  · rw [if_pos c13] at hi
    subst hi
    exact ⟨by omega, show 135282688 ≤ a by omega, show a < 135299072 by omega⟩
  rw [if_neg c13] at hi
  by_cases c14 : a < 135315456 ∧ a ≥ 135299072
  · rw [if_pos c14] at hi
    subst hi
    exact ⟨by omega, show 135299072 ≤ a by omega, show a < 135315456 by omega⟩
  rw [if_neg c14] at hi
  by_cases c15 : a < 135331840 ∧ a ≥ 135315456
  · rw [if_pos c15] at hi
    subst hi
    exact ⟨by omega, show 135315456 ≤ a by omega, show a < 135331840 by omega⟩
  rw [if_neg c15] at hi
  by_cases c16 : a < 135397376 ∧ a ≥ 135331840
  · rw [if_pos c16] at hi
    subst hi
    exact ⟨by omega, show 135331840 ≤ a by omega, show a < 135397376 by omega⟩
  rw [if_neg c16] at hi
  by_cases c17 : a < 135528448 ∧ a ≥ 135397376
  · rw [if_pos c17] at hi
    subst hi
    exact ⟨by omega, show 135397376 ≤ a by omega, show a < 135528448 by omega⟩
  rw [if_neg c17] at hi
  by_cases c18 : a < 135659520 ∧ a ≥ 135528448
  · rw [if_pos c18] at hi
    subst hi
    exact ⟨by omega, show 135528448 ≤ a by omega, show a < 135659520 by omega⟩
  rw [if_neg c18] at hi
  by_cases c19 : a < 135790592 ∧ a ≥ 135659520
  · rw [if_pos c19] at hi
    subst hi
    exact ⟨by omega, show 135659520 ≤ a by omega, show a < 135790592 by omega⟩
  rw [if_neg c19] at hi
  by_cases c20 : a < 135921664 ∧ a ≥ 135790592
  · rw [if_pos c20] at hi
    subst hi
    exact ⟨by omega, show 135790592 ≤ a by omega, show a < 135921664 by omega⟩
  rw [if_neg c20] at hi
  by_cases c21 : a < 136052736 ∧ a ≥ 135921664
  · rw [if_pos c21] at hi
    subst hi
    exact ⟨by omega, show 135921664 ≤ a by omega, show a < 136052736 by omega⟩
  rw [if_neg c21] at hi
  by_cases c22 : a < 136183808 ∧ a ≥ 136052736
  · rw [if_pos c22] at hi
    subst hi
    exact ⟨by omega, show 136052736 ≤ a by omega, show a < 136183808 by omega⟩
  rw [if_neg c22] at hi
  subst hi
  exact ⟨by omega, show 136183808 ≤ a by omega, show a < 136314880 by omega⟩

/-! ## Samples of the detect pin -/

theorem pinLevels_append (a b : List Event) :
    pinLevels (a ++ b) = pinLevels a ++ pinLevels b := by
  induction a with
  | nil => rfl
  | cons e t ih => cases e <;> simp [pinLevels, ih]

theorem detectLoop_levels (w : World) (n : Nat) (s : Machine) :
    ∃ k l, (detectLoop w n s).2.trace = s.trace ++ l ∧
      (detectLoop w n s).2.pinReads = s.pinReads + k ∧ k ≤ n ∧
      pinLevels l = (List.range k).map (fun i => w.HAL_GPIO_ReadPin (s.pinReads + i)) := by
  induction n generalizing s with
  | zero => exact ⟨0, [], by simp [detectLoop], by simp [detectLoop], Nat.le_refl _, rfl⟩
  | succ n ih =>
    by_cases h : w.HAL_GPIO_ReadPin s.pinReads ≠ SDSimple_CD_Detect_Level
    · rw [detectLoop]
      refine ⟨1, [Event.HAL_GPIO_ReadPin (w.HAL_GPIO_ReadPin s.pinReads)], ?_, ?_, by omega, ?_⟩
      · simp [HAL_GPIO_ReadPin, h]
      · simp [HAL_GPIO_ReadPin, h]
      · simp [pinLevels, List.range_succ]
    · have h0 : w.HAL_GPIO_ReadPin s.pinReads = SDSimple_CD_Detect_Level := by simpa using h
      have hstep : detectLoop w (n + 1) s =
          detectLoop w n { s with pinReads := s.pinReads + 1,
                                  trace := s.trace ++ [Event.HAL_GPIO_ReadPin
                                    (w.HAL_GPIO_ReadPin s.pinReads), Event.HAL_Delay 1] } := by
        rw [detectLoop]
        simp [HAL_GPIO_ReadPin, h0, Machine.log]
      rw [hstep]
      obtain ⟨k, l, ht, hp, hk, hl⟩ :=
        ih { s with pinReads := s.pinReads + 1,
                    trace := s.trace ++ [Event.HAL_GPIO_ReadPin
                      (w.HAL_GPIO_ReadPin s.pinReads), Event.HAL_Delay 1] }
      refine ⟨k + 1, Event.HAL_GPIO_ReadPin (w.HAL_GPIO_ReadPin s.pinReads) ::
        Event.HAL_Delay 1 :: l, ?_, ?_, by omega, ?_⟩
      · rw [ht]; simp
      · rw [hp]; simp only; omega
      · simp only [pinLevels, hl, List.range_succ_eq_map, List.map_cons, List.map_map,
          Nat.add_zero]
        congr 1
        apply List.map_congr_left
        intro i _
        simp only [Function.comp, Nat.succ_eq_add_one]
        congr 1
        omega

/-! ## Runs that reach the verification -/

theorem sampling_not_verification (sampling : List Event)
    (hs : ∀ e ∈ sampling, e.isSampling = true) :
    ∀ e ∈ sampling, e.isVerification = false := by
  intro e he
  have h := hs e he
  cases e <;> first | rfl | simp [Event.isSampling] at h

theorem passes_not_verification (w : World) (A r0 n : Nat) (evs : List Event)
    (h : PassesOk w A r0 n evs) : ∀ e ∈ evs, e.isVerification = false :=
  fun e he => (quiet_passes w A r0 n evs h e he).2

theorem programFail_not_verification (w : World) (a r : Nat) (tail : List Event) (code : Nat)
    (h : ProgramFail w a r tail code) : ∀ e ∈ tail, e.isVerification = false := by
  intro e he
  have h1 := (programFail_reads w a r tail code h).2.2.2.2 e he
  cases e <;> first | rfl | simp [Event.isProgramStep] at h1

/-- A run whose log holds the call of `SimpleSD_CRC_Check` is of the sixth shape. -/
theorem verification_shape (w : World) (s : Machine) (c : Nat)
    (h : Event.SimpleSD_CRC_Check c ∈ runLog w s) :
    ∃ k sampling mem evs, (∀ e ∈ sampling, e.isSampling = true) ∧
      PassesOk w APPLICATION_START_ADDRESS 0 regionWords evs ∧
      (∃ S : Machine, S.fileReads = 0 ∧
        (programLoop w APPLICATION_START_ADDRESS w.FileData S).1 = none ∧
        (programLoop w APPLICATION_START_ADDRESS w.FileData S).2.flash = mem) ∧
      SimpleSD_FirmwareUpgrade w s =
      (if SimpleSD_CRC_Check CRC_CALCULATION_METHOD mem = SIMPLESD_CRC_SAME then SIMPLESD_OK
        else SIMPLESD_NO_SD,
        { s with LED_Reload_Value := reloadValue SIMPLESD_LED_10HZ_MODE,
                 pinReads := s.pinReads + k, mounted := false, fileOpen := false,
                 fileReads := regionWords, locked := true, flash := mem,
                 trace := s.trace ++ (prologue sampling SIMPLESD_DETECTED ++
                   [Event.f_mount FR_OK, Event.f_open FR_OK] ++ eraseSetup ++
                   eraseOk firstSector sectorCount ++ programSetup ++ evs ++ cleanup ++
                   [Event.SimpleSD_CRC_Check
                     (SimpleSD_CRC_Check CRC_CALCULATION_METHOD mem)]) }) := by
  obtain ⟨k, sampling, hs, hshape⟩ := run_shape w s
  have hnv : ∀ l, runLog w s = l → (∀ e ∈ l, e.isVerification = false) → False := by
    intro l hl hq
    rw [hl] at h
    have := hq _ h
    simp [Event.isVerification] at this
  have hsv := sampling_not_verification sampling hs
  have hpro : ∀ d, ∀ e ∈ prologue sampling d, e.isVerification = false := by
    intro d e he
    simp only [prologue, List.mem_append, List.mem_cons, List.mem_singleton,
      List.not_mem_nil, or_false] at he
    rcases he with ((rfl | rfl) | he) | rfl
    · rfl
    · rfl
    · exact hsv e he
    · rfl
  have hero : ∀ j, ∀ e ∈ eraseOk firstSector j, e.isVerification = false :=
    fun j e he => (quiet_eraseOk _ _ e he).2
  have hcl : ∀ e ∈ cleanup, e.isVerification = false := fun e he => (quiet_cleanup e he).2
  have hps : ∀ e ∈ programSetup, e.isVerification = false :=
    fun e he => (quiet_programSetup e he).2
  have hes : ∀ e ∈ eraseSetup, e.isVerification = false := by decide
  rcases hshape with ⟨_, hrun⟩ | ⟨_, hm, hrun⟩ | ⟨_, hm, ho, hrun⟩ |
    ⟨_, hm, ho, j, mem, mem0, hj, hbad, hrun⟩ |
    ⟨_, hm, ho, n, mem, evs, tail, code, hpass, hn, hfail, hrun⟩ |
    ⟨_, hm, ho, mem, evs, hpass, hS, hrun⟩
  · exact (hnv _ (runLog_eq w s _ _ _ hrun rfl) (hpro _)).elim
  · refine (hnv _ (runLog_eq w s _ _ _ hrun rfl) ?_).elim
    exact forall_mem_append_of (hpro _) (by intro e he; simp at he; subst he; rfl)
  · refine (hnv _ (runLog_eq w s _ _ _ hrun rfl) ?_).elim
    refine forall_mem_append_of (hpro _) ?_
    intro e he
    simp at he
    rcases he with rfl | rfl | rfl | rfl <;> rfl
  · refine (hnv _ (runLog_eq w s _ _ _ hrun rfl) ?_).elim
    refine forall_mem_append_of (forall_mem_append_of (forall_mem_append_of
      (forall_mem_append_of (forall_mem_append_of (hpro _) (by decide)) hes) (hero _)) ?_) hcl
    intro e he; simp at he; subst he; rfl
  · refine (hnv _ (runLog_eq w s _ _ _ hrun rfl) ?_).elim
    exact forall_mem_append_of (forall_mem_append_of (forall_mem_append_of
      (forall_mem_append_of (forall_mem_append_of (forall_mem_append_of
        (forall_mem_append_of (hpro _) (by decide)) hes) (hero _)) hps)
      (passes_not_verification _ _ _ _ _ hpass))
      (programFail_not_verification _ _ _ _ _ hfail)) hcl
  · exact ⟨k, sampling, mem, evs, hs, hpass, hS, hrun⟩

/-- With a flash that stores a word programmed successfully and leaves the other words as
they are, a programming loop that runs to its end leaves at `A + 4 k` the word delivered by
the `k`-th read of the loop, and leaves the words below `A` untouched. -/
theorem programLoop_roundtrip (w : World)
    (hp : ∀ mem a d, (w.HAL_FLASH_Program mem a d).1 = HAL_OK →
      (w.HAL_FLASH_Program mem a d).2 = Function.update mem a d)
    (A FileData : Nat) (s : Machine) :
    (programLoop w A FileData s).1 = none →
      (∀ a, a < A → (programLoop w A FileData s).2.flash a = s.flash a) ∧
      ∀ k, A + 4 * k < APPLICATION_END_ADDRESS →
        (programLoop w A FileData s).2.flash (A + 4 * k) =
          fileWord w k s.fileReads FileData := by
  refine programLoop.induct w (fun A FileData s =>
    (programLoop w A FileData s).1 = none →
      (∀ a, a < A → (programLoop w A FileData s).2.flash a = s.flash a) ∧
      ∀ k, A + 4 * k < APPLICATION_END_ADDRESS →
        (programLoop w A FileData s).2.flash (A + 4 * k) =
          fileWord w k s.fileReads FileData)
    ?_ ?_ ?_ ?_ ?_ A FileData s
  · intro A fd s hlt r hbad
    have hrun : programLoop w A fd s =
        (some SIMPLESD_FS_READ_ERROR, HAL_FLASH_Lock (SimpleSD_DeInit
          { s with fileReads := s.fileReads + 1,
                   trace := s.trace ++ [Event.f_read r.fresult r.Bytes] })) := by
      rw [programLoop]; simp only [hlt, if_true]; rw [if_pos hbad]
    rw [hrun]
    intro h; simp at h
  · intro A fd s hlt r d s1 hgood p s2 hok hcmp
    have hrun : programLoop w A fd s =
        (some SIMPLESD_FLASH_WRITE_COMPARE_ERROR, HAL_FLASH_Lock (SimpleSD_DeInit
          (s2.log (Event.readBack A (s2.flash A % U32) d)))) := by
      rw [programLoop]; simp only [hlt, if_true]
      rw [if_neg hgood, if_pos hok, if_pos hcmp]
    rw [hrun]
    intro h; simp at h
  · intro A fd s hlt r d s1 hgood p s2 hok s3 hcmp ih
    have hmod : (A + 4) % U32 = A + 4 := by
      apply Nat.mod_eq_of_lt
      have : APPLICATION_END_ADDRESS + 4 < U32 := by decide
      omega
    have hstep : programLoop w A fd s = programLoop w (A + 4) d s3 := by
      rw [programLoop]
      simp only [hlt, if_true]
      rw [if_neg hgood, if_pos hok, if_neg hcmp, hmod]
    rw [hmod] at ih
    have hs3r : s3.fileReads = s.fileReads + 1 := rfl
    have hs3f : s3.flash = Function.update s.flash A d := by
      show p.2 = _
      exact hp _ _ _ hok
    rw [hstep]
    intro hnone
    obtain ⟨ih1, ih2⟩ := ih hnone
    refine ⟨fun a ha => ?_, fun k hk => ?_⟩
    · rw [ih1 a (by omega), hs3f, Function.update_noteq (by omega)]
    · rcases Nat.eq_zero_or_pos k with rfl | hpos
      · simp only [Nat.mul_zero, Nat.add_zero]
        rw [ih1 A (by omega), hs3f, Function.update_same]
        rfl
      · have := ih2 (k - 1) (by omega)
        rw [show A + 4 + 4 * (k - 1) = A + 4 * k by omega, hs3r] at this
        rw [this]
        obtain ⟨k', rfl⟩ : ∃ k', k = k' + 1 := ⟨k - 1, by omega⟩
        rfl
  · intro A fd s hlt r d s1 hgood p hbad
    have hrun : programLoop w A fd s =
        (some SIMPLESD_FLASH_WRITE_ERROR, HAL_FLASH_Lock (SimpleSD_DeInit
          { s1 with flash := p.2,
                    trace := s1.trace ++ [Event.HAL_FLASH_Program A d p.1] })) := by
      rw [programLoop]; simp only [hlt, if_true]
      rw [if_neg hgood, if_neg hbad]
    rw [hrun]
    intro h; simp at h
  · intro A fd s hge
    have hrun : programLoop w A fd s = (none, s) := by
      rw [programLoop]; simp [hge]
    rw [hrun]
    intro _
    exact ⟨fun a _ => rfl, fun k hk => absurd (by omega : A < APPLICATION_END_ADDRESS) hge⟩

/-! ## The status indicator -/

theorem int16_of_range (x : Int) (h1 : -32768 ≤ x) (h2 : x ≤ 32767) : int16 x = x := by
  unfold int16
  omega

theorem toggleCount_append (a b : List Event) :
    toggleCount (a ++ b) = toggleCount a + toggleCount b := by
  induction a with
  | nil => simp [toggleCount]
  | cons e t ih =>
    cases e <;> simp [toggleCount, ih]
    omega

/-- The three ways in which a call of `SimpleSD_BlinkLED` can go. -/
theorem SimpleSD_BlinkLED_step (t : Machine) :
    (t.LED_Reload_Value = 0 → SimpleSD_BlinkLED t = HAL_GPIO_WritePin GPIO_PIN_SET t) ∧
    (t.LED_Reload_Value ≠ 0 → 0 < int16 (t.LED_Toggle_Counter - 1) →
      SimpleSD_BlinkLED t =
        { t with LED_Toggle_Counter := int16 (t.LED_Toggle_Counter - 1) }) ∧
    (t.LED_Reload_Value ≠ 0 → int16 (t.LED_Toggle_Counter - 1) ≤ 0 →
      SimpleSD_BlinkLED t =
        { t with LED_Toggle_Counter := t.LED_Reload_Value,
                 LED_Pin := if t.LED_Pin = GPIO_PIN_RESET then GPIO_PIN_SET
                   else GPIO_PIN_RESET,
                 trace := t.trace ++ [Event.HAL_GPIO_TogglePin] }) := by
  refine ⟨fun h => ?_, fun h hc => ?_, fun h hc => ?_⟩
  · simp [SimpleSD_BlinkLED, h]
  · have hc1 : ¬ int16 (t.LED_Toggle_Counter - 1) ≤ 0 := by omega
    simp [SimpleSD_BlinkLED, h, hc1]
  · simp [SimpleSD_BlinkLED, h, hc, HAL_GPIO_TogglePin]

/-- The calls of `SimpleSD_BlinkLED` that only count down: from a counter `c` with
`0 < c ≤ 32767` and a non-zero reload value, `j < c` calls leave the pin and the number of
toggles as they are and the counter at `c - j`. -/
theorem blink_countdown (s : Machine) (c : Nat) (hc16 : c ≤ 32767)
    (hrel : s.LED_Reload_Value ≠ 0) (hcnt : s.LED_Toggle_Counter = c) (j : Nat) (hj : j < c) :
    (SimpleSD_BlinkLED^[j] s) = { s with LED_Toggle_Counter := (c : Int) - j } := by
  induction j with
  | zero =>
    simp only [Function.iterate_zero, id_eq, Nat.cast_zero, sub_zero]
    rw [← hcnt]
  | succ j ih =>
    rw [Function.iterate_succ_apply', ih (by omega)]
    have hr : int16 ((c : Int) - j - 1) = (c : Int) - j - 1 :=
      int16_of_range _ (by omega) (by omega)
    have h := (SimpleSD_BlinkLED_step { s with LED_Toggle_Counter := (c : Int) - j }).2.1
      hrel (by show 0 < int16 ((c : Int) - j - 1); rw [hr]; omega)
    rw [h]
    show { s with LED_Toggle_Counter := int16 ((c : Int) - j - 1) } = _
    rw [hr]
    simp only [Nat.cast_add, Nat.cast_one]
    congr 1
    omega

/-- One period of the indicator: from a counter just reloaded with `R`, `R` calls of
`SimpleSD_BlinkLED` toggle the pin once, with the last call, and reload the counter. -/
theorem blink_cycle (s : Machine) (R : Nat) (hR : 0 < R) (hR16 : R ≤ 32767)
    (hrel : s.LED_Reload_Value = R) (hcnt : s.LED_Toggle_Counter = R) :
    (SimpleSD_BlinkLED^[R] s) =
      { s with LED_Pin := if s.LED_Pin = GPIO_PIN_RESET then GPIO_PIN_SET else GPIO_PIN_RESET,
               trace := s.trace ++ [Event.HAL_GPIO_TogglePin] } := by
  have hne : s.LED_Reload_Value ≠ 0 := by rw [hrel]; exact_mod_cast (by omega : R ≠ 0)
  obtain ⟨r, rfl⟩ : ∃ r, R = r + 1 := ⟨R - 1, by omega⟩
  rw [Function.iterate_succ_apply', blink_countdown s (r + 1) hR16 hne hcnt r (by omega)]
  have hz : int16 (((r + 1 : Nat) : Int) - r - 1) = 0 := by
    rw [int16_of_range _ (by push_cast; omega) (by push_cast; omega)]
    push_cast; omega
  have h := (SimpleSD_BlinkLED_step
    { s with LED_Toggle_Counter := ((r + 1 : Nat) : Int) - r }).2.2 hne
    (by show int16 (((r + 1 : Nat) : Int) - r - 1) ≤ 0; rw [hz])
  rw [h]
  show { s with LED_Toggle_Counter := s.LED_Reload_Value,
                LED_Pin := if s.LED_Pin = GPIO_PIN_RESET then GPIO_PIN_SET
                  else GPIO_PIN_RESET,
                trace := s.trace ++ [Event.HAL_GPIO_TogglePin] } = _
  rw [hrel, ← hcnt]

/-! ## The programming loop run to its end -/

/-- A programming loop in whose log no step fails makes `n` complete passes and ends with
the cursor at or past the end address. -/
theorem programLoop_quiet (w : World) (A FileData : Nat) (s : Machine)
    (hok : ∀ e ∈ (programLoop w A FileData s).2.trace.drop s.trace.length,
      e.isFailure = false) :
    ∃ n mem evs, PassesOk w A s.fileReads n evs ∧
      programLoop w A FileData s =
        (none, { s with flash := mem, fileReads := s.fileReads + n,
                        trace := s.trace ++ evs }) ∧
      APPLICATION_END_ADDRESS ≤ A + 4 * n ∧
      (n = 0 ∨ A + 4 * (n - 1) < APPLICATION_END_ADDRESS) := by
  obtain ⟨n, mem, evs, hpass, hcase⟩ := programLoop_spec w A FileData s
  rcases hcase with ⟨h1, h2, h3⟩ | ⟨_, tail, code, h2, h3⟩
  · exact ⟨n, mem, evs, hpass, h1, h2, h3⟩
  · exfalso
    obtain ⟨pre, f, htail, _, hf, _⟩ := programFail_structure w _ _ _ _ h2
    have hmem : f ∈ (programLoop w A FileData s).2.trace.drop s.trace.length := by
      rw [h3, htail]
      simp [HAL_FLASH_Lock, SimpleSD_DeInit, f_close, f_unmount]
    rw [hok f hmem] at hf
    exact absurd hf (by decide)

/-- On the healthy board, with an image that fills the region, no step of the programming
loop fails. -/
theorem programLoop_healthy (size : Nat) (byte : Nat → Nat) (FileData : Nat) (s : Machine)
    (hsize : 4 * regionWords ≤ size) (hs : s.fileReads = 0) :
    ∀ e ∈ (programLoop (healthyWorld size byte) APPLICATION_START_ADDRESS FileData
      s).2.trace.drop s.trace.length, e.isFailure = false := by
  obtain ⟨n, mem, evs, hpass, hcase⟩ :=
    programLoop_spec (healthyWorld size byte) APPLICATION_START_ADDRESS FileData s
  rcases hcase with ⟨h1, _, _⟩ | ⟨h1, tail, code, h2, _⟩
  · rw [h1]
    simp only [List.drop_left]
    exact fun e he => (hpass.2.2.1 e he).2
  · exfalso
    have hn : 4 * n + 4 ≤ size := by
      rw [sector_constants.2.2.1] at hsize
      rw [constants_eq.1, constants_eq.2.1] at h1
      omega
    obtain ⟨buf, h⟩ := h2
    rw [hs, Nat.zero_add] at h
    have hread := fileRead_full size byte n buf hn
    change (fileRead size byte n buf).Bytes = 4 ∧ _ at hread
    rcases h with ⟨_, h2, _⟩ | ⟨_, mem1, ⟨_, h2, _⟩ | ⟨_, _, h3, _⟩⟩
    · rcases h2 with h2 | h2
      · have h4 : (fileRead size byte n buf).Bytes = 0 := h2
        rw [hread.1] at h4
        exact absurd h4 (by decide)
      · exact h2 hread.2.1
    · exact h2 rfl
    · apply h3
      show Function.update mem1 _ _ _ % U32 = _
      rw [Function.update_same, Nat.mod_mod]

/-- The cursor of a programming loop that runs to its end from a word-aligned address not
past `0x08200000` is `0x08200000`. -/
theorem programCursor_end (w : World) (A FileData : Nat) (s : Machine) :
    (programLoop w A FileData s).1 = none → A % 4 = 0 → A ≤ 0x08200000 →
      programCursor w A FileData s = 0x08200000 := by
  refine programLoop.induct w (fun A FileData s =>
    (programLoop w A FileData s).1 = none → A % 4 = 0 → A ≤ 0x08200000 →
      programCursor w A FileData s = 0x08200000)
    ?_ ?_ ?_ ?_ ?_ A FileData s
  · intro A fd s hlt r hbad
    have hrun : programLoop w A fd s =
        (some SIMPLESD_FS_READ_ERROR, HAL_FLASH_Lock (SimpleSD_DeInit
          { s with fileReads := s.fileReads + 1,
                   trace := s.trace ++ [Event.f_read r.fresult r.Bytes] })) := by
      rw [programLoop]; simp only [hlt, if_true]; rw [if_pos hbad]
    rw [hrun]
    intro h; simp at h
  · intro A fd s hlt r d s1 hgood p s2 hok hcmp
    have hrun : programLoop w A fd s =
        (some SIMPLESD_FLASH_WRITE_COMPARE_ERROR, HAL_FLASH_Lock (SimpleSD_DeInit
          (s2.log (Event.readBack A (s2.flash A % U32) d)))) := by
      rw [programLoop]; simp only [hlt, if_true]
      rw [if_neg hgood, if_pos hok, if_pos hcmp]
    rw [hrun]
    intro h; simp at h
  · intro A fd s hlt r d s1 hgood p s2 hok s3 hcmp ih
    have hmod : (A + 4) % U32 = A + 4 := by
      apply Nat.mod_eq_of_lt
      have : APPLICATION_END_ADDRESS + 4 < U32 := by decide
      omega
    have hstep : programLoop w A fd s = programLoop w (A + 4) d s3 := by
      rw [programLoop]
      simp only [hlt, if_true]
      rw [if_neg hgood, if_pos hok, if_neg hcmp, hmod]
    have hcur : programCursor w A fd s = programCursor w (A + 4) d s3 := by
      rw [programCursor]
      simp only [hlt, if_true]
      rw [if_neg hgood, if_pos hok, if_neg hcmp, hmod]
    rw [hmod] at ih
    rw [hstep, hcur]
    intro hnone h4 hle
    have hlt1 : A < 0x081FFFFF := hlt
    exact ih hnone (by omega) (by omega)
  · intro A fd s hlt r d s1 hgood p hbad
    have hrun : programLoop w A fd s =
        (some SIMPLESD_FLASH_WRITE_ERROR, HAL_FLASH_Lock (SimpleSD_DeInit
          { s1 with flash := p.2,
                    trace := s1.trace ++ [Event.HAL_FLASH_Program A d p.1] })) := by
      rw [programLoop]; simp only [hlt, if_true]
      rw [if_neg hgood, if_neg hbad]
    rw [hrun]
    intro h; simp at h
  · intro A fd s hge
    have hcur : programCursor w A fd s = A := by
      rw [programCursor]; simp [hge]
    rw [hcur]
    intro _ h4 hle
    have hge1 : ¬ A < 0x081FFFFF := hge
    omega

/-! ## The rate of the indicator at return -/

theorem lastMode_append (a b : List Event) :
    lastMode (a ++ b) = (lastMode b).orElse (fun _ => lastMode a) := by
  induction a with
  | nil => cases h : lastMode b <;> simp [lastMode, h]
  | cons e t ih =>
    rw [List.cons_append]
    cases e
    case SimpleSD_ModeLED m =>
      simp only [lastMode, ih]
      cases lastMode b <;> simp
    all_goals (simp only [lastMode]; exact ih)

theorem lastMode_none (l : List Event) (h : ∀ e ∈ l, ∀ Mode, e ≠ Event.SimpleSD_ModeLED Mode) :
    lastMode l = none := by
  induction l with
  | nil => rfl
  | cons e t ih =>
    have ht := ih (fun x hx => h x (List.mem_cons_of_mem _ hx))
    have he := h e (List.mem_cons_self _ _)
    cases e <;> first | simpa [lastMode] using ht | exact absurd rfl (he _)

theorem lastMode_sampling (sampling : List Event) (hs : ∀ e ∈ sampling, e.isSampling = true) :
    lastMode sampling = none := by
  apply lastMode_none
  intro e he Mode hm
  have := hs e he
  rw [hm] at this
  simp [Event.isSampling] at this

theorem lastMode_programSteps (l : List Event) (h : ∀ e ∈ l, e.isProgramStep = true) :
    lastMode l = none := by
  apply lastMode_none
  intro e he Mode hm
  have := h e he
  rw [hm] at this
  simp [Event.isProgramStep] at this

theorem lastMode_eraseOk (c k : Nat) : lastMode (eraseOk c k) = none := by
  apply lastMode_none
  intro e he Mode hm
  obtain ⟨sec, _, _, h⟩ := eraseOk_mem c k e he
  rw [hm] at h
  cases h

theorem lastMode_prologue (sampling : List Event) (hs : ∀ e ∈ sampling, e.isSampling = true)
    (d : Nat) : lastMode (prologue sampling d) = some SIMPLESD_LED_STOPPED_MODE := by
  simp [prologue, lastMode_append, lastMode_sampling sampling hs, lastMode]

/-- The five kinds of run of `SimpleSD_FirmwareUpgrade`, with the reload value at return and
the rate selected by the last `SimpleSD_ModeLED` call of the run. -/
theorem run_rate (w : World) (s : Machine) :
    ((SimpleSD_DetectCard w s).1 = SIMPLESD_NOT_DETECTED ∧
      (SimpleSD_FirmwareUpgrade w s).1 = SIMPLESD_NO_SD ∧
      (SimpleSD_FirmwareUpgrade w s).2.LED_Reload_Value =
        reloadValue SIMPLESD_LED_STOPPED_MODE ∧
      lastMode (runLog w s) = some SIMPLESD_LED_STOPPED_MODE) ∨
    ((SimpleSD_DetectCard w s).1 = SIMPLESD_DETECTED ∧
      ((SimpleSD_FirmwareUpgrade w s).1 = SIMPLESD_FS_MOUNT_ERROR ∨
        (SimpleSD_FirmwareUpgrade w s).1 = SIMPLESD_FS_OPEN_ERROR) ∧
      (SimpleSD_FirmwareUpgrade w s).2.LED_Reload_Value =
        reloadValue SIMPLESD_LED_STOPPED_MODE ∧
      lastMode (runLog w s) = some SIMPLESD_LED_STOPPED_MODE) ∨
    ((SimpleSD_DetectCard w s).1 = SIMPLESD_DETECTED ∧
      (SimpleSD_FirmwareUpgrade w s).1 = SIMPLESD_FLASH_ERASE_ERROR ∧
      (SimpleSD_FirmwareUpgrade w s).2.LED_Reload_Value =
        reloadValue SIMPLESD_LED_4HZ_MODE ∧
      lastMode (runLog w s) = some SIMPLESD_LED_4HZ_MODE) ∨
    ((SimpleSD_DetectCard w s).1 = SIMPLESD_DETECTED ∧
      ((SimpleSD_FirmwareUpgrade w s).1 = SIMPLESD_FS_READ_ERROR ∨
        (SimpleSD_FirmwareUpgrade w s).1 = SIMPLESD_FLASH_WRITE_ERROR ∨
        (SimpleSD_FirmwareUpgrade w s).1 = SIMPLESD_FLASH_WRITE_COMPARE_ERROR) ∧
      (SimpleSD_FirmwareUpgrade w s).2.LED_Reload_Value =
        reloadValue SIMPLESD_LED_10HZ_MODE ∧
      lastMode (runLog w s) = some SIMPLESD_LED_10HZ_MODE) ∨
    ((SimpleSD_DetectCard w s).1 = SIMPLESD_DETECTED ∧
      (((SimpleSD_FirmwareUpgrade w s).1 = SIMPLESD_OK ∧
          Event.SimpleSD_CRC_Check SIMPLESD_CRC_SAME ∈ runLog w s) ∨
        ((SimpleSD_FirmwareUpgrade w s).1 = SIMPLESD_NO_SD ∧
          ∃ result, result ≠ SIMPLESD_CRC_SAME ∧
            Event.SimpleSD_CRC_Check result ∈ runLog w s)) ∧
      (SimpleSD_FirmwareUpgrade w s).2.LED_Reload_Value =
        reloadValue SIMPLESD_LED_10HZ_MODE ∧
      lastMode (runLog w s) = some SIMPLESD_LED_10HZ_MODE) := by
  obtain ⟨k, sampling, hs, hshape⟩ := run_shape w s
  have hpro := lastMode_prologue sampling hs
  rcases hshape with ⟨hd, hrun⟩ | ⟨hd, hm, hrun⟩ | ⟨hd, hm, ho, hrun⟩ |
    ⟨hd, hm, ho, j, mem, mem0, hj, hbad, hrun⟩ |
    ⟨hd, hm, ho, n, mem, evs, tail, code, hpass, hn, hfail, hrun⟩ |
    ⟨hd, hm, ho, mem, evs, hpass, hS, hrun⟩
  · left
    have hlog := runLog_eq w s _ _ _ hrun rfl
    refine ⟨hd, by rw [hrun], by rw [hrun], ?_⟩
    rw [hlog, hpro]
  · right; left
    have hlog := runLog_eq w s _ _ _ hrun rfl
    refine ⟨hd, Or.inl (by rw [hrun]), by rw [hrun], ?_⟩
    rw [hlog, lastMode_append, hpro]
    rfl
  · right; left
    have hlog := runLog_eq w s _ _ _ hrun rfl
    refine ⟨hd, Or.inr (by rw [hrun]), by rw [hrun], ?_⟩
    rw [hlog, lastMode_append, hpro]
    rfl
  · right; right; left
    have hlog := runLog_eq w s _ _ _ hrun rfl
    refine ⟨hd, by rw [hrun], by rw [hrun], ?_⟩
    rw [hlog]
    simp only [lastMode_append, hpro, lastMode_eraseOk]
    rfl
  · right; right; right; left
    have hlog := runLog_eq w s _ _ _ hrun rfl
    have hcodes := programFail_reads w _ _ _ _ hfail
    refine ⟨hd, by rw [hrun]; exact hcodes.2.2.2.1, by rw [hrun], ?_⟩
    rw [hlog]
    simp only [lastMode_append, hpro, lastMode_eraseOk,
      lastMode_programSteps evs (fun e he => (hpass.2.2.1 e he).1),
      lastMode_programSteps tail hcodes.2.2.2.2]
    rfl
  · right; right; right; right
    have hlog := runLog_eq w s _ _ _ hrun rfl
    refine ⟨hd, ?_, by rw [hrun], ?_⟩
    · by_cases hc : SimpleSD_CRC_Check CRC_CALCULATION_METHOD mem = SIMPLESD_CRC_SAME
      · left
        refine ⟨by rw [hrun, if_pos hc], ?_⟩
        rw [hlog, hc]
        simp
      · right
        refine ⟨by rw [hrun, if_neg hc], _, hc, ?_⟩
        rw [hlog]
        simp
    · rw [hlog]
      simp only [lastMode_append, hpro, lastMode_eraseOk,
        lastMode_programSteps evs (fun e he => (hpass.2.2.1 e he).1)]
      rfl

/-! ## The sector chain outside the flash map -/

/-- On every address the chain of `SimpleSD_FindSector` gives a sector number up to 23, and
23 exactly for the addresses from `0x081E0000` on and for those below `0x08000000`. -/
theorem SimpleSD_FindSector_last (a : Nat) :
    SimpleSD_FindSector a ≤ 23 ∧
      (SimpleSD_FindSector a = 23 ↔ 0x081E0000 ≤ a ∨ a < 0x08000000) := by
  generalize hi : SimpleSD_FindSector a = i
  unfold SimpleSD_FindSector at hi
  simp only [ADDR_FLASH_SECTOR_0, ADDR_FLASH_SECTOR_1, ADDR_FLASH_SECTOR_2, ADDR_FLASH_SECTOR_3,
    ADDR_FLASH_SECTOR_4, ADDR_FLASH_SECTOR_5, ADDR_FLASH_SECTOR_6, ADDR_FLASH_SECTOR_7,
    ADDR_FLASH_SECTOR_8, ADDR_FLASH_SECTOR_9, ADDR_FLASH_SECTOR_10, ADDR_FLASH_SECTOR_11,
    ADDR_FLASH_SECTOR_12, ADDR_FLASH_SECTOR_13, ADDR_FLASH_SECTOR_14, ADDR_FLASH_SECTOR_15,
    ADDR_FLASH_SECTOR_16, ADDR_FLASH_SECTOR_17, ADDR_FLASH_SECTOR_18, ADDR_FLASH_SECTOR_19,
    ADDR_FLASH_SECTOR_20, ADDR_FLASH_SECTOR_21, ADDR_FLASH_SECTOR_22, ADDR_FLASH_SECTOR_23,
    FLASH_SECTOR] at hi
  by_cases c0 : a < 134234112 ∧ a ≥ 134217728
  · rw [if_pos c0] at hi
    omega
  rw [if_neg c0] at hi
  by_cases c1 : a < 134250496 ∧ a ≥ 134234112
  · rw [if_pos c1] at hi
    omega
  rw [if_neg c1] at hi
  by_cases c2 : a < 134266880 ∧ a ≥ 134250496
  · rw [if_pos c2] at hi
    omega
  rw [if_neg c2] at hi
  by_cases c3 : a < 134283264 ∧ a ≥ 134266880
  · rw [if_pos c3] at hi
    omega
  rw [if_neg c3] at hi
  by_cases c4 : a < 134348800 ∧ a ≥ 134283264
  · rw [if_pos c4] at hi
    omega
  rw [if_neg c4] at hi
  by_cases c5 : a < 134479872 ∧ a ≥ 134348800
  · rw [if_pos c5] at hi
    omega
  rw [if_neg c5] at hi
  by_cases c6 : a < 134610944 ∧ a ≥ 134479872
  · rw [if_pos c6] at hi
    omega
  rw [if_neg c6] at hi
  by_cases c7 : a < 134742016 ∧ a ≥ 134610944
  · rw [if_pos c7] at hi
    omega
  rw [if_neg c7] at hi
  by_cases c8 : a < 134873088 ∧ a ≥ 134742016
  · rw [if_pos c8] at hi
    omega
  rw [if_neg c8] at hi
  by_cases c9 : a < 135004160 ∧ a ≥ 134873088
  · rw [if_pos c9] at hi
    omega
  rw [if_neg c9] at hi
  by_cases c10 : a < 135135232 ∧ a ≥ 135004160
  · rw [if_pos c10] at hi
    omega
  rw [if_neg c10] at hi
  by_cases c11 : a < 135266304 ∧ a ≥ 135135232
  · rw [if_pos c11] at hi
    omega
  rw [if_neg c11] at hi
  by_cases c12 : a < 135282688 ∧ a ≥ 135266304
  · rw [if_pos c12] at hi
    omega
  rw [if_neg c12] at hi
  by_cases c13 : a < 135299072 ∧ a ≥ 135282688
  · rw [if_pos c13] at hi
    omega
  rw [if_neg c13] at hi
  by_cases c14 : a < 135315456 ∧ a ≥ 135299072
  · rw [if_pos c14] at hi
    omega
  rw [if_neg c14] at hi
  by_cases c15 : a < 135331840 ∧ a ≥ 135315456
  · rw [if_pos c15] at hi
    omega
  rw [if_neg c15] at hi
  by_cases c16 : a < 135397376 ∧ a ≥ 135331840
  · rw [if_pos c16] at hi
    omega
  rw [if_neg c16] at hi
  by_cases c17 : a < 135528448 ∧ a ≥ 135397376
  · rw [if_pos c17] at hi
    omega
  rw [if_neg c17] at hi
  by_cases c18 : a < 135659520 ∧ a ≥ 135528448
  · rw [if_pos c18] at hi
    omega
  rw [if_neg c18] at hi
  by_cases c19 : a < 135790592 ∧ a ≥ 135659520
  · rw [if_pos c19] at hi
    omega
  rw [if_neg c19] at hi
  by_cases c20 : a < 135921664 ∧ a ≥ 135790592
  · rw [if_pos c20] at hi
    omega
  rw [if_neg c20] at hi
  by_cases c21 : a < 136052736 ∧ a ≥ 135921664
  · rw [if_pos c21] at hi
    omega
  rw [if_neg c21] at hi
  by_cases c22 : a < 136183808 ∧ a ≥ 136052736
  · rw [if_pos c22] at hi
    omega
  rw [if_neg c22] at hi
  omega

/-! ## The checksum step as a bijection -/

theorem testBit_31_iff (x : Nat) (hx : x < 2 ^ 32) : x.testBit 31 = true ↔ 2 ^ 31 ≤ x := by
  constructor
  · intro h
    by_contra hlt
    have := Nat.testBit_lt_two_pow (show x < 2 ^ 31 by omega)
    rw [this] at h
    exact absurd h (by decide)
  · intro h
    have hx' : x = 2 ^ 31 + (x - 2 ^ 31) := by omega
    rw [hx', Nat.testBit_two_pow_add_eq,
      Nat.testBit_lt_two_pow (show x - 2 ^ 31 < 2 ^ 31 by omega)]
    rfl

theorem crcShift_low (x : Nat) (h : x < 2 ^ 31) : crcShift x = 2 * x := by
  have hn : ¬ (x &&& 0x80000000 ≠ 0) := by
    intro hc
    have := (testBit_31_iff x (by omega)).1 ((and_top_bit x).1 hc)
    omega
  unfold crcShift
  rw [if_neg hn, Nat.shiftLeft_eq]
  unfold U32
  omega

theorem crcShift_high (x : Nat) (h1 : 2 ^ 31 ≤ x) (h2 : x < 2 ^ 32) :
    crcShift x = (2 * x - 2 ^ 32) ^^^ CRC_POLYNOMIAL := by
  have hp : x &&& 0x80000000 ≠ 0 := (and_top_bit x).2 ((testBit_31_iff x h2).2 h1)
  unfold crcShift
  have e : x * 2 ^ 1 % U32 = 2 * x - 2 ^ 32 := by
    unfold U32
    omega
  rw [if_pos hp, Nat.shiftLeft_eq, e]

theorem xor_poly_odd (y : Nat) : ((2 * y) ^^^ CRC_POLYNOMIAL) % 2 = 1 := by
  have h := Nat.testBit_xor (2 * y) CRC_POLYNOMIAL 0
  rw [Nat.testBit_zero, Nat.testBit_zero, Nat.testBit_zero] at h
  have h1 : (2 * y) % 2 = 0 := by omega
  have h2 : CRC_POLYNOMIAL % 2 = 1 := by decide
  rw [h1, h2] at h
  simpa using h

/-- One pass of the register loop is injective on 32-bit words: the bit shifted out can be
read off the lowest bit of the result, because the polynomial is odd. -/
theorem crcShift_injective (x y : Nat) (hx : x < 2 ^ 32) (hy : y < 2 ^ 32)
    (h : crcShift x = crcShift y) : x = y := by
  by_cases hxl : x < 2 ^ 31 <;> by_cases hyl : y < 2 ^ 31
  · rw [crcShift_low x hxl, crcShift_low y hyl] at h
    omega
  · rw [crcShift_low x hxl, crcShift_high y (by omega) hy] at h
    have hodd := xor_poly_odd (y - 2 ^ 31)
    rw [show 2 * (y - 2 ^ 31) = 2 * y - 2 ^ 32 by omega, ← h] at hodd
    omega
  · rw [crcShift_high x (by omega) hx, crcShift_low y hyl] at h
    have hodd := xor_poly_odd (x - 2 ^ 31)
    rw [show 2 * (x - 2 ^ 31) = 2 * x - 2 ^ 32 by omega, h] at hodd
    omega
  · rw [crcShift_high x (by omega) hx, crcShift_high y (by omega) hy] at h
    have h' := congrArg (fun z => z ^^^ CRC_POLYNOMIAL) h
    simp only [Nat.xor_cancel_right] at h'
    omega

theorem crcBits_lt (n x : Nat) (hx : x < 2 ^ 32) : crcBits n x < 2 ^ 32 := by
  induction n generalizing x with
  | zero => exact hx
  | succ n ih => exact ih _ (crcShift_lt x)

theorem crcBits_injective (n x y : Nat) (hx : x < 2 ^ 32) (hy : y < 2 ^ 32)
    (h : crcBits n x = crcBits n y) : x = y := by
  induction n generalizing x y with
  | zero => exact h
  | succ n ih =>
    exact crcShift_injective x y hx hy (ih _ _ (crcShift_lt x) (crcShift_lt y) h)

theorem CalculateCRC_32_lt (crc data : Nat) (hc : crc < 2 ^ 32) (hd : data < 2 ^ 32) :
    CalculateCRC_32 crc data < 2 ^ 32 :=
  crcBits_lt 32 _ (Nat.xor_lt_two_pow hc hd)

theorem CalculateCRC_32_injective_data (crc d1 d2 : Nat) (hc : crc < 2 ^ 32)
    (h1 : d1 < 2 ^ 32) (h2 : d2 < 2 ^ 32)
    (h : CalculateCRC_32 crc d1 = CalculateCRC_32 crc d2) : d1 = d2 := by
  have hx := crcBits_injective 32 _ _ (Nat.xor_lt_two_pow hc h1) (Nat.xor_lt_two_pow hc h2) h
  have h' := congrArg (fun z => crc ^^^ z) hx
  simpa [← Nat.xor_assoc] using h'

theorem CalculateCRC_32_injective_crc (data c1 c2 : Nat) (hd : data < 2 ^ 32)
    (h1 : c1 < 2 ^ 32) (h2 : c2 < 2 ^ 32)
    (h : CalculateCRC_32 c1 data = CalculateCRC_32 c2 data) : c1 = c2 := by
  have hx := crcBits_injective 32 _ _ (Nat.xor_lt_two_pow h1 hd) (Nat.xor_lt_two_pow h2 hd) h
  have h' := congrArg (fun z => z ^^^ data) hx
  simpa [Nat.xor_cancel_right] using h'

/-- An injective map of the 32-bit words into themselves reaches every 32-bit word. -/
theorem surjective_of_injective_u32 (f : Nat → Nat) (hmaps : ∀ x, x < 2 ^ 32 → f x < 2 ^ 32)
    (hinj : ∀ x y, x < 2 ^ 32 → y < 2 ^ 32 → f x = f y → x = y) :
    ∀ y, y < 2 ^ 32 → ∃ x, x < 2 ^ 32 ∧ f x = y := by
  intro y hy
  have hmem : ∀ a, a ∈ Finset.range (2 ^ 32) → f a ∈ Finset.range (2 ^ 32) :=
    fun a ha => Finset.mem_range.2 (hmaps a (Finset.mem_range.1 ha))
  obtain ⟨x, hx, hxy⟩ := Finset.surj_on_of_inj_on_of_card_le (fun a _ => f a) hmem
    (fun a b ha hb hab => hinj a b (Finset.mem_range.1 ha) (Finset.mem_range.1 hb) hab)
    (le_refl _) y (Finset.mem_range.2 hy)
  exact ⟨x, Finset.mem_range.1 hx, hxy.symm⟩

/-! ## One changed word changes the checksum -/

theorem foldl_crc_lt (l : List Nat) (c : Nat) (hc : c < 2 ^ 32) (hl : ∀ d ∈ l, d < 2 ^ 32) :
    List.foldl CalculateCRC_32 c l < 2 ^ 32 := by
  induction l generalizing c with
  | nil => exact hc
  | cons d t ih =>
    rw [List.foldl_cons]
    exact ih _ (CalculateCRC_32_lt c d hc (hl d (List.mem_cons_self _ _)))
      (fun x hx => hl x (List.mem_cons_of_mem _ hx))

theorem foldl_crc_injective (l : List Nat) (c1 c2 : Nat) (h1 : c1 < 2 ^ 32)
    (h2 : c2 < 2 ^ 32) (hl : ∀ d ∈ l, d < 2 ^ 32)
    (h : List.foldl CalculateCRC_32 c1 l = List.foldl CalculateCRC_32 c2 l) : c1 = c2 := by
  induction l generalizing c1 c2 with
  | nil => exact h
  | cons d t ih =>
    rw [List.foldl_cons, List.foldl_cons] at h
    have hd := hl d (List.mem_cons_self _ _)
    have := ih _ _ (CalculateCRC_32_lt c1 d h1 hd) (CalculateCRC_32_lt c2 d h2 hd)
      (fun x hx => hl x (List.mem_cons_of_mem _ hx)) h
    exact CalculateCRC_32_injective_crc d c1 c2 hd h1 h2 this

/-- Two word sequences that differ in one word have different folds from the same seed. -/
theorem foldl_crc_one_word (seed : Nat) (pre post : List Nat) (a b : Nat)
    (hseed : seed < 2 ^ 32) (hpre : ∀ d ∈ pre, d < 2 ^ 32) (hpost : ∀ d ∈ post, d < 2 ^ 32)
    (ha : a < 2 ^ 32) (hb : b < 2 ^ 32) (hab : a ≠ b) :
    List.foldl CalculateCRC_32 seed (pre ++ a :: post) ≠
      List.foldl CalculateCRC_32 seed (pre ++ b :: post) := by
  intro h
  rw [List.foldl_append, List.foldl_append, List.foldl_cons, List.foldl_cons] at h
  have hc := foldl_crc_lt pre seed hseed hpre
  have h1 := foldl_crc_injective post _ _ (CalculateCRC_32_lt _ a hc ha)
    (CalculateCRC_32_lt _ b hc hb) hpost h
  exact hab (CalculateCRC_32_injective_data _ a b hc ha hb h1)

theorem mod_U32_lt (x : Nat) : x % U32 < 2 ^ 32 := Nat.mod_lt _ (by decide)

theorem crcWords_lt (mem : Nat → Nat) (n c addr : Nat) (hc : c < 2 ^ 32) :
    crcWords mem n c addr < 2 ^ 32 := by
  induction n generalizing c addr with
  | zero => exact hc
  | succ n ih =>
    rw [crcWords]
    exact ih _ _ (CalculateCRC_32_lt c _ hc (mod_U32_lt _))

theorem crcWords_injective (mem : Nat → Nat) (n c1 c2 addr : Nat) (h1 : c1 < 2 ^ 32)
    (h2 : c2 < 2 ^ 32) (h : crcWords mem n c1 addr = crcWords mem n c2 addr) : c1 = c2 := by
  induction n generalizing c1 c2 addr with
  | zero => exact h
  | succ n ih =>
    rw [crcWords, crcWords] at h
    have := ih _ _ _ (CalculateCRC_32_lt c1 _ h1 (mod_U32_lt _))
      (CalculateCRC_32_lt c2 _ h2 (mod_U32_lt _)) h
    exact CalculateCRC_32_injective_crc _ c1 c2 (mod_U32_lt _) h1 h2 this

theorem crcWords_congr (mem1 mem2 : Nat → Nat) (n c addr : Nat) (h : addr + 4 * n ≤ U32)
    (hw : ∀ k, k < n → mem1 (addr + 4 * k) % U32 = mem2 (addr + 4 * k) % U32) :
    crcWords mem1 n c addr = crcWords mem2 n c addr := by
  rw [crcWords_eq_foldl mem1 n c addr h, crcWords_eq_foldl mem2 n c addr h]
  congr 1
  apply List.map_congr_left
  intro k hk
  exact hw k (List.mem_range.1 hk)

/-- The word loop over two memories that differ, modulo `2^32`, in exactly one of the `n`
words gives different values from the same 32-bit seed. -/
theorem crcWords_one_word (mem1 mem2 : Nat → Nat) (n j c addr : Nat) (hj : j < n)
    (h : addr + 4 * n ≤ U32) (hc : c < 2 ^ 32)
    (hdiff : mem1 (addr + 4 * j) % U32 ≠ mem2 (addr + 4 * j) % U32)
    (hsame : ∀ k, k < n → k ≠ j → mem1 (addr + 4 * k) % U32 = mem2 (addr + 4 * k) % U32) :
    crcWords mem1 n c addr ≠ crcWords mem2 n c addr := by
  obtain ⟨m, rfl⟩ : ∃ m, n = j + (1 + m) := ⟨n - j - 1, by omega⟩
  have hsplit : ∀ mem : Nat → Nat, crcWords mem (j + (1 + m)) c addr =
      crcWords mem m (CalculateCRC_32 (crcWords mem j c addr) (mem (addr + 4 * j) % U32))
        (addr + 4 * j + 4 * 1) := by
    intro mem
    rw [crcWords_add mem j (1 + m) c addr h,
      crcWords_add mem 1 m _ (addr + 4 * j) (by omega)]
    rfl
  rw [hsplit mem1, hsplit mem2]
  have hpre : crcWords mem1 j c addr = crcWords mem2 j c addr :=
    crcWords_congr mem1 mem2 j c addr (by omega) (fun k hk => hsame k (by omega) (by omega))
  have hpost : ∀ c', crcWords mem1 m c' (addr + 4 * j + 4 * 1) =
      crcWords mem2 m c' (addr + 4 * j + 4 * 1) := by
    intro c'
    apply crcWords_congr mem1 mem2 m c' _ (by omega)
    intro k hk
    have := hsame (j + 1 + k) (by omega) (by omega)
    rw [show addr + 4 * (j + 1 + k) = addr + 4 * j + 4 * 1 + 4 * k by omega] at this
    exact this
  rw [hpre, hpost]
  intro heq
  have hcj := crcWords_lt mem2 j c addr hc
  have h1 := crcWords_injective mem2 m _ _ _
    (CalculateCRC_32_lt _ _ hcj (mod_U32_lt _)) (CalculateCRC_32_lt _ _ hcj (mod_U32_lt _)) heq
  exact hdiff (CalculateCRC_32_injective_data _ _ _ hcj (mod_U32_lt _) (mod_U32_lt _) h1)

/-- The verdict of `SimpleSD_CRC_Check` in the software configuration. -/
theorem SimpleSD_CRC_Check_software (mem : Nat → Nat) :
    SimpleSD_CRC_Check CRC_USING_FUNCTION mem =
      if crcWords mem APPLICATION_CRC_CALCULATION_SIZE 0xFFFFFFFF APPLICATION_START_ADDRESS ≠
          mem APPLICATION_CRC_ADDRESS % U32
      then SIMPLESD_CRC_ERROR else SIMPLESD_CRC_SAME := by
  unfold SimpleSD_CRC_Check
  simp only [CRC_USING_FUNCTION, ne_eq, not_true_eq_false, if_false]

/-! ## Reads of fewer than four bytes -/

theorem fileWord_succ (w : World) (k r buf : Nat) :
    fileWord w (k + 1) r buf =
      (w.f_read (r + (k + 1)) (fileWord w k r buf)).FileData % U32 := by
  induction k generalizing r buf with
  | zero => rfl
  | succ k ih =>
    rw [fileWord, ih (r + 1), fileWord]
    rw [show r + 1 + (k + 1) = r + (k + 1 + 1) by omega]

theorem fileWord_healthy (size : Nat) (byte : Nat → Nat) (k buf : Nat)
    (h : 4 * k + 4 ≤ size) :
    fileWord (healthyWorld size byte) k 0 buf = imageWord byte k := by
  cases k with
  | zero => exact (fileRead_full size byte 0 buf h).2.2
  | succ k =>
    rw [fileWord_succ, Nat.zero_add]
    exact (fileRead_full size byte (k + 1) _ h).2.2

theorem byteOf_pack (b0 b1 b2 b3 : Nat) (h0 : b0 < 256) (h1 : b1 < 256) (h2 : b2 < 256)
    (h3 : b3 < 256) :
    byteOf (b0 + 256 * b1 + 256 ^ 2 * b2 + 256 ^ 3 * b3) 0 = b0 ∧
      byteOf (b0 + 256 * b1 + 256 ^ 2 * b2 + 256 ^ 3 * b3) 1 = b1 ∧
      byteOf (b0 + 256 * b1 + 256 ^ 2 * b2 + 256 ^ 3 * b3) 2 = b2 ∧
      byteOf (b0 + 256 * b1 + 256 ^ 2 * b2 + 256 ^ 3 * b3) 3 = b3 := by
  unfold byteOf
  norm_num
  refine ⟨?_, ?_, ?_, ?_⟩ <;> omega

theorem pack_lt (b0 b1 b2 b3 : Nat) (h0 : b0 < 256) (h1 : b1 < 256) (h2 : b2 < 256)
    (h3 : b3 < 256) : b0 + 256 * b1 + 256 ^ 2 * b2 + 256 ^ 3 * b3 < 4294967296 := by
  norm_num
  omega

theorem word_eq_bytes (x : Nat) (h : x < 4294967296) :
    x = byteOf x 0 + 256 * byteOf x 1 + 256 ^ 2 * byteOf x 2 + 256 ^ 3 * byteOf x 3 := by
  unfold byteOf
  norm_num
  omega

theorem byteOf_lt (word i : Nat) : byteOf word i < 256 := Nat.mod_lt _ (by decide)

theorem byteOf_imageWord (byte : Nat → Nat) (n : Nat) :
    byteOf (imageWord byte n) 0 = byte (4 * n) % 256 ∧
      byteOf (imageWord byte n) 1 = byte (4 * n + 1) % 256 ∧
      byteOf (imageWord byte n) 2 = byte (4 * n + 2) % 256 ∧
      byteOf (imageWord byte n) 3 = byte (4 * n + 3) % 256 :=
  byteOf_pack _ _ _ _ (Nat.mod_lt _ (by decide)) (Nat.mod_lt _ (by decide))
    (Nat.mod_lt _ (by decide)) (Nat.mod_lt _ (by decide))

/-- A read on the healthy medium that finds 1 to 3 bytes left: it returns `FR_OK` with that
count, and the buffer afterwards holds the bytes read in its first places and, in the other
places, the bytes it held before. -/
theorem fileRead_partial (size : Nat) (byte : Nat → Nat) (n buf : Nat) (h1 : 4 * n < size)
    (h2 : size < 4 * n + 4) :
    (fileRead size byte n buf).fresult = FR_OK ∧
      (fileRead size byte n buf).Bytes = size - 4 * n ∧
      (fileRead size byte n buf).FileData < U32 ∧
      ∀ i, i < 4 → byteOf (fileRead size byte n buf).FileData i =
        if i < size - 4 * n then byte (4 * n + i) % 256 else byteOf buf i := by
  have e1 : min (4 * n) size = 4 * n := by omega
  have e2 : min 4 (size - 4 * n) = size - 4 * n := by omega
  have hb : ∀ i, (if i < size - 4 * n then byte (4 * n + i) % 256 else byteOf buf i) < 256 := by
    intro i
    split
    · exact Nat.mod_lt _ (by decide)
    · exact byteOf_lt _ _
  have hdata : (fileRead size byte n buf).FileData =
      (if 0 < size - 4 * n then byte (4 * n + 0) % 256 else byteOf buf 0) +
        256 * (if 1 < size - 4 * n then byte (4 * n + 1) % 256 else byteOf buf 1) +
        256 ^ 2 * (if 2 < size - 4 * n then byte (4 * n + 2) % 256 else byteOf buf 2) +
        256 ^ 3 * (if 3 < size - 4 * n then byte (4 * n + 3) % 256 else byteOf buf 3) := by
    simp only [fileRead, e1, e2]
  have hpack := byteOf_pack _ _ _ _ (hb 0) (hb 1) (hb 2) (hb 3)
  refine ⟨rfl, ?_, ?_, ?_⟩
  · simp only [fileRead, e1, e2]
  · rw [hdata, constants_eq.2.2.2.2]
    exact pack_lt _ _ _ _ (hb 0) (hb 1) (hb 2) (hb 3)
  · intro i hi
    rw [hdata]
    interval_cases i
    · exact hpack.1
    · exact hpack.2.1
    · exact hpack.2.2.1
    · exact hpack.2.2.2

theorem programLoop_trace (w : World) (A FileData : Nat) (s : Machine) :
    ∃ l, (programLoop w A FileData s).2.trace = s.trace ++ l := by
  obtain ⟨n, mem, evs, _, hcase⟩ := programLoop_spec w A FileData s
  rcases hcase with ⟨h1, _, _⟩ | ⟨_, tail, code, _, h3⟩
  · exact ⟨evs, by rw [h1]⟩
  · refine ⟨evs ++ tail ++ cleanup, ?_⟩
    rw [h3]
    simp [HAL_FLASH_Lock, SimpleSD_DeInit, f_close, f_unmount, cleanup]

/-- A pass of the programming loop whose read returns `FR_OK` with a non-zero byte count,
be it less than 4, goes on to program the content of the buffer at the cursor. -/
theorem programLoop_after_read (w : World) (A FileData : Nat) (s : Machine)
    (hlt : A < APPLICATION_END_ADDRESS)
    (hgood : ¬ ((w.f_read s.fileReads FileData).Bytes = 0 ∨
      (w.f_read s.fileReads FileData).fresult ≠ FR_OK)) :
    ∃ rest, (programLoop w A FileData s).2.trace = s.trace ++
      Event.f_read (w.f_read s.fileReads FileData).fresult
          (w.f_read s.fileReads FileData).Bytes ::
        Event.HAL_FLASH_Program A ((w.f_read s.fileReads FileData).FileData % U32)
          (w.HAL_FLASH_Program s.flash A
            ((w.f_read s.fileReads FileData).FileData % U32)).1 :: rest := by
  rw [programLoop]
  simp only [hlt, if_true]
  rw [if_neg hgood]
  by_cases hok : (w.HAL_FLASH_Program s.flash A
      ((w.f_read s.fileReads FileData).FileData % U32)).1 = HAL_OK
  · rw [if_pos hok]
    by_cases hcmp : (w.HAL_FLASH_Program s.flash A
        ((w.f_read s.fileReads FileData).FileData % U32)).2 A % U32 ≠
        (w.f_read s.fileReads FileData).FileData % U32
    · rw [if_pos hcmp]
      exact ⟨_, by simp [HAL_FLASH_Lock, SimpleSD_DeInit, f_close, f_unmount, Machine.log]; rfl⟩
    · rw [if_neg hcmp]
      obtain ⟨l, hl⟩ := programLoop_trace w ((A + 4) % U32)
        ((w.f_read s.fileReads FileData).FileData % U32)
        (Machine.log
          { s with fileReads := s.fileReads + 1,
                   flash := (w.HAL_FLASH_Program s.flash A
                     ((w.f_read s.fileReads FileData).FileData % U32)).2,
                   trace := s.trace ++ [Event.f_read (w.f_read s.fileReads FileData).fresult
                       (w.f_read s.fileReads FileData).Bytes] ++
                     [Event.HAL_FLASH_Program A
                       ((w.f_read s.fileReads FileData).FileData % U32)
                       (w.HAL_FLASH_Program s.flash A
                         ((w.f_read s.fileReads FileData).FileData % U32)).1] }
          (Event.readBack A
            ((w.HAL_FLASH_Program s.flash A
              ((w.f_read s.fileReads FileData).FileData % U32)).2 A % U32)
            ((w.f_read s.fileReads FileData).FileData % U32)))
      exact ⟨_, by rw [hl]; simp [Machine.log]; rfl⟩
  · rw [if_neg hok]
    exact ⟨_, by simp [HAL_FLASH_Lock, SimpleSD_DeInit, f_close, f_unmount]; rfl⟩

/-- The outcome `SIMPLESD_FS_READ_ERROR` comes only from a read that returned zero bytes or
a result other than `FR_OK`. -/
theorem read_error_cause (w : World) (s : Machine)
    (h : (SimpleSD_FirmwareUpgrade w s).1 = SIMPLESD_FS_READ_ERROR) :
    ∃ fresult Bytes, Event.f_read fresult Bytes ∈ runLog w s ∧
      (Bytes = 0 ∨ fresult ≠ FR_OK) := by
  rcases runLog_structure w s with ⟨hok, _⟩ | ⟨oks, f, cl, hlog, _, hff, hout, _⟩
  · rw [hok] at h
    exact absurd h (by decide)
  · have hmem : f ∈ runLog w s := by rw [hlog]; simp
    rcases hout with hout | ⟨_, hno, _⟩
    · rw [h] at hout
      cases f <;> simp [Event.assignedOutcome] at hout <;>
        first
        | exact absurd hout (by decide)
        | skip
      case f_read fresult Bytes =>
        exact ⟨fresult, Bytes, hmem, by simpa [Event.isFailure] using hff⟩
    · rw [hno] at h
      exact absurd h (by decide)

/-- A run on the healthy board with an image three bytes short of the region: every read
returns at least one byte, the run reaches the verification, and the last word of the
region is made of the last byte of the image and of the three upper bytes of the word
before it. -/
theorem short_by_three_run (byte : Nat → Nat) (s : Machine) :
    (∃ result, Event.SimpleSD_CRC_Check result ∈ runLog (healthyWorld 0x1DFFFD byte) s) ∧
      ((SimpleSD_FirmwareUpgrade (healthyWorld 0x1DFFFD byte) s).1 = SIMPLESD_OK ∨
        (SimpleSD_FirmwareUpgrade (healthyWorld 0x1DFFFD byte) s).1 = SIMPLESD_NO_SD) ∧
      (SimpleSD_FirmwareUpgrade (healthyWorld 0x1DFFFD byte) s).2.fileReads = 491520 ∧
      (SimpleSD_FirmwareUpgrade (healthyWorld 0x1DFFFD byte) s).2.flash
          APPLICATION_CRC_ADDRESS =
        byte 0x1DFFFC % 256 + 256 * (byte 0x1DFFF9 % 256) + 256 ^ 2 * (byte 0x1DFFFA % 256) +
          256 ^ 3 * (byte 0x1DFFFB % 256) := by
  have hr := sector_constants.2.2.1
  have hreads : ∀ n buf, n < regionWords →
      ((healthyWorld 0x1DFFFD byte).f_read n buf).Bytes ≠ 0 ∧
        ((healthyWorld 0x1DFFFD byte).f_read n buf).fresult = FR_OK := by
    intro n buf hn
    rw [hr] at hn
    show (fileRead 0x1DFFFD byte n buf).Bytes ≠ 0 ∧ (fileRead 0x1DFFFD byte n buf).fresult = FR_OK
    by_cases hfull : 4 * n + 4 ≤ 0x1DFFFD
    · have := fileRead_full 0x1DFFFD byte n buf hfull
      exact ⟨by rw [this.1]; decide, this.2.1⟩
    · have := fileRead_partial 0x1DFFFD byte n buf (by omega) (by omega)
      exact ⟨by rw [this.2.1]; omega, this.1⟩
  obtain ⟨k, sampling, mem, evs, hs, hpass, ⟨S, hS0, hnone, hmem⟩, hrun⟩ :=
    complete_run (healthyWorld 0x1DFFFD byte) s (healthy_detect _ _ _) rfl rfl
      (fun _ _ _ => rfl)
      (fun mem a d => ⟨rfl, by
        show Function.update mem a d a % U32 = d % U32
        rw [Function.update_same]⟩) hreads
  have hlog := runLog_eq _ s _ _ _ hrun rfl
  refine ⟨⟨SimpleSD_CRC_Check CRC_CALCULATION_METHOD mem, by rw [hlog]; simp⟩, ?_, ?_, ?_⟩
  · rw [hrun]
    simp only
    split
    · exact Or.inl rfl
    · exact Or.inr rfl
  · rw [hrun]
    exact hr
  · rw [hrun]
    show mem APPLICATION_CRC_ADDRESS = _
    have hword := (programLoop_roundtrip (healthyWorld 0x1DFFFD byte) (fun _ _ _ _ => rfl)
      APPLICATION_START_ADDRESS (healthyWorld 0x1DFFFD byte).FileData S hnone).2 491519
      (by decide)
    rw [hmem, hS0] at hword
    have haddr : APPLICATION_START_ADDRESS + 4 * 491519 = APPLICATION_CRC_ADDRESS := by decide
    rw [haddr] at hword
    rw [hword, show (491519 : Nat) = 491518 + 1 from rfl, fileWord_succ,
      fileWord_healthy 0x1DFFFD byte 491518 _ (by decide)]
    show (fileRead 0x1DFFFD byte 491519 (imageWord byte 491518)).FileData % U32 = _
    obtain ⟨_, _, hlt, hbytes⟩ :=
      fileRead_partial 0x1DFFFD byte 491519 (imageWord byte 491518) (by decide) (by decide)
    rw [Nat.mod_eq_of_lt hlt]
    rw [constants_eq.2.2.2.2] at hlt
    have hb0 := hbytes 0 (by decide)
    have hb1 := hbytes 1 (by decide)
    have hb2 := hbytes 2 (by decide)
    have hb3 := hbytes 3 (by decide)
    have himg := byteOf_imageWord byte 491518
    rw [if_pos (by decide)] at hb0
    rw [if_neg (by decide), himg.2.1] at hb1
    rw [if_neg (by decide), himg.2.2.1] at hb2
    rw [if_neg (by decide), himg.2.2.2] at hb3
    rw [word_eq_bytes _ hlt, hb0, hb1, hb2, hb3]

/-! # The claims -/

/-- C1 (the code departs from the claim).  On a healthy board, with a full-size image whose
stored checksum word is corrupted, the card is detected, no step before verification fails,
`SimpleSD_CRC_Check` reports the mismatch as the only failing step of the run, and
`SimpleSD_FirmwareUpgrade` returns `SIMPLESD_NO_SD`: the code it also returns on a board
without a card.  The mismatch has no outcome of its own. -/
theorem checksum_mismatch_returns_no_sd :
    (SimpleSD_FirmwareUpgrade (healthyWorld 0x1E0000 corruptImage)
        (resetMachine (fun _ => 0))).1 = SIMPLESD_NO_SD ∧
      Event.SimpleSD_DetectCard SIMPLESD_DETECTED ∈
        runLog (healthyWorld 0x1E0000 corruptImage) (resetMachine (fun _ => 0)) ∧
      Event.SimpleSD_CRC_Check SIMPLESD_CRC_ERROR ∈
        runLog (healthyWorld 0x1E0000 corruptImage) (resetMachine (fun _ => 0)) ∧
      (∀ e ∈ runLog (healthyWorld 0x1E0000 corruptImage) (resetMachine (fun _ => 0)),
        e.isFailure = true → e = Event.SimpleSD_CRC_Check SIMPLESD_CRC_ERROR) ∧
      (SimpleSD_DetectCard absentWorld (resetMachine (fun _ => 0))).1 =
        SIMPLESD_NOT_DETECTED ∧
      (SimpleSD_FirmwareUpgrade absentWorld (resetMachine (fun _ => 0))).1 =
        (SimpleSD_FirmwareUpgrade (healthyWorld 0x1E0000 corruptImage)
          (resetMachine (fun _ => 0))).1 := by
  obtain ⟨h1, h2, h3⟩ := corrupt_run
  refine ⟨h1, h2, h3, ?_, absent_run.1, ?_⟩
  · exact (failure_in_runLog _ _ _ h3 (by decide)).2.2
  · rw [h1, absent_run.2]

/-- C2.  `SimpleSD_FirmwareUpgrade` returns `SIMPLESD_OK` exactly when its log shows that
the card was detected, mount and open returned `FR_OK`, every erase returned `HAL_OK`, every
read returned `FR_OK` with a non-zero byte count, every program returned `HAL_OK`, every
read-back equalled the word programmed, and `SimpleSD_CRC_Check` returned
`SIMPLESD_CRC_SAME`; and whenever the check returned anything else the code is not
`SIMPLESD_OK`. -/
theorem upgrade_ok_iff (w : World) (s : Machine) :
    ((SimpleSD_FirmwareUpgrade w s).1 = SIMPLESD_OK ↔
      (Event.SimpleSD_DetectCard SIMPLESD_DETECTED ∈ runLog w s ∧
        Event.f_mount FR_OK ∈ runLog w s ∧
        Event.f_open FR_OK ∈ runLog w s ∧
        (∀ Sector NbSectors status,
          Event.HAL_FLASHEx_Erase Sector NbSectors status ∈ runLog w s → status = HAL_OK) ∧
        (∀ fresult Bytes,
          Event.f_read fresult Bytes ∈ runLog w s → fresult = FR_OK ∧ Bytes ≠ 0) ∧
        (∀ Address Data status,
          Event.HAL_FLASH_Program Address Data status ∈ runLog w s → status = HAL_OK) ∧
        (∀ Address value FileData,
          Event.readBack Address value FileData ∈ runLog w s → value = FileData) ∧
        Event.SimpleSD_CRC_Check SIMPLESD_CRC_SAME ∈ runLog w s)) ∧
    (∀ result, Event.SimpleSD_CRC_Check result ∈ runLog w s → result ≠ SIMPLESD_CRC_SAME →
      (SimpleSD_FirmwareUpgrade w s).1 ≠ SIMPLESD_OK) := by
  constructor
  · constructor
    · intro hok
      rcases runLog_structure w s with ⟨_, hno, h1, h2, h3, h4, _⟩ |
        ⟨oks, f, cl, _, _, _, hcode, _⟩
      · refine ⟨h1, h2, h3, ?_, ?_, ?_, ?_, h4⟩
        · intro sec nb st h
          simpa [Event.isFailure] using hno _ h
        · intro fr b h
          have := hno _ h
          simp only [Event.isFailure, decide_eq_false_iff_not, not_or, not_not] at this
          exact ⟨this.2, this.1⟩
        · intro a d st h
          simpa [Event.isFailure] using hno _ h
        · intro a v d h
          simpa [Event.isFailure] using hno _ h
      · exfalso
        rcases hcode with h | ⟨_, h, _⟩
        · exact (assignedOutcome_ne_ok _ _ h).1 hok
        · rw [hok] at h; exact absurd h (by decide)
    · rintro ⟨_, _, _, _, _, _, _, hcrc⟩
      rcases runLog_structure w s with ⟨hok, _⟩ | ⟨oks, f, cl, hlog, hoks, hff, _, hcl⟩
      · exact hok
      · exfalso
        rw [hlog] at hcrc
        simp only [List.mem_append, List.mem_cons] at hcrc
        rcases hcrc with h | h | h
        · have := (hoks _ h).2
          exact absurd this (by decide)
        · rw [← h] at hff
          exact absurd hff (by decide)
        · have := hcl _ h
          exact absurd this (by decide)
  · intro result hmem hne
    exact (failure_in_runLog w s _ hmem (by simpa [Event.isFailure] using hne)).1

/-- C3.  Whenever the log of a run splits into a stretch without failing step, a failing
step before verification, and a rest, the returned code is the one assigned to that step
(`SIMPLESD_NO_SD` for the detection, `SIMPLESD_FS_MOUNT_ERROR` for the mount,
`SIMPLESD_FS_OPEN_ERROR` for the open, `SIMPLESD_FLASH_ERASE_ERROR` for an erase,
`SIMPLESD_FS_READ_ERROR` for a read, `SIMPLESD_FLASH_WRITE_ERROR` for a program,
`SIMPLESD_FLASH_WRITE_COMPARE_ERROR` for a read-back), and the rest holds no mount, open,
erase, read or program operation. -/
theorem first_failure_decides (w : World) (s : Machine) (pre post : List Event) (f : Event)
    (code : Nat) (hlog : runLog w s = pre ++ f :: post)
    (hpre : ∀ e ∈ pre, e.isFailure = false) (hf : f.isFailure = true)
    (hcode : f.assignedOutcome = some code) :
    (SimpleSD_FirmwareUpgrade w s).1 = code ∧ ∀ e ∈ post, e.isOperation = false := by
  rcases runLog_structure w s with ⟨_, hno, _⟩ | ⟨oks, g, cl, hlog2, hoks, hg, hout, hcl⟩
  · have := hno f (by rw [hlog]; simp)
    rw [this] at hf
    exact absurd hf (by decide)
  · rw [hlog] at hlog2
    obtain ⟨_, h2, h3⟩ := first_split_unique Event.isFailure pre oks post cl f g hlog2 hpre
      (fun e he => (hoks e he).1) hf hg
    subst h2; subst h3
    constructor
    · rcases hout with h | ⟨h, _⟩
      · rw [hcode] at h
        exact (Option.some.inj h).symm
      · rw [(assignedOutcome_ne_ok _ _ hcode).2] at h
        exact absurd h (by decide)
    · intro e he
      exact (cleanup_quiet e (hcl e he)).2.1


/-- C4.  From a state with the flash locked, at return the flash is locked, the file is
closed if the open succeeded, the volume is unmounted if the mount succeeded, and when the
run reaches `SimpleSD_CRC_Check` the three calls right before it are close, unmount and
`HAL_FLASH_Lock`, in that order. -/
theorem cleanup_on_every_exit (w : World) (s : Machine) (hlocked : s.locked = true) :
    (SimpleSD_FirmwareUpgrade w s).2.locked = true ∧
    (Event.f_open FR_OK ∈ runLog w s → (SimpleSD_FirmwareUpgrade w s).2.fileOpen = false) ∧
    (Event.f_mount FR_OK ∈ runLog w s → (SimpleSD_FirmwareUpgrade w s).2.mounted = false) ∧
    (∀ pre post result, runLog w s = pre ++ Event.SimpleSD_CRC_Check result :: post →
      ∃ body, pre = body ++ [Event.f_close, Event.f_unmount, Event.HAL_FLASH_Lock]) := by
  refine ⟨?_, ?_, ?_, ?_⟩
  · obtain ⟨k, sampling, hs, hshape⟩ := run_shape w s
    rcases hshape with ⟨_, hrun⟩ | ⟨_, _, hrun⟩ | ⟨_, _, _, hrun⟩ |
      ⟨_, _, _, _, _, _, _, _, hrun⟩ | ⟨_, _, _, _, _, _, _, _, _, _, _, hrun⟩ |
      ⟨_, _, _, _, _, _, _, hrun⟩ <;> rw [hrun] <;> exact hlocked
  · intro hopen
    obtain ⟨k, sampling, hs, hshape⟩ := run_shape w s
    rcases hshape with ⟨_, hrun⟩ | ⟨_, _, hrun⟩ | ⟨_, _, _, hrun⟩ |
      ⟨_, _, _, _, _, _, _, _, hrun⟩ | ⟨_, _, _, _, _, _, _, _, _, _, _, hrun⟩ |
      ⟨_, _, _, _, _, _, _, hrun⟩
    · exfalso
      rw [runLog_eq w s _ _ _ hrun rfl] at hopen
      simp only [prologue, List.mem_append, List.mem_cons, List.mem_singleton,
        List.not_mem_nil, or_false] at hopen
      rcases hopen with ((h | h) | h) | h
      · cases h
      · cases h
      · exact not_mem_sampling sampling hs (Event.f_open FR_OK) rfl h
      · cases h
    · exfalso
      rw [runLog_eq w s _ _ _ hrun rfl] at hopen
      simp only [prologue, List.mem_append, List.mem_cons, List.mem_singleton,
        List.not_mem_nil, or_false] at hopen
      rcases hopen with (((h | h) | h) | h) | h
      · cases h
      · cases h
      · exact not_mem_sampling sampling hs (Event.f_open FR_OK) rfl h
      · cases h
      · cases h
    all_goals rw [hrun]
  · intro hmount
    obtain ⟨k, sampling, hs, hshape⟩ := run_shape w s
    rcases hshape with ⟨_, hrun⟩ | ⟨_, _, hrun⟩ | ⟨_, _, _, hrun⟩ |
      ⟨_, _, _, _, _, _, _, _, hrun⟩ | ⟨_, _, _, _, _, _, _, _, _, _, _, hrun⟩ |
      ⟨_, _, _, _, _, _, _, hrun⟩
    · exfalso
      rw [runLog_eq w s _ _ _ hrun rfl] at hmount
      simp only [prologue, List.mem_append, List.mem_cons, List.mem_singleton,
        List.not_mem_nil, or_false] at hmount
      rcases hmount with ((h | h) | h) | h
      · cases h
      · cases h
      · exact not_mem_sampling sampling hs (Event.f_mount FR_OK) rfl h
      · cases h
    all_goals rw [hrun]
  · intro pre post result hsplit
    rcases runLog_structure w s with ⟨_, _, _, _, _, _, body, hbody, hlog⟩ |
      ⟨oks, f, cl, hlog, hoks, _, hcode, hcl⟩
    · rw [hsplit] at hlog
      obtain ⟨h1, _, _⟩ := last_split_unique Event.isVerification _ _ _ _ _ hlog hbody rfl
      exact ⟨body, h1⟩
    · rcases hcode with h | ⟨_, _, hnil, body, hoks2⟩
      · exfalso
        have hmem : Event.SimpleSD_CRC_Check result ∈ oks ++ f :: cl := by
          rw [← hlog, hsplit]; simp
        simp only [List.mem_append, List.mem_cons] at hmem
        rcases hmem with h1 | h1 | h1
        · exact absurd (hoks _ h1).2 (by simp [Event.isVerification])
        · rw [← h1] at h
          exact absurd h (by simp [Event.assignedOutcome])
        · exact absurd (cleanup_quiet _ (hcl _ h1)).2.2 (by simp [Event.isVerification])
      · rw [hsplit, hnil] at hlog
        obtain ⟨h1, _, _⟩ := last_split_unique Event.isVerification _ _ _ _ _ hlog
          (fun e he => (hoks e he).2) rfl
        exact ⟨body, by rw [h1, hoks2]; rfl⟩

/-- C5.  When `SimpleSD_DetectCard` reports the card absent, `SimpleSD_FirmwareUpgrade`
returns `SIMPLESD_NO_SD`, its log holds no mount, open, read, erase or program operation and
no flash unlock, and the flash content, the flash lock, the volume and the file are at
return as they were at entry. -/
theorem absent_card_no_effect (w : World) (s : Machine)
    (habsent : (SimpleSD_DetectCard w s).1 = SIMPLESD_NOT_DETECTED) :
    (SimpleSD_FirmwareUpgrade w s).1 = SIMPLESD_NO_SD ∧
    (∀ e ∈ runLog w s, e.isOperation = false ∧ e ≠ Event.HAL_FLASH_Unlock) ∧
    (SimpleSD_FirmwareUpgrade w s).2.flash = s.flash ∧
    (SimpleSD_FirmwareUpgrade w s).2.locked = s.locked ∧
    (SimpleSD_FirmwareUpgrade w s).2.mounted = s.mounted ∧
    (SimpleSD_FirmwareUpgrade w s).2.fileOpen = s.fileOpen ∧
    (SimpleSD_FirmwareUpgrade w s).2.fileReads = s.fileReads := by
  obtain ⟨k, sampling, hs, hshape⟩ := run_shape w s
  rcases hshape with ⟨_, hrun⟩ | ⟨hd, _⟩ | ⟨hd, _⟩ | ⟨hd, _⟩ | ⟨hd, _⟩ | ⟨hd, _⟩
  · refine ⟨by rw [hrun], ?_, by rw [hrun], by rw [hrun], by rw [hrun], by rw [hrun],
      by rw [hrun]⟩
    rw [runLog_eq w s _ _ _ hrun rfl]
    intro e he
    simp only [prologue, List.mem_append, List.mem_cons, List.mem_singleton,
      List.not_mem_nil, or_false] at he
    rcases he with ((rfl | rfl) | he) | rfl
    · exact ⟨rfl, by simp⟩
    · exact ⟨rfl, by simp⟩
    · have := hs e he
      cases e <;> simp [Event.isSampling] at this <;> exact ⟨rfl, by simp⟩
    · exact ⟨rfl, by simp⟩
  all_goals (rw [habsent] at hd; exact absurd hd (by decide))

/-- C6.  In every run the sectors handed to `HAL_FLASHEx_Erase` are, in call order, an
initial stretch of the sectors 5, 6, ..., 23, each once and with `NbSectors = 1`, so no
sector below 5 is ever erased; and in every run that reaches the erase phase and in which
every erase returns `HAL_OK`, they are all the sectors from
`SimpleSD_FindSector(APPLICATION_START_ADDRESS)` to
`SimpleSD_FindSector(APPLICATION_END_ADDRESS)`, which are the sectors 5 to 23. -/
theorem erase_sequence (w : World) (s : Machine) :
    (∃ j, j ≤ 19 ∧ erasedSectors (runLog w s) =
      (List.range' 5 j).map (fun sec => (sec, 1))) ∧
    (Event.f_open FR_OK ∈ runLog w s →
      (∀ Sector NbSectors status,
        Event.HAL_FLASHEx_Erase Sector NbSectors status ∈ runLog w s → status = HAL_OK) →
      erasedSectors (runLog w s) =
        (List.range' (SimpleSD_FindSector APPLICATION_START_ADDRESS)
          (SimpleSD_FindSector APPLICATION_END_ADDRESS -
            SimpleSD_FindSector APPLICATION_START_ADDRESS + 1)).map (fun sec => (sec, 1)) ∧
      erasedSectors (runLog w s) =
        [(5, 1), (6, 1), (7, 1), (8, 1), (9, 1), (10, 1), (11, 1), (12, 1), (13, 1), (14, 1),
         (15, 1), (16, 1), (17, 1), (18, 1), (19, 1), (20, 1), (21, 1), (22, 1), (23, 1)]) := by
  have hlist : (List.range' (SimpleSD_FindSector APPLICATION_START_ADDRESS)
        (SimpleSD_FindSector APPLICATION_END_ADDRESS -
          SimpleSD_FindSector APPLICATION_START_ADDRESS + 1)).map (fun sec => (sec, 1)) =
      [(5, 1), (6, 1), (7, 1), (8, 1), (9, 1), (10, 1), (11, 1), (12, 1), (13, 1), (14, 1),
       (15, 1), (16, 1), (17, 1), (18, 1), (19, 1), (20, 1), (21, 1), (22, 1), (23, 1)] := by
    decide
  have hfull : (List.range' firstSector sectorCount).map (fun sec => (sec, 1)) =
      (List.range' (SimpleSD_FindSector APPLICATION_START_ADDRESS)
        (SimpleSD_FindSector APPLICATION_END_ADDRESS -
          SimpleSD_FindSector APPLICATION_START_ADDRESS + 1)).map (fun sec => (sec, 1)) := rfl
  have hfull19 : (List.range' firstSector sectorCount).map (fun sec => (sec, 1)) =
      (List.range' 5 19).map (fun sec => (sec, 1)) := by
    rw [sector_constants.1, sector_constants.2.1]
  rw [← hlist, and_self]
  obtain ⟨k, sampling, hs, hshape⟩ := run_shape w s
  obtain ⟨p1, _, _⟩ := prologue_reads sampling hs SIMPLESD_DETECTED
  rcases hshape with ⟨_, hrun⟩ | ⟨_, _, hrun⟩ | ⟨_, _, ho1, hrun⟩ |
    ⟨_, _, _, j, mem, mem0, hj, hbad, hrun⟩ |
    ⟨_, _, _, n, mem, evs, tail, code, hpass, hn, hfail, hrun⟩ |
    ⟨_, _, _, mem, evs, hpass, _, hrun⟩
  · have hlog := runLog_eq w s _ _ _ hrun rfl
    refine ⟨⟨0, by decide, ?_⟩, fun hopen _ => ?_⟩
    · rw [hlog, (prologue_reads sampling hs SIMPLESD_NOT_DETECTED).1]; rfl
    · exfalso
      rw [hlog] at hopen
      simp only [prologue, List.mem_append, List.mem_cons, List.mem_singleton,
        List.not_mem_nil, or_false] at hopen
      rcases hopen with ((h | h) | h) | h
      · cases h
      · cases h
      · exact not_mem_sampling sampling hs (Event.f_open FR_OK) rfl h
      · cases h
  · have hlog := runLog_eq w s _ _ _ hrun rfl
    refine ⟨⟨0, by decide, ?_⟩, fun hopen _ => ?_⟩
    · rw [hlog, erasedSectors_append, p1]; rfl
    · exfalso
      rw [hlog] at hopen
      simp only [prologue, List.mem_append, List.mem_cons, List.mem_singleton,
        List.not_mem_nil, or_false] at hopen
      rcases hopen with (((h | h) | h) | h) | h
      · cases h
      · cases h
      · exact not_mem_sampling sampling hs (Event.f_open FR_OK) rfl h
      · cases h
      · cases h
  · have hlog := runLog_eq w s _ _ _ hrun rfl
    refine ⟨⟨0, by decide, ?_⟩, fun hopen _ => ?_⟩
    · rw [hlog, erasedSectors_append, p1]; rfl
    · exfalso
      rw [hlog] at hopen
      simp only [prologue, List.mem_append, List.mem_cons, List.mem_singleton,
        List.not_mem_nil, or_false] at hopen
      rcases hopen with (((h | h) | h) | h) | h | h | h | h
      · cases h
      · cases h
      · exact not_mem_sampling sampling hs (Event.f_open FR_OK) rfl h
      · cases h
      · cases h
      · exact ho1 (Event.f_open.inj h).symm
      · cases h
      · cases h
  · have hlog := runLog_eq w s _ _ _ hrun rfl
    refine ⟨⟨j + 1, by rw [sector_constants.2.1] at hj; omega, ?_⟩, fun _ hok => ?_⟩
    · rw [hlog]
      simp only [erasedSectors_append, p1, (eraseOk_reads firstSector j).1]
      rw [sector_constants.1]
      simp [erasedSectors, cleanup, eraseSetup, List.range'_concat]
    · exfalso
      apply hbad
      apply hok (firstSector + j) 1
      rw [hlog]
      simp
  · have hlog := runLog_eq w s _ _ _ hrun rfl
    have key : erasedSectors (runLog w s) =
        (List.range' firstSector sectorCount).map (fun sec => (sec, 1)) := by
      rw [hlog]
      have := (body_reads w sampling evs (tail ++ cleanup) APPLICATION_START_ADDRESS 0 n
        firstSector sectorCount hs hpass).1
      simp only [List.append_assoc] at this ⊢
      rw [this, erasedSectors_append, (programFail_reads w _ _ _ _ hfail).1]
      simp [erasedSectors, cleanup]
    exact ⟨⟨19, le_refl _, by rw [key, hfull19]⟩, fun _ _ => by rw [key, hfull]⟩
  · have hlog := runLog_eq w s _ _ _ hrun rfl
    have key : erasedSectors (runLog w s) =
        (List.range' firstSector sectorCount).map (fun sec => (sec, 1)) := by
      rw [hlog]
      have := (body_reads w sampling evs
        (cleanup ++ [Event.SimpleSD_CRC_Check (SimpleSD_CRC_Check CRC_CALCULATION_METHOD mem)])
        APPLICATION_START_ADDRESS 0 regionWords firstSector sectorCount hs hpass).1
      simp only [List.append_assoc] at this ⊢
      rw [this]
      simp [erasedSectors, cleanup]
    exact ⟨⟨19, le_refl _, by rw [key, hfull19]⟩, fun _ _ => by rw [key, hfull]⟩

/-- C7.  When some read of a run returns zero bytes or a result other than `FR_OK`, the run
returns `SIMPLESD_FS_READ_ERROR`, hence not `SIMPLESD_OK`; the failing read is the last of
the reads, the cursor at that read, `APPLICATION_START_ADDRESS` plus 4 for each earlier
read, is below `APPLICATION_END_ADDRESS`, and the addresses programmed are exactly the words
below that cursor, in ascending order. -/
theorem short_image_read_error (w : World) (s : Machine) (fresult Bytes : Nat)
    (hread : Event.f_read fresult Bytes ∈ runLog w s)
    (hbad : Bytes = 0 ∨ fresult ≠ FR_OK) :
    (SimpleSD_FirmwareUpgrade w s).1 = SIMPLESD_FS_READ_ERROR ∧
    (SimpleSD_FirmwareUpgrade w s).1 ≠ SIMPLESD_OK ∧
    APPLICATION_START_ADDRESS + 4 * (readCount (runLog w s) - 1) < APPLICATION_END_ADDRESS ∧
    programmedAddresses (runLog w s) =
      (List.range (readCount (runLog w s) - 1)).map
        (fun j => APPLICATION_START_ADDRESS + 4 * j) ∧
    (∀ a ∈ programmedAddresses (runLog w s),
      a < APPLICATION_START_ADDRESS + 4 * (readCount (runLog w s) - 1)) := by
  obtain ⟨hne, hout, _⟩ := failure_in_runLog w s _ hread
    (by simpa [Event.isFailure] using hbad)
  have hcode : (SimpleSD_FirmwareUpgrade w s).1 = SIMPLESD_FS_READ_ERROR := by
    rcases hout with h | ⟨h, _⟩
    · exact (Option.some.inj h).symm
    · simp [Event.isVerification] at h
  have key : APPLICATION_START_ADDRESS + 4 * (readCount (runLog w s) - 1) <
        APPLICATION_END_ADDRESS ∧
      programmedAddresses (runLog w s) =
        (List.range (readCount (runLog w s) - 1)).map
          (fun j => APPLICATION_START_ADDRESS + 4 * j) := by
    obtain ⟨k, sampling, hs, hshape⟩ := run_shape w s
    rcases hshape with ⟨_, hrun⟩ | ⟨_, _, hrun⟩ | ⟨_, _, _, hrun⟩ |
      ⟨_, _, _, _, _, _, _, _, hrun⟩ |
      ⟨_, _, _, n, mem, evs, tail, code, hpass, hn, hfail, hrun⟩ |
      ⟨_, _, _, mem, evs, _, _, hrun⟩
    · rw [hrun] at hcode
      exact absurd (show SIMPLESD_NO_SD = SIMPLESD_FS_READ_ERROR from hcode) (by decide)
    · rw [hrun] at hcode
      exact absurd (show SIMPLESD_FS_MOUNT_ERROR = SIMPLESD_FS_READ_ERROR from hcode) (by decide)
    · rw [hrun] at hcode
      exact absurd (show SIMPLESD_FS_OPEN_ERROR = SIMPLESD_FS_READ_ERROR from hcode) (by decide)
    · rw [hrun] at hcode
      exact absurd (show SIMPLESD_FLASH_ERASE_ERROR = SIMPLESD_FS_READ_ERROR from hcode) (by decide)
    · rw [hrun] at hcode
      simp only at hcode
      obtain ⟨_, t2, t3, _, _⟩ := programFail_reads w _ _ _ _ hfail
      obtain ⟨_, b2, b3⟩ := body_reads w sampling evs (tail ++ cleanup)
        APPLICATION_START_ADDRESS 0 n firstSector sectorCount hs hpass
      rw [runLog_eq w s _ _ _ hrun rfl]
      simp only [List.append_assoc] at b2 b3 ⊢
      rw [b2, b3, programmedAddresses_append, readCount_append, t2, t3 hcode]
      have hr := sector_constants.2.2.1
      simp only [programmedAddresses, cleanup, readCount, List.append_nil, Nat.add_zero,
        Nat.add_sub_cancel, true_and]
      refine ⟨?_, trivial⟩
      rw [constants_eq.1, constants_eq.2.1]
      omega
    · rw [hrun] at hcode
      simp only at hcode
      split at hcode <;> exact absurd hcode (by decide)
  refine ⟨hcode, hne, key.1, key.2, ?_⟩
  intro a ha
  rw [key.2] at ha
  simp only [List.mem_map, List.mem_range] at ha
  obtain ⟨j, hj, rfl⟩ := ha
  omega

/-- C8 as written fails.  On the healthy board, with an image of exactly the region size
less the checksum size (`0x1DFFFC` bytes), the run returns `SIMPLESD_FS_READ_ERROR`: the
read for the last word finds the file exhausted, which is the only failing step, and
`SimpleSD_CRC_Check` is never called. -/
theorem payload_only_image_read_error :
    APPLICATION_END_ADDRESS + 1 - APPLICATION_START_ADDRESS - APPLICATION_CRC_SIZE = 0x1DFFFC ∧
    (SimpleSD_FirmwareUpgrade
        (healthyWorld
          (APPLICATION_END_ADDRESS + 1 - APPLICATION_START_ADDRESS - APPLICATION_CRC_SIZE)
          validImage)
        (resetMachine (fun _ => 0))).1 = SIMPLESD_FS_READ_ERROR ∧
    (∀ e ∈ runLog
        (healthyWorld
          (APPLICATION_END_ADDRESS + 1 - APPLICATION_START_ADDRESS - APPLICATION_CRC_SIZE)
          validImage)
        (resetMachine (fun _ => 0)),
      e.isFailure = true → e = Event.f_read FR_OK 0) ∧
    (∀ result, Event.SimpleSD_CRC_Check result ∉ runLog
        (healthyWorld
          (APPLICATION_END_ADDRESS + 1 - APPLICATION_START_ADDRESS - APPLICATION_CRC_SIZE)
          validImage)
        (resetMachine (fun _ => 0))) := by
  have hsz : APPLICATION_END_ADDRESS + 1 - APPLICATION_START_ADDRESS - APPLICATION_CRC_SIZE ≤
      4 * (regionWords - 1) := by
    rw [sector_constants.2.2.1]; decide
  obtain ⟨h1, _, _, h4, h5⟩ := short_image_log _ validImage (resetMachine (fun _ => 0)) hsz
  exact ⟨by decide, h1, h4, h5⟩

/-- C8, amended.  With an image file of exactly the region size (payload and checksum
word, `0x1E0000` bytes), the card detected, mount and open succeeding, every erase and every
program returning `HAL_OK` and every programmed word reading back as written, the run
programs the words at `APPLICATION_START_ADDRESS + 4 j` for every `j` below the number of
words of the region, which takes the cursor to the region end, calls `SimpleSD_CRC_Check`,
and returns `SIMPLESD_OK` or `SIMPLESD_NO_SD`, not `SIMPLESD_FS_READ_ERROR`. -/
theorem full_image_reaches_verification (w : World) (s : Machine) (byte : Nat → Nat)
    (hfile : w.f_read = fileRead (APPLICATION_END_ADDRESS + 1 - APPLICATION_START_ADDRESS) byte)
    (hdet : (SimpleSD_DetectCard w s).1 = SIMPLESD_DETECTED)
    (hm : w.f_mount = FR_OK) (ho : w.f_open = FR_OK)
    (he : ∀ mem Sector NbSectors, (w.HAL_FLASHEx_Erase mem Sector NbSectors).1 = HAL_OK)
    (hp : ∀ mem Address Data, (w.HAL_FLASH_Program mem Address Data).1 = HAL_OK ∧
      (w.HAL_FLASH_Program mem Address Data).2 Address % U32 = Data % U32) :
    (SimpleSD_FirmwareUpgrade w s).1 ≠ SIMPLESD_FS_READ_ERROR ∧
    ((SimpleSD_FirmwareUpgrade w s).1 = SIMPLESD_OK ∨
      (SimpleSD_FirmwareUpgrade w s).1 = SIMPLESD_NO_SD) ∧
    (∃ result, Event.SimpleSD_CRC_Check result ∈ runLog w s) ∧
    programmedAddresses (runLog w s) =
      (List.range ((APPLICATION_END_ADDRESS + 1 - APPLICATION_START_ADDRESS) / 4)).map
        (fun j => APPLICATION_START_ADDRESS + 4 * j) ∧
    APPLICATION_END_ADDRESS ≤ APPLICATION_START_ADDRESS +
      4 * ((APPLICATION_END_ADDRESS + 1 - APPLICATION_START_ADDRESS) / 4) := by
  have hr := sector_constants.2.2.1
  obtain ⟨k, sampling, mem, evs, hs, hpass, _, hrun⟩ := complete_run w s hdet hm ho he hp (by
    intro n buf hn
    rw [hfile]
    have := fileRead_full (APPLICATION_END_ADDRESS + 1 - APPLICATION_START_ADDRESS) byte n buf
      (by rw [hr] at hn; rw [constants_eq.1, constants_eq.2.1]; omega)
    exact ⟨by rw [this.1]; decide, this.2.1⟩)
  have hlog := runLog_eq w s _ _ _ hrun rfl
  have hcode : (SimpleSD_FirmwareUpgrade w s).1 = SIMPLESD_OK ∨
      (SimpleSD_FirmwareUpgrade w s).1 = SIMPLESD_NO_SD := by
    rw [hrun]
    simp only
    split
    · exact Or.inl rfl
    · exact Or.inr rfl
  refine ⟨?_, hcode,
    ⟨SimpleSD_CRC_Check CRC_CALCULATION_METHOD mem, by rw [hlog]; simp⟩, ?_, by decide⟩
  · rcases hcode with h | h <;> rw [h] <;> decide
  · rw [hlog]
    have := (body_reads w sampling evs
      (cleanup ++ [Event.SimpleSD_CRC_Check (SimpleSD_CRC_Check CRC_CALCULATION_METHOD mem)])
      APPLICATION_START_ADDRESS 0 regionWords firstSector sectorCount hs hpass).2.1
    simp only [List.append_assoc] at this ⊢
    rw [this]
    simp [programmedAddresses, cleanup, regionWords]

/-- C9.  For 32-bit `crc` and `data`, `CalculateCRC_32 crc data` is the reference step: the
remainder of `(crc XOR data) * x^32` on division by the polynomial `0x104C11DB7` over GF(2).
It is below `2^32`, it differs from `(crc XOR data) * x^32` by a multiple of the polynomial,
and `CalculateCRC_32 0xFFFFFFFF 0 = 0xC704DD7B`. -/
theorem CalculateCRC_32_is_reference (crc data : Nat) (hc : crc < 2 ^ 32)
    (hd : data < 2 ^ 32) :
    CalculateCRC_32 crc data = crcStepReference crc data ∧
    CalculateCRC_32 crc data < 2 ^ 32 ∧
    (∃ q, (crc ^^^ data) <<< 32 = gf2Mul q 0x104C11DB7 ^^^ CalculateCRC_32 crc data) ∧
    CalculateCRC_32 0xFFFFFFFF 0x00000000 = 0xC704DD7B := by
  have hx : crc ^^^ data < 2 ^ 32 := Nat.xor_lt_two_pow hc hd
  have hlt : (crc ^^^ data) <<< 32 < 2 ^ (32 + 32) := by
    rw [Nat.shiftLeft_eq]
    calc (crc ^^^ data) * 2 ^ 32 < 2 ^ 32 * 2 ^ 32 :=
          Nat.mul_lt_mul_of_pos_right hx (by decide)
      _ = 2 ^ (32 + 32) := by norm_num
  obtain ⟨h1, q, hq, h2⟩ := gf2RemAux_spec 32 _ hlt
  rw [crcBits_eq_gf2RemAux 32 _ hx] at h1 h2
  refine ⟨CalculateCRC_32_eq_reference crc data hc hd, h1, ⟨q, ?_⟩, by rfl⟩
  rw [gf2Mul_eq_aux q _ 32 hq (by decide)]
  exact h2

/-- C10 (the code departs from the claim).  On the flash content `splitFlash` the peripheral
configuration of `SimpleSD_CRC_Check`, which hands 16 words to `HAL_CRC_Calculate`, returns
`SIMPLESD_CRC_SAME`, and the software configuration, which folds over all
`APPLICATION_CRC_CALCULATION_SIZE` words, returns `SIMPLESD_CRC_ERROR`. -/
theorem crc_configurations_disagree :
    SimpleSD_CRC_Check CRC_USING_PERIPHERAL splitFlash = SIMPLESD_CRC_SAME ∧
    SimpleSD_CRC_Check CRC_USING_FUNCTION splitFlash = SIMPLESD_CRC_ERROR := by
  have hstored : splitFlash APPLICATION_CRC_ADDRESS % U32 = 0 := by
    rw [splitFlash_at, constants_eq.2.2.1]; rfl
  constructor
  · unfold SimpleSD_CRC_Check HAL_CRC_Calculate
    have hm : CRC_USING_PERIPHERAL ≠ 0 := by decide
    simp only [hm, ne_eq, not_false_eq_true, if_true]
    rw [splitFlash_first16, hstored]
    rfl
  · unfold SimpleSD_CRC_Check
    have hm : ¬ (CRC_USING_FUNCTION ≠ 0) := by decide
    simp only [hm, if_false]
    rw [splitFlash_payload, hstored]
    rfl


/-- C11.  For every address `a` of the flash map `[0x08000000, 0x081FFFFF]`, which contains
the application region, `SimpleSD_FindSector a` is the index of the one sector whose
half-open range `[sectorBase i, sectorBase (i + 1))` contains `a`, with `0x08200000` as the
end of sector 23; each of the 24 ranges is non-empty and ends where the next one starts, and
the result is non-decreasing in `a`. -/
theorem find_sector_contains (a : Nat) (h0 : ADDR_FLASH_SECTOR_0 ≤ a)
    (h1 : a ≤ APPLICATION_END_ADDRESS) :
    SimpleSD_FindSector a < 24 ∧
      sectorBase (SimpleSD_FindSector a) ≤ a ∧ a < sectorBase (SimpleSD_FindSector a + 1) ∧
      (∀ i, sectorBase i ≤ a → a < sectorBase (i + 1) → i = SimpleSD_FindSector a) ∧
      (∀ i, i < 24 → sectorBase i < sectorBase (i + 1)) ∧
      sectorBase 0 = 0x08000000 ∧ sectorBase 24 = 0x08200000 ∧
      ADDR_FLASH_SECTOR_0 ≤ APPLICATION_START_ADDRESS ∧
      (∀ b, a ≤ b → b ≤ APPLICATION_END_ADDRESS →
        SimpleSD_FindSector a ≤ SimpleSD_FindSector b) := by
  obtain ⟨hlt, hlo, hhi⟩ := SimpleSD_FindSector_spec a h0 h1
  refine ⟨hlt, hlo, hhi, fun i hi hi1 => sectorBase_unique a _ _ hi hi1 hlo hhi,
    sectorBase_step, rfl, rfl, by decide, fun b hab hb => ?_⟩
  obtain ⟨_, hlob, hhib⟩ := SimpleSD_FindSector_spec b (Nat.le_trans h0 hab) hb
  by_contra hcon
  have := sectorBase_mono (show SimpleSD_FindSector b + 1 ≤ SimpleSD_FindSector a by omega)
  omega

/-- C12.  For every behaviour of the detect pin, `SimpleSD_DetectCard` returns
`SIMPLESD_DETECTED` exactly when the next `SDSimple_CD_Detect_Samples` (10) samples all
equal `SDSimple_CD_Detect_Level`, and otherwise `SIMPLESD_NOT_DETECTED`; it never takes
more than 10 samples; and when the `k`-th sample (`1 ≤ k ≤ 10`) is the first that differs,
it returns `SIMPLESD_NOT_DETECTED` after exactly `k` samplings, the first `k` samples. -/
theorem detect_card_debounce (w : World) (s : Machine) :
    ((SimpleSD_DetectCard w s).1 = SIMPLESD_DETECTED ↔
        ∀ i, i < SDSimple_CD_Detect_Samples →
          w.HAL_GPIO_ReadPin (s.pinReads + i) = SDSimple_CD_Detect_Level) ∧
      ((SimpleSD_DetectCard w s).1 = SIMPLESD_DETECTED ∨
        (SimpleSD_DetectCard w s).1 = SIMPLESD_NOT_DETECTED) ∧
      (SimpleSD_DetectCard w s).2.pinReads ≤ s.pinReads + SDSimple_CD_Detect_Samples ∧
      (∀ k, 0 < k → k ≤ SDSimple_CD_Detect_Samples →
        (∀ i, i < k - 1 → w.HAL_GPIO_ReadPin (s.pinReads + i) = SDSimple_CD_Detect_Level) →
        w.HAL_GPIO_ReadPin (s.pinReads + (k - 1)) ≠ SDSimple_CD_Detect_Level →
        (SimpleSD_DetectCard w s).1 = SIMPLESD_NOT_DETECTED ∧
          (SimpleSD_DetectCard w s).2.pinReads = s.pinReads + k ∧
          pinLevels ((SimpleSD_DetectCard w s).2.trace.drop s.trace.length) =
            (List.range k).map (fun i => w.HAL_GPIO_ReadPin (s.pinReads + i))) := by
  obtain ⟨k1, sampling, _, hst, hres⟩ := detectLoop_spec w SDSimple_CD_Detect_Samples s
  obtain ⟨k2, l, ht, hp, hk2, hl⟩ := detectLoop_levels w SDSimple_CD_Detect_Samples s
  have hne : SIMPLESD_NOT_DETECTED ≠ SIMPLESD_DETECTED := by decide
  have hk12 : k1 = k2 := by
    have h := congrArg Machine.pinReads hst
    rw [hp] at h
    simp only at h
    omega
  subst hk12
  unfold SimpleSD_DetectCard
  refine ⟨⟨fun hd => ?_, fun hall => ?_⟩, ?_, by omega, fun k hk0 hk10 hbefore hat => ?_⟩
  · rcases hres with ⟨_, _, h3⟩ | ⟨h1, _⟩
    · exact h3
    · rw [h1] at hd; exact absurd hd hne
  · rcases hres with ⟨h1, _⟩ | ⟨_, h2, h3, h4, _⟩
    · exact h1
    · exact absurd (hall (k1 - 1) (by omega)) h4
  · rcases hres with ⟨h1, _⟩ | ⟨h1, _⟩
    · exact Or.inl h1
    · exact Or.inr h1
  · rcases hres with ⟨_, _, h3⟩ | ⟨h1, h2, h3, h4, h5⟩
    · exact absurd (h3 (k - 1) (by omega)) hat
    · have hk : k1 = k := by
        rcases Nat.lt_trichotomy (k1 - 1) (k - 1) with hlt | heq | hgt
        · exact absurd (hbefore (k1 - 1) hlt) h4
        · omega
        · exact absurd (h5 (k - 1) hgt) hat
      subst hk
      refine ⟨h1, hp, ?_⟩
      rw [ht, List.drop_left]
      exact hl

/-- C13.  With a flash in which a successful `HAL_FLASH_Program` stores the word at its
address and leaves every other word unchanged, after every run of `SimpleSD_FirmwareUpgrade`
that reaches the call of `SimpleSD_CRC_Check`, the word at `APPLICATION_START_ADDRESS + 4 k`,
for every such address of the application region, is the `k`-th word read from the image
file; and every read-back of the run returned the word that had just been programmed. -/
theorem flash_round_trip (w : World) (s : Machine)
    (hp : ∀ mem Address Data, (w.HAL_FLASH_Program mem Address Data).1 = HAL_OK →
      (w.HAL_FLASH_Program mem Address Data).2 = Function.update mem Address Data)
    (result : Nat) (hver : Event.SimpleSD_CRC_Check result ∈ runLog w s) :
    (∀ k, APPLICATION_START_ADDRESS + 4 * k ≤ APPLICATION_END_ADDRESS →
      (SimpleSD_FirmwareUpgrade w s).2.flash (APPLICATION_START_ADDRESS + 4 * k) =
        fileWord w k 0 w.FileData) ∧
    (∀ Address value FileData, Event.readBack Address value FileData ∈ runLog w s →
      value = FileData) := by
  obtain ⟨k0, sampling, mem, evs, hs, hpass, ⟨S, hS0, hnone, hmem⟩, hrun⟩ :=
    verification_shape w s result hver
  constructor
  · intro k hk
    have hk1 : APPLICATION_START_ADDRESS + 4 * k < APPLICATION_END_ADDRESS := by
      rw [constants_eq.1, constants_eq.2.1] at hk ⊢
      omega
    have h := (programLoop_roundtrip w hp APPLICATION_START_ADDRESS w.FileData S hnone).2 k hk1
    rw [hmem, hS0] at h
    rw [hrun]
    exact h
  · intro a v d hmemb
    by_contra hne
    have hfail : (Event.readBack a v d).isFailure = true := by
      simpa [Event.isFailure] using hne
    have h1 := (failure_in_runLog w s _ hmemb hfail).2.1
    have hcode : (SimpleSD_FirmwareUpgrade w s).1 = SIMPLESD_FLASH_WRITE_COMPARE_ERROR := by
      rcases h1 with h1 | ⟨h1, _⟩
      · simp only [Event.assignedOutcome, Option.some.injEq] at h1
        exact h1.symm
      · simp [Event.isVerification] at h1
    rw [hrun] at hcode
    simp only at hcode
    split at hcode
    · exact absurd hcode (by decide)
    · exact absurd hcode (by decide)

/-- C14.  For every flash content, every state of the core and whatever the two vendor
de-initialisation routines do, `SimpleSD_JumpToMainFirmware` ends with `SysTick->CTRL`,
`SysTick->LOAD` and `SysTick->VAL` at 0, `SCB->VTOR` at `APPLICATION_START_ADDRESS`, the
main stack pointer at the word stored at `APPLICATION_START_ADDRESS`, and control at the
address stored at `APPLICATION_START_ADDRESS + 4`.  Neither an outcome of
`SimpleSD_FirmwareUpgrade` nor the checksum enters: after any run, whatever it returned, the
jump goes to the address that the flash left by the run holds at that place. -/
theorem jump_to_main_firmware (v : Vendor) (mem : Nat → Nat) (c : Core) :
    (SimpleSD_JumpToMainFirmware v mem c).SysTick_CTRL = 0 ∧
      (SimpleSD_JumpToMainFirmware v mem c).SysTick_LOAD = 0 ∧
      (SimpleSD_JumpToMainFirmware v mem c).SysTick_VAL = 0 ∧
      (SimpleSD_JumpToMainFirmware v mem c).SCB_VTOR = APPLICATION_START_ADDRESS ∧
      (SimpleSD_JumpToMainFirmware v mem c).MSP = mem APPLICATION_START_ADDRESS % U32 ∧
      (SimpleSD_JumpToMainFirmware v mem c).PC = mem (APPLICATION_START_ADDRESS + 4) % U32 ∧
      (∀ (w : World) (s : Machine),
        (SimpleSD_JumpToMainFirmware v (SimpleSD_FirmwareUpgrade w s).2.flash c).PC =
          (SimpleSD_FirmwareUpgrade w s).2.flash (APPLICATION_START_ADDRESS + 4) % U32) :=
  ⟨rfl, rfl, rfl, rfl, rfl, rfl, fun _ _ => rfl⟩

/-- C15.  For a reload value `R` with `0 < R ≤ 32767` (a positive `int16_t`) and a state
whose toggle counter equals `R`: each of the next `R - 1` calls of `SimpleSD_BlinkLED` leaves
the pin as it is, makes no `HAL_GPIO_TogglePin` call and decrements the counter; the `R`-th
call makes the one toggle call, inverts the pin and sets the counter back to `R`; hence
after `n * R` calls there have been `n` toggles.  In general a call makes a toggle call
exactly when the reload value is non-zero and the decremented counter is `≤ 0`. -/
theorem blink_period (s : Machine) (R : Nat) (hR : 0 < R) (hR16 : R ≤ 32767)
    (hrel : s.LED_Reload_Value = R) (hcnt : s.LED_Toggle_Counter = R) :
    (∀ j, j < R →
      toggleCount (SimpleSD_BlinkLED^[j] s).trace = toggleCount s.trace ∧
        (SimpleSD_BlinkLED^[j] s).LED_Pin = s.LED_Pin ∧
        (SimpleSD_BlinkLED^[j] s).LED_Toggle_Counter = (R : Int) - j) ∧
      toggleCount (SimpleSD_BlinkLED^[R] s).trace = toggleCount s.trace + 1 ∧
      (SimpleSD_BlinkLED^[R] s).LED_Pin =
        (if s.LED_Pin = GPIO_PIN_RESET then GPIO_PIN_SET else GPIO_PIN_RESET) ∧
      (SimpleSD_BlinkLED^[R] s).LED_Toggle_Counter = R ∧
      (SimpleSD_BlinkLED^[R] s).LED_Reload_Value = R ∧
      (∀ n, toggleCount (SimpleSD_BlinkLED^[n * R] s).trace = toggleCount s.trace + n) ∧
      (∀ t : Machine, toggleCount (SimpleSD_BlinkLED t).trace =
        toggleCount t.trace +
          (if t.LED_Reload_Value ≠ 0 ∧ int16 (t.LED_Toggle_Counter - 1) ≤ 0 then 1
            else 0)) := by
  have hne : s.LED_Reload_Value ≠ 0 := by rw [hrel]; exact_mod_cast (by omega : R ≠ 0)
  have hcyc := blink_cycle s R hR hR16 hrel hcnt
  refine ⟨fun j hj => ?_, ?_, ?_, ?_, ?_, fun n => ?_, fun t => ?_⟩
  · rw [blink_countdown s R hR16 hne hcnt j hj]
    exact ⟨rfl, rfl, rfl⟩
  · rw [hcyc]
    simp [toggleCount_append, toggleCount]
  · rw [hcyc]
  · rw [hcyc]; exact hcnt
  · rw [hcyc]; exact hrel
  · have hall : ∀ n, (SimpleSD_BlinkLED^[n * R] s).LED_Reload_Value = R ∧
        (SimpleSD_BlinkLED^[n * R] s).LED_Toggle_Counter = R ∧
        toggleCount (SimpleSD_BlinkLED^[n * R] s).trace = toggleCount s.trace + n := by
      intro n
      induction n with
      | zero => simp [hrel, hcnt]
      | succ n ih =>
        obtain ⟨h1, h2, h3⟩ := ih
        rw [show (n + 1) * R = R + n * R by ring, Function.iterate_add_apply,
          blink_cycle _ R hR hR16 h1 h2]
        refine ⟨h1, h2, ?_⟩
        simp only [toggleCount_append, h3, toggleCount]
        omega
    exact (hall n).2.2
  · by_cases h0 : t.LED_Reload_Value = 0
    · rw [(SimpleSD_BlinkLED_step t).1 h0]
      simp [HAL_GPIO_WritePin, toggleCount_append, toggleCount, h0]
    · by_cases hc : int16 (t.LED_Toggle_Counter - 1) ≤ 0
      · rw [(SimpleSD_BlinkLED_step t).2.2 h0 hc]
        simp [toggleCount_append, toggleCount, h0, hc]
      · rw [(SimpleSD_BlinkLED_step t).2.1 h0 (by omega)]
        simp [h0, hc]

/-- C16 as written fails.  From reset, select the 4 Hz rate and let one tick pass: the pin
is at `GPIO_PIN_RESET` (indicator lit).  Selecting the off rate with `SimpleSD_ModeLED` then
returns with the pin still at `GPIO_PIN_RESET`, not at the inactive level `GPIO_PIN_SET`. -/
theorem mode_off_returns_with_pin_active :
    (SimpleSD_BlinkLED (SimpleSD_ModeLED SIMPLESD_LED_4HZ_MODE
        (resetMachine (fun _ => 0)))).LED_Pin = GPIO_PIN_RESET ∧
      (SimpleSD_ModeLED SIMPLESD_LED_STOPPED_MODE
        (SimpleSD_BlinkLED (SimpleSD_ModeLED SIMPLESD_LED_4HZ_MODE
          (resetMachine (fun _ => 0))))).LED_Pin = GPIO_PIN_RESET ∧
      (SimpleSD_ModeLED SIMPLESD_LED_STOPPED_MODE
        (SimpleSD_BlinkLED (SimpleSD_ModeLED SIMPLESD_LED_4HZ_MODE
          (resetMachine (fun _ => 0))))).LED_Pin ≠ GPIO_PIN_SET := by
  decide

/-- C16, amended.  `SimpleSD_ModeLED (SIMPLESD_LED_STOPPED_MODE)` sets the reload value to 0
and leaves the pin and the toggle counter as they are; the next call of `SimpleSD_BlinkLED`,
and every later one while the rate is unchanged, puts the pin at `GPIO_PIN_SET` for every
previous level of the pin and every value of the counter, makes no toggle call and leaves
the counter as it is. -/
theorem mode_off_forces_pin_at_next_tick (s : Machine) :
    (SimpleSD_ModeLED SIMPLESD_LED_STOPPED_MODE s).LED_Reload_Value = 0 ∧
      (SimpleSD_ModeLED SIMPLESD_LED_STOPPED_MODE s).LED_Pin = s.LED_Pin ∧
      (SimpleSD_ModeLED SIMPLESD_LED_STOPPED_MODE s).LED_Toggle_Counter =
        s.LED_Toggle_Counter ∧
      (∀ n, (SimpleSD_BlinkLED^[n + 1]
            (SimpleSD_ModeLED SIMPLESD_LED_STOPPED_MODE s)).LED_Pin = GPIO_PIN_SET ∧
        (SimpleSD_BlinkLED^[n + 1]
            (SimpleSD_ModeLED SIMPLESD_LED_STOPPED_MODE s)).LED_Toggle_Counter =
          s.LED_Toggle_Counter ∧
        toggleCount (SimpleSD_BlinkLED^[n + 1]
            (SimpleSD_ModeLED SIMPLESD_LED_STOPPED_MODE s)).trace = toggleCount s.trace) := by
  refine ⟨rfl, rfl, rfl, fun n => ?_⟩
  have hall : ∀ n, (SimpleSD_BlinkLED^[n]
        (SimpleSD_ModeLED SIMPLESD_LED_STOPPED_MODE s)).LED_Reload_Value = 0 ∧
      (SimpleSD_BlinkLED^[n]
        (SimpleSD_ModeLED SIMPLESD_LED_STOPPED_MODE s)).LED_Toggle_Counter =
        s.LED_Toggle_Counter ∧
      toggleCount (SimpleSD_BlinkLED^[n]
        (SimpleSD_ModeLED SIMPLESD_LED_STOPPED_MODE s)).trace = toggleCount s.trace := by
    intro n
    induction n with
    | zero =>
      refine ⟨rfl, rfl, ?_⟩
      simp [SimpleSD_ModeLED, toggleCount_append, toggleCount]
    | succ n ih =>
      obtain ⟨h1, h2, h3⟩ := ih
      rw [Function.iterate_succ_apply', (SimpleSD_BlinkLED_step _).1 h1]
      refine ⟨h1, h2, ?_⟩
      simp [HAL_GPIO_WritePin, toggleCount_append, toggleCount, h3]
  obtain ⟨h1, h2, h3⟩ := hall n
  rw [Function.iterate_succ_apply', (SimpleSD_BlinkLED_step _).1 h1]
  refine ⟨rfl, h2, ?_⟩
  simp [HAL_GPIO_WritePin, toggleCount_append, toggleCount, h3]

/-- C17.  For every 8-bit `Mode`, `SimpleSD_ModeLED` sets the reload value to 0 when `Mode`
is `SIMPLESD_LED_STOPPED_MODE` and to the quotient `1000 / Mode` otherwise.  For a non-zero
`Mode` the reload value lies in `[3, 1000]`: it is not 0 and it is unchanged by the
conversion to `int16_t`.  For each named mode (1, 2, 4, 8, 20, 100) the division is exact:
`Mode` toggle intervals make 1000 ticks, that is `Mode / 2` full periods in 1000 ticks. -/
theorem mode_led_reload (Mode : Nat) (hMode : Mode < 256) (s : Machine) :
    (SimpleSD_ModeLED Mode s).LED_Reload_Value =
        (if Mode = SIMPLESD_LED_STOPPED_MODE then 0 else ((1000 / Mode : Nat) : Int)) ∧
      (Mode ≠ SIMPLESD_LED_STOPPED_MODE →
        3 ≤ (SimpleSD_ModeLED Mode s).LED_Reload_Value ∧
        (SimpleSD_ModeLED Mode s).LED_Reload_Value ≤ 1000 ∧
        (SimpleSD_ModeLED Mode s).LED_Reload_Value ≠ 0 ∧
        int16 (SimpleSD_ModeLED Mode s).LED_Reload_Value =
          (SimpleSD_ModeLED Mode s).LED_Reload_Value) ∧
      (Mode ∈ [SIMPLESD_LED_0_5_HZ_MODE, SIMPLESD_LED_1HZ_MODE, SIMPLESD_LED_2HZ_MODE,
          SIMPLESD_LED_4HZ_MODE, SIMPLESD_LED_10HZ_MODE, SIMPLESD_LED_ON_MODE] →
        (Mode : Int) * (SimpleSD_ModeLED Mode s).LED_Reload_Value = 1000) := by
  have hval : (SimpleSD_ModeLED Mode s).LED_Reload_Value = reloadValue Mode := rfl
  refine ⟨?_, fun hne => ?_, fun hmem => ?_⟩
  · rw [hval]
    unfold reloadValue
    by_cases h : Mode = SIMPLESD_LED_STOPPED_MODE <;> simp [h]
  · have hpos : 0 < Mode := Nat.pos_of_ne_zero hne
    have hlo : 3 ≤ 1000 / Mode := (Nat.le_div_iff_mul_le hpos).2 (by omega)
    have hhi : 1000 / Mode ≤ 1000 := Nat.div_le_self _ _
    have hr : (SimpleSD_ModeLED Mode s).LED_Reload_Value = ((1000 / Mode : Nat) : Int) := by
      rw [hval]
      unfold reloadValue
      rw [if_pos hne]
    rw [hr]
    refine ⟨by omega, by omega, by omega, int16_of_range _ (by omega) (by omega)⟩
  · rw [hval]
    simp only [List.mem_cons, List.mem_singleton, List.not_mem_nil, or_false] at hmem
    rcases hmem with rfl | rfl | rfl | rfl | rfl | rfl <;> decide

/-- C18.  In the software configuration `SimpleSD_CRC_Check` returns `SIMPLESD_CRC_SAME`
exactly when the fold of `CalculateCRC_32` from the seed `0xFFFFFFFF` over the
`APPLICATION_CRC_CALCULATION_SIZE = 491519` words at `APPLICATION_START_ADDRESS + 4 k`
equals the word at `APPLICATION_CRC_ADDRESS`, and `SIMPLESD_CRC_ERROR` otherwise.  The words
end right before `APPLICATION_CRC_ADDRESS = APPLICATION_END_ADDRESS - (APPLICATION_CRC_SIZE - 1)`,
no address wraps in 32 bits, and the value computed does not depend on the stored checksum
word. -/
theorem software_crc_check (mem : Nat → Nat) :
    (SimpleSD_CRC_Check CRC_USING_FUNCTION mem = SIMPLESD_CRC_SAME ↔
        List.foldl CalculateCRC_32 0xFFFFFFFF
            ((List.range APPLICATION_CRC_CALCULATION_SIZE).map
              (fun k => mem (APPLICATION_START_ADDRESS + 4 * k) % U32)) =
          mem APPLICATION_CRC_ADDRESS % U32) ∧
      (SimpleSD_CRC_Check CRC_USING_FUNCTION mem = SIMPLESD_CRC_SAME ∨
        SimpleSD_CRC_Check CRC_USING_FUNCTION mem = SIMPLESD_CRC_ERROR) ∧
      APPLICATION_CRC_CALCULATION_SIZE = 491519 ∧
      APPLICATION_START_ADDRESS + 4 * APPLICATION_CRC_CALCULATION_SIZE =
        APPLICATION_CRC_ADDRESS ∧
      APPLICATION_CRC_ADDRESS = APPLICATION_END_ADDRESS - (APPLICATION_CRC_SIZE - 1) ∧
      APPLICATION_START_ADDRESS + 4 * APPLICATION_CRC_CALCULATION_SIZE < U32 ∧
      (∀ k, k < APPLICATION_CRC_CALCULATION_SIZE →
        APPLICATION_START_ADDRESS + 4 * k + 4 ≤ APPLICATION_CRC_ADDRESS) ∧
      (∀ v, SimpleSD_CRC_Check CRC_USING_FUNCTION
          (Function.update mem APPLICATION_CRC_ADDRESS v) =
        if List.foldl CalculateCRC_32 0xFFFFFFFF
            ((List.range APPLICATION_CRC_CALCULATION_SIZE).map
              (fun k => mem (APPLICATION_START_ADDRESS + 4 * k) % U32)) ≠ v % U32
        then SIMPLESD_CRC_ERROR else SIMPLESD_CRC_SAME) := by
  have hcheck : ∀ m : Nat → Nat, SimpleSD_CRC_Check CRC_USING_FUNCTION m =
      if crcWords m APPLICATION_CRC_CALCULATION_SIZE 0xFFFFFFFF APPLICATION_START_ADDRESS ≠
          m APPLICATION_CRC_ADDRESS % U32
      then SIMPLESD_CRC_ERROR else SIMPLESD_CRC_SAME := by
    intro m
    unfold SimpleSD_CRC_Check
    simp only [CRC_USING_FUNCTION, ne_eq, not_true_eq_false, if_false]
  have hfold := fun m : Nat → Nat => crcWords_eq_foldl m APPLICATION_CRC_CALCULATION_SIZE
    0xFFFFFFFF APPLICATION_START_ADDRESS (by decide)
  have hbelow : ∀ k, k < APPLICATION_CRC_CALCULATION_SIZE →
      APPLICATION_START_ADDRESS + 4 * k + 4 ≤ APPLICATION_CRC_ADDRESS := by
    intro k hk
    rw [constants_eq.2.2.2.1] at hk
    rw [constants_eq.1, constants_eq.2.2.1]
    omega
  refine ⟨?_, ?_, constants_eq.2.2.2.1, by decide, by decide, by decide, hbelow, fun v => ?_⟩
  · rw [hcheck, ← hfold]
    constructor
    · intro h
      by_contra hne
      rw [if_pos hne] at h
      exact absurd h (by decide)
    · intro h
      rw [if_neg (not_not.2 h)]
  · rw [hcheck]
    split
    · exact Or.inr rfl
    · exact Or.inl rfl
  · rw [hcheck, hfold, Function.update_same]
    have hmap : (List.range APPLICATION_CRC_CALCULATION_SIZE).map
          (fun k => Function.update mem APPLICATION_CRC_ADDRESS v
            (APPLICATION_START_ADDRESS + 4 * k) % U32) =
        (List.range APPLICATION_CRC_CALCULATION_SIZE).map
          (fun k => mem (APPLICATION_START_ADDRESS + 4 * k) % U32) := by
      apply List.map_congr_left
      intro k hk
      have := hbelow k (List.mem_range.1 hk)
      rw [Function.update_noteq (by omega)]
    rw [hmap]

/-- C19.  A programming loop of `SimpleSD_FirmwareUpgrade` in which no read, program or
read-back fails ends without an early return after exactly 491520 passes (one read each):
it programs the words at `APPLICATION_START_ADDRESS + 4 k` for `k = 0, ..., 491519` in
ascending order, each address once, the last one being `APPLICATION_CRC_ADDRESS`, and leaves
the cursor at `0x08200000 = APPLICATION_END_ADDRESS + 1`, which is below `2^32`. -/
theorem programming_loop_passes (w : World) (FileData : Nat) (s : Machine)
    (hok : ∀ e ∈ (programLoop w APPLICATION_START_ADDRESS FileData s).2.trace.drop
      s.trace.length, e.isFailure = false) :
    (programLoop w APPLICATION_START_ADDRESS FileData s).1 = none ∧
      readCount ((programLoop w APPLICATION_START_ADDRESS FileData s).2.trace.drop
        s.trace.length) = 491520 ∧
      programmedAddresses ((programLoop w APPLICATION_START_ADDRESS FileData s).2.trace.drop
        s.trace.length) =
        (List.range 491520).map (fun k => APPLICATION_START_ADDRESS + 4 * k) ∧
      List.Pairwise (· < ·)
        (programmedAddresses ((programLoop w APPLICATION_START_ADDRESS FileData s).2.trace.drop
          s.trace.length)) ∧
      APPLICATION_START_ADDRESS + 4 * 491519 = APPLICATION_CRC_ADDRESS ∧
      programCursor w APPLICATION_START_ADDRESS FileData s = 0x08200000 ∧
      (0x08200000 : Nat) = APPLICATION_END_ADDRESS + 1 ∧ 0x08200000 < U32 := by
  obtain ⟨n, mem, evs, hpass, hrun, h2, h3⟩ :=
    programLoop_quiet w APPLICATION_START_ADDRESS FileData s hok
  have hn : n = 491520 := by
    rw [constants_eq.1, constants_eq.2.1] at h2 h3
    omega
  rw [hn] at hpass
  have hnone : (programLoop w APPLICATION_START_ADDRESS FileData s).1 = none := by rw [hrun]
  have hlog : (programLoop w APPLICATION_START_ADDRESS FileData s).2.trace.drop
      s.trace.length = evs := by
    rw [hrun]
    simp only [List.drop_left]
  refine ⟨hnone, ?_, ?_, ?_, by decide, ?_, by decide, by decide⟩
  · rw [hlog]; exact hpass.2.1
  · rw [hlog]; exact hpass.1
  · rw [hlog, hpass.1]
    exact (List.pairwise_lt_range _).map _ (fun a b hab => by omega)
  · exact programCursor_end w _ _ _ hnone (by decide) (by decide)

/-- C20.  The reload value that `SimpleSD_FirmwareUpgrade` leaves behind is the one of the
last `SimpleSD_ModeLED` call of the run; the cleanup does not change it.  It is 0 (off) for
a run without card and for the mount-error and open-error outcomes, `1000 / 8 = 125` for the
erase-error outcome, and `1000 / 20 = 50`, a shorter toggle interval than 125, for the
read-error, write-error and write-compare-error outcomes, for success, and for every run
that reached the verification, the checksum mismatch included. -/
theorem led_rate_at_return (w : World) (s : Machine) :
    ((SimpleSD_DetectCard w s).1 = SIMPLESD_NOT_DETECTED →
        (SimpleSD_FirmwareUpgrade w s).2.LED_Reload_Value = 0) ∧
      ((SimpleSD_FirmwareUpgrade w s).1 = SIMPLESD_FS_MOUNT_ERROR ∨
          (SimpleSD_FirmwareUpgrade w s).1 = SIMPLESD_FS_OPEN_ERROR →
        (SimpleSD_FirmwareUpgrade w s).2.LED_Reload_Value = 0) ∧
      ((SimpleSD_FirmwareUpgrade w s).1 = SIMPLESD_FLASH_ERASE_ERROR →
        (SimpleSD_FirmwareUpgrade w s).2.LED_Reload_Value = 125) ∧
      ((SimpleSD_FirmwareUpgrade w s).1 = SIMPLESD_FS_READ_ERROR ∨
          (SimpleSD_FirmwareUpgrade w s).1 = SIMPLESD_FLASH_WRITE_ERROR ∨
          (SimpleSD_FirmwareUpgrade w s).1 = SIMPLESD_FLASH_WRITE_COMPARE_ERROR ∨
          (SimpleSD_FirmwareUpgrade w s).1 = SIMPLESD_OK →
        (SimpleSD_FirmwareUpgrade w s).2.LED_Reload_Value = 50) ∧
      (∀ result, Event.SimpleSD_CRC_Check result ∈ runLog w s →
        (SimpleSD_FirmwareUpgrade w s).2.LED_Reload_Value = 50) ∧
      ((SimpleSD_FirmwareUpgrade w s).1 = SIMPLESD_NO_SD →
        (SimpleSD_DetectCard w s).1 = SIMPLESD_NOT_DETECTED ∨
          ∃ result, result ≠ SIMPLESD_CRC_SAME ∧
            Event.SimpleSD_CRC_Check result ∈ runLog w s) ∧
      (∃ Mode, lastMode (runLog w s) = some Mode ∧
        (SimpleSD_FirmwareUpgrade w s).2.LED_Reload_Value = reloadValue Mode) ∧
      reloadValue SIMPLESD_LED_4HZ_MODE = 125 ∧ reloadValue SIMPLESD_LED_10HZ_MODE = 50 ∧
      reloadValue SIMPLESD_LED_10HZ_MODE < reloadValue SIMPLESD_LED_4HZ_MODE := by
  have h0 : reloadValue SIMPLESD_LED_STOPPED_MODE = 0 := by decide
  have h8 : reloadValue SIMPLESD_LED_4HZ_MODE = 125 := by decide
  have h20 : reloadValue SIMPLESD_LED_10HZ_MODE = 50 := by decide
  have hdne : SIMPLESD_DETECTED ≠ SIMPLESD_NOT_DETECTED := by decide
  refine ⟨?_, ?_, ?_, ?_, ?_, ?_, ?_, h8, h20, by decide⟩
  · intro hd
    rcases run_rate w s with ⟨_, _, hr, _⟩ | ⟨hd1, _⟩ | ⟨hd1, _⟩ | ⟨hd1, _⟩ | ⟨hd1, _⟩
    · rw [hr, h0]
    all_goals (rw [hd1] at hd; exact absurd hd hdne)
  · intro hcode
    rcases run_rate w s with ⟨_, hc, _⟩ | ⟨_, _, hr, _⟩ | ⟨_, hc, _⟩ | ⟨_, hc, _⟩ |
      ⟨_, hc, _⟩
    · rw [hc] at hcode; exact absurd hcode (by decide)
    · rw [hr, h0]
    · rw [hc] at hcode; exact absurd hcode (by decide)
    · rcases hc with hc | hc | hc <;> (rw [hc] at hcode; exact absurd hcode (by decide))
    · rcases hc with ⟨hc, _⟩ | ⟨hc, _⟩ <;>
        (rw [hc] at hcode; exact absurd hcode (by decide))
  · intro hcode
    rcases run_rate w s with ⟨_, hc, _⟩ | ⟨_, hc, _⟩ | ⟨_, _, hr, _⟩ | ⟨_, hc, _⟩ |
      ⟨_, hc, _⟩
    · rw [hc] at hcode; exact absurd hcode (by decide)
    · rcases hc with hc | hc <;> (rw [hc] at hcode; exact absurd hcode (by decide))
    · rw [hr, h8]
    · rcases hc with hc | hc | hc <;> (rw [hc] at hcode; exact absurd hcode (by decide))
    · rcases hc with ⟨hc, _⟩ | ⟨hc, _⟩ <;>
        (rw [hc] at hcode; exact absurd hcode (by decide))
  · intro hcode
    rcases run_rate w s with ⟨_, hc, _⟩ | ⟨_, hc, _⟩ | ⟨_, hc, _⟩ | ⟨_, _, hr, _⟩ |
      ⟨_, _, hr, _⟩
    · rw [hc] at hcode; exact absurd hcode (by decide)
    · rcases hc with hc | hc <;> (rw [hc] at hcode; exact absurd hcode (by decide))
    · rw [hc] at hcode; exact absurd hcode (by decide)
    · rw [hr, h20]
    · rw [hr, h20]
  · intro result hver
    obtain ⟨_, _, _, _, _, _, _, hrun⟩ := verification_shape w s result hver
    rw [hrun]
    exact h20
  · intro hcode
    rcases run_rate w s with ⟨hd, _⟩ | ⟨_, hc, _⟩ | ⟨_, hc, _⟩ | ⟨_, hc, _⟩ | ⟨_, hc, _⟩
    · exact Or.inl hd
    · rcases hc with hc | hc <;> (rw [hc] at hcode; exact absurd hcode (by decide))
    · rw [hc] at hcode; exact absurd hcode (by decide)
    · rcases hc with hc | hc | hc <;> (rw [hc] at hcode; exact absurd hcode (by decide))
    · rcases hc with ⟨hc, _⟩ | ⟨_, hex⟩
      · rw [hc] at hcode; exact absurd hcode (by decide)
      · exact Or.inr hex
  · rcases run_rate w s with ⟨_, _, hr, hl⟩ | ⟨_, _, hr, hl⟩ | ⟨_, _, hr, hl⟩ |
      ⟨_, _, hr, hl⟩ | ⟨_, _, hr, hl⟩
    all_goals exact ⟨_, hl, hr⟩

/-- C21.  For every 32-bit running value `crc`, the map `data ↦ CalculateCRC_32 crc data`
is a bijection of the 32-bit words, and for every 32-bit `data` so is the map
`crc ↦ CalculateCRC_32 crc data`.  Consequently two sequences of 32-bit words of equal
length that differ in exactly one word have different folds from the same seed; and in the
software configuration, when a flash content passes `SimpleSD_CRC_Check`, every flash content
that differs from it in exactly one of the checksummed words fails it. -/
theorem crc_step_bijective :
    (∀ crc, crc < 2 ^ 32 →
      (∀ data, data < 2 ^ 32 → CalculateCRC_32 crc data < 2 ^ 32) ∧
      (∀ d1 d2, d1 < 2 ^ 32 → d2 < 2 ^ 32 →
        CalculateCRC_32 crc d1 = CalculateCRC_32 crc d2 → d1 = d2) ∧
      (∀ y, y < 2 ^ 32 → ∃ data, data < 2 ^ 32 ∧ CalculateCRC_32 crc data = y)) ∧
    (∀ data, data < 2 ^ 32 →
      (∀ crc, crc < 2 ^ 32 → CalculateCRC_32 crc data < 2 ^ 32) ∧
      (∀ c1 c2, c1 < 2 ^ 32 → c2 < 2 ^ 32 →
        CalculateCRC_32 c1 data = CalculateCRC_32 c2 data → c1 = c2) ∧
      (∀ y, y < 2 ^ 32 → ∃ crc, crc < 2 ^ 32 ∧ CalculateCRC_32 crc data = y)) ∧
    (∀ (seed : Nat) (pre post : List Nat) (a b : Nat), seed < 2 ^ 32 →
      (∀ d ∈ pre, d < 2 ^ 32) → (∀ d ∈ post, d < 2 ^ 32) → a < 2 ^ 32 → b < 2 ^ 32 → a ≠ b →
      (pre ++ a :: post).length = (pre ++ b :: post).length ∧
      List.foldl CalculateCRC_32 seed (pre ++ a :: post) ≠
        List.foldl CalculateCRC_32 seed (pre ++ b :: post)) ∧
    (∀ (mem1 mem2 : Nat → Nat) (j : Nat), j < APPLICATION_CRC_CALCULATION_SIZE →
      mem1 (APPLICATION_START_ADDRESS + 4 * j) % U32 ≠
        mem2 (APPLICATION_START_ADDRESS + 4 * j) % U32 →
      (∀ k, k < APPLICATION_CRC_CALCULATION_SIZE → k ≠ j →
        mem1 (APPLICATION_START_ADDRESS + 4 * k) % U32 =
          mem2 (APPLICATION_START_ADDRESS + 4 * k) % U32) →
      mem1 APPLICATION_CRC_ADDRESS % U32 = mem2 APPLICATION_CRC_ADDRESS % U32 →
      SimpleSD_CRC_Check CRC_USING_FUNCTION mem1 = SIMPLESD_CRC_SAME →
      SimpleSD_CRC_Check CRC_USING_FUNCTION mem2 = SIMPLESD_CRC_ERROR) := by
  refine ⟨fun crc hc => ⟨fun d hd => CalculateCRC_32_lt crc d hc hd,
      fun d1 d2 h1 h2 h => CalculateCRC_32_injective_data crc d1 d2 hc h1 h2 h,
      surjective_of_injective_u32 (fun d => CalculateCRC_32 crc d)
        (fun d hd => CalculateCRC_32_lt crc d hc hd)
        (fun d1 d2 h1 h2 h => CalculateCRC_32_injective_data crc d1 d2 hc h1 h2 h)⟩,
    fun data hd => ⟨fun c hc => CalculateCRC_32_lt c data hc hd,
      fun c1 c2 h1 h2 h => CalculateCRC_32_injective_crc data c1 c2 hd h1 h2 h,
      surjective_of_injective_u32 (fun c => CalculateCRC_32 c data)
        (fun c hc => CalculateCRC_32_lt c data hc hd)
        (fun c1 c2 h1 h2 h => CalculateCRC_32_injective_crc data c1 c2 hd h1 h2 h)⟩,
    fun seed pre post a b hs hpre hpost ha hb hab =>
      ⟨by simp, foldl_crc_one_word seed pre post a b hs hpre hpost ha hb hab⟩,
    fun mem1 mem2 j hj hdiff hsame hcrc hok => ?_⟩
  have hne := crcWords_one_word mem1 mem2 APPLICATION_CRC_CALCULATION_SIZE j 0xFFFFFFFF
    APPLICATION_START_ADDRESS hj (by decide) (by decide) hdiff hsame
  rw [SimpleSD_CRC_Check_software] at hok ⊢
  by_cases h1 : crcWords mem1 APPLICATION_CRC_CALCULATION_SIZE 0xFFFFFFFF
      APPLICATION_START_ADDRESS ≠ mem1 APPLICATION_CRC_ADDRESS % U32
  · rw [if_pos h1] at hok
    exact absurd hok (by decide)
  · have h1' := not_not.1 h1
    rw [if_pos]
    rw [← hcrc, ← h1']
    exact fun h => hne h.symm

/-- C22.  On every address, in particular on every 32-bit one, `SimpleSD_FindSector`
returns a sector number up to 23, and it returns `FLASH_SECTOR_23` exactly when the address
is at or above `ADDR_FLASH_SECTOR_23` or below `ADDR_FLASH_SECTOR_0`.  So the address
`0x07FFFFFF` below the flash base and the address `0xFFFFFFFF` beyond the map both resolve
to sector 23, and the function is not monotonic on the 32-bit addresses: `0x07FFFFFF` gives
23 and the larger `0x08000000` gives 0. -/
theorem find_sector_outside_map (a : Nat) :
    SimpleSD_FindSector a ≤ 23 ∧
      (SimpleSD_FindSector a = FLASH_SECTOR 23 ↔
        a ≥ ADDR_FLASH_SECTOR_23 ∨ a < ADDR_FLASH_SECTOR_0) ∧
      SimpleSD_FindSector 0x07FFFFFF = FLASH_SECTOR 23 ∧
      SimpleSD_FindSector 0xFFFFFFFF = FLASH_SECTOR 23 ∧
      SimpleSD_FindSector 0x08000000 = FLASH_SECTOR 0 ∧
      ¬ (∀ x y, x ≤ y → y < U32 → SimpleSD_FindSector x ≤ SimpleSD_FindSector y) := by
  refine ⟨(SimpleSD_FindSector_last a).1, (SimpleSD_FindSector_last a).2, by decide,
    by decide, by decide, fun h => ?_⟩
  have := h 0x07FFFFFF 0x08000000 (by decide) (by decide)
  exact absurd this (by decide)

/-- C23.  A pass of the programming loop whose read returns `FR_OK` with 1 to 3 bytes is not
an error: the loop goes on to program, at the cursor, the content of the 4-byte buffer that
it handed to the read, and `SIMPLESD_FS_READ_ERROR` is returned only after a read with zero
bytes or a result other than `FR_OK`.  On the healthy medium such a read puts the bytes read
in the first places of the buffer and leaves the other places as the previous read left
them.  So for every image of `0x1DFFFD` bytes (the region size less 3, not a multiple of 4)
the run on the healthy board makes all 491520 reads, the last one returning 1 byte, reaches
the verification, and leaves at `APPLICATION_CRC_ADDRESS` a word whose lowest byte is the
last byte of the image and whose other three bytes are those of the word before it. -/
theorem partial_read_programmed :
    (∀ (w : World) (Address FileData : Nat) (s : Machine),
      Address < APPLICATION_END_ADDRESS →
      (w.f_read s.fileReads FileData).fresult = FR_OK →
      1 ≤ (w.f_read s.fileReads FileData).Bytes →
      (w.f_read s.fileReads FileData).Bytes ≤ 3 →
      ∃ rest, (programLoop w Address FileData s).2.trace = s.trace ++
        Event.f_read FR_OK (w.f_read s.fileReads FileData).Bytes ::
          Event.HAL_FLASH_Program Address ((w.f_read s.fileReads FileData).FileData % U32)
            (w.HAL_FLASH_Program s.flash Address
              ((w.f_read s.fileReads FileData).FileData % U32)).1 :: rest) ∧
    (∀ (w : World) (s : Machine),
      (SimpleSD_FirmwareUpgrade w s).1 = SIMPLESD_FS_READ_ERROR →
      ∃ fresult Bytes, Event.f_read fresult Bytes ∈ runLog w s ∧
        (Bytes = 0 ∨ fresult ≠ FR_OK)) ∧
    (∀ (size : Nat) (byte : Nat → Nat) (n buf : Nat), 4 * n < size → size < 4 * n + 4 →
      (fileRead size byte n buf).fresult = FR_OK ∧
      (fileRead size byte n buf).Bytes = size - 4 * n ∧
      ∀ i, i < 4 → byteOf (fileRead size byte n buf).FileData i =
        if i < size - 4 * n then byte (4 * n + i) % 256 else byteOf buf i) ∧
    0x1DFFFD = APPLICATION_END_ADDRESS + 1 - APPLICATION_START_ADDRESS - 3 ∧
    0x1DFFFD % 4 ≠ 0 ∧
    (∀ (byte : Nat → Nat) (s : Machine),
      (∀ buf, ((healthyWorld 0x1DFFFD byte).f_read 491519 buf).fresult = FR_OK ∧
        ((healthyWorld 0x1DFFFD byte).f_read 491519 buf).Bytes = 1) ∧
      (∃ result, Event.SimpleSD_CRC_Check result ∈ runLog (healthyWorld 0x1DFFFD byte) s) ∧
      ((SimpleSD_FirmwareUpgrade (healthyWorld 0x1DFFFD byte) s).1 = SIMPLESD_OK ∨
        (SimpleSD_FirmwareUpgrade (healthyWorld 0x1DFFFD byte) s).1 = SIMPLESD_NO_SD) ∧
      (SimpleSD_FirmwareUpgrade (healthyWorld 0x1DFFFD byte) s).2.fileReads = 491520 ∧
      (SimpleSD_FirmwareUpgrade (healthyWorld 0x1DFFFD byte) s).2.flash
          APPLICATION_CRC_ADDRESS =
        byte 0x1DFFFC % 256 + 256 * (byte 0x1DFFF9 % 256) +
          256 ^ 2 * (byte 0x1DFFFA % 256) + 256 ^ 3 * (byte 0x1DFFFB % 256)) := by
  refine ⟨fun w A fd s hlt hok h1 h3 => ?_, read_error_cause, fun size byte n buf h1 h2 => ?_,
    by decide, by decide, fun byte s => ⟨fun buf => ?_, short_by_three_run byte s⟩⟩
  · have h := programLoop_after_read w A fd s hlt (by
      intro hc
      rcases hc with hc | hc
      · omega
      · exact hc hok)
    rw [hok] at h
    exact h
  · obtain ⟨a, b, _, d⟩ := fileRead_partial size byte n buf h1 h2
    exact ⟨a, b, d⟩
  · obtain ⟨a, b, _, _⟩ := fileRead_partial 0x1DFFFD byte 491519 buf (by decide) (by decide)
    exact ⟨a, b⟩

/-! # Witnesses -/

theorem first_failure_decides_witness :
    runLog noFileWorld (resetMachine (fun _ => 0)) =
        (prologue tenSamples SIMPLESD_DETECTED ++ [Event.f_mount FR_OK]) ++
          Event.f_open 4 :: [Event.f_close, Event.f_unmount] ∧
      (∀ e ∈ prologue tenSamples SIMPLESD_DETECTED ++ [Event.f_mount FR_OK],
        e.isFailure = false) ∧
      (Event.f_open 4).isFailure = true ∧
      (Event.f_open 4).assignedOutcome = some SIMPLESD_FS_OPEN_ERROR ∧
      ((SimpleSD_FirmwareUpgrade noFileWorld (resetMachine (fun _ => 0))).1 =
          SIMPLESD_FS_OPEN_ERROR ∧
        ∀ e ∈ [Event.f_close, Event.f_unmount], e.isOperation = false) :=
  ⟨rfl, by decide, rfl, rfl,
    first_failure_decides noFileWorld (resetMachine (fun _ => 0))
      (prologue tenSamples SIMPLESD_DETECTED ++ [Event.f_mount FR_OK])
      [Event.f_close, Event.f_unmount] (Event.f_open 4) SIMPLESD_FS_OPEN_ERROR rfl
      (by decide) rfl rfl⟩

theorem cleanup_on_every_exit_witness :
    (resetMachine (fun _ => 0)).locked = true ∧
      (SimpleSD_FirmwareUpgrade noFileWorld (resetMachine (fun _ => 0))).2.locked = true :=
  ⟨rfl, (cleanup_on_every_exit noFileWorld (resetMachine (fun _ => 0)) rfl).1⟩

theorem absent_card_no_effect_witness :
    (SimpleSD_DetectCard absentWorld (resetMachine (fun _ => 0))).1 = SIMPLESD_NOT_DETECTED ∧
      (SimpleSD_FirmwareUpgrade absentWorld (resetMachine (fun _ => 0))).1 = SIMPLESD_NO_SD :=
  ⟨rfl, (absent_card_no_effect absentWorld (resetMachine (fun _ => 0)) rfl).1⟩

theorem erase_sequence_witness :
    Event.f_open FR_OK ∈ runLog (healthyWorld 0 validImage) (resetMachine (fun _ => 0)) ∧
      (∀ Sector NbSectors status, Event.HAL_FLASHEx_Erase Sector NbSectors status ∈
        runLog (healthyWorld 0 validImage) (resetMachine (fun _ => 0)) → status = HAL_OK) ∧
      erasedSectors (runLog (healthyWorld 0 validImage) (resetMachine (fun _ => 0))) =
        [(5, 1), (6, 1), (7, 1), (8, 1), (9, 1), (10, 1), (11, 1), (12, 1), (13, 1), (14, 1),
         (15, 1), (16, 1), (17, 1), (18, 1), (19, 1), (20, 1), (21, 1), (22, 1), (23, 1)] := by
  obtain ⟨_, hopen, _, huniq, _⟩ :=
    short_image_log 0 validImage (resetMachine (fun _ => 0)) (Nat.zero_le _)
  have hok : ∀ Sector NbSectors status, Event.HAL_FLASHEx_Erase Sector NbSectors status ∈
      runLog (healthyWorld 0 validImage) (resetMachine (fun _ => 0)) → status = HAL_OK := by
    intro sec nb st hmem
    by_contra hne
    have := huniq _ hmem (by simpa [Event.isFailure] using hne)
    cases this
  exact ⟨hopen, hok,
    ((erase_sequence (healthyWorld 0 validImage) (resetMachine (fun _ => 0))).2 hopen hok).2⟩

theorem short_image_read_error_witness :
    Event.f_read FR_OK 0 ∈ runLog (healthyWorld 0 validImage) (resetMachine (fun _ => 0)) ∧
      (SimpleSD_FirmwareUpgrade (healthyWorld 0 validImage) (resetMachine (fun _ => 0))).1 =
        SIMPLESD_FS_READ_ERROR := by
  obtain ⟨_, _, hread, _, _⟩ :=
    short_image_log 0 validImage (resetMachine (fun _ => 0)) (Nat.zero_le _)
  exact ⟨hread,
    (short_image_read_error (healthyWorld 0 validImage) (resetMachine (fun _ => 0)) FR_OK 0
      hread (Or.inl rfl)).1⟩

theorem full_image_reaches_verification_witness :
    (healthyWorld (APPLICATION_END_ADDRESS + 1 - APPLICATION_START_ADDRESS) validImage).f_read =
        fileRead (APPLICATION_END_ADDRESS + 1 - APPLICATION_START_ADDRESS) validImage ∧
      (SimpleSD_FirmwareUpgrade
        (healthyWorld (APPLICATION_END_ADDRESS + 1 - APPLICATION_START_ADDRESS) validImage)
        (resetMachine (fun _ => 0))).1 ≠ SIMPLESD_FS_READ_ERROR :=
  ⟨rfl,
    (full_image_reaches_verification
      (healthyWorld (APPLICATION_END_ADDRESS + 1 - APPLICATION_START_ADDRESS) validImage)
      (resetMachine (fun _ => 0)) validImage rfl (healthy_detect _ _ _) rfl rfl
      (fun _ _ _ => rfl)
      (fun mem a d => ⟨rfl, by
        show Function.update mem a d a % U32 = d % U32
        rw [Function.update_same]⟩)).1⟩

theorem CalculateCRC_32_is_reference_witness :
    (0xFFFFFFFF : Nat) < 2 ^ 32 ∧ (0 : Nat) < 2 ^ 32 ∧
      CalculateCRC_32 0xFFFFFFFF 0 = crcStepReference 0xFFFFFFFF 0 :=
  ⟨by decide, by decide,
    (CalculateCRC_32_is_reference 0xFFFFFFFF 0 (by decide) (by decide)).1⟩

theorem find_sector_contains_witness :
    ADDR_FLASH_SECTOR_0 ≤ 0x08020000 ∧ 0x08020000 ≤ APPLICATION_END_ADDRESS ∧
      sectorBase (SimpleSD_FindSector 0x08020000) ≤ 0x08020000 ∧
      0x08020000 < sectorBase (SimpleSD_FindSector 0x08020000 + 1) :=
  ⟨by decide, by decide,
    (find_sector_contains 0x08020000 (by decide) (by decide)).2.1,
    (find_sector_contains 0x08020000 (by decide) (by decide)).2.2.1⟩

theorem detect_card_debounce_witness :
    absentWorld.HAL_GPIO_ReadPin ((resetMachine (fun _ => 0)).pinReads + (1 - 1)) ≠
        SDSimple_CD_Detect_Level ∧
      (SimpleSD_DetectCard absentWorld (resetMachine (fun _ => 0))).1 = SIMPLESD_NOT_DETECTED ∧
      (SimpleSD_DetectCard absentWorld (resetMachine (fun _ => 0))).2.pinReads =
        (resetMachine (fun _ => 0)).pinReads + 1 :=
  ⟨by decide,
    ((detect_card_debounce absentWorld (resetMachine (fun _ => 0))).2.2.2 1 (by decide)
      (by decide) (fun i hi => absurd hi (Nat.not_lt_zero i)) (by decide)).1,
    ((detect_card_debounce absentWorld (resetMachine (fun _ => 0))).2.2.2 1 (by decide)
      (by decide) (fun i hi => absurd hi (Nat.not_lt_zero i)) (by decide)).2.1⟩

theorem flash_round_trip_witness :
    Event.SimpleSD_CRC_Check SIMPLESD_CRC_ERROR ∈
        runLog (healthyWorld 0x1E0000 corruptImage) (resetMachine (fun _ => 0)) ∧
      (SimpleSD_FirmwareUpgrade (healthyWorld 0x1E0000 corruptImage)
          (resetMachine (fun _ => 0))).2.flash (APPLICATION_START_ADDRESS + 4 * 0) =
        fileWord (healthyWorld 0x1E0000 corruptImage) 0 0
          (healthyWorld 0x1E0000 corruptImage).FileData :=
  ⟨corrupt_run.2.2,
    (flash_round_trip (healthyWorld 0x1E0000 corruptImage) (resetMachine (fun _ => 0))
      (fun _ _ _ _ => rfl) SIMPLESD_CRC_ERROR corrupt_run.2.2).1 0 (by decide)⟩

theorem blink_period_witness :
    (SimpleSD_ModeLED SIMPLESD_LED_4HZ_MODE
        { resetMachine (fun _ => 0) with LED_Toggle_Counter := 125 }).LED_Reload_Value =
        (125 : Nat) ∧
      toggleCount (SimpleSD_BlinkLED^[125] (SimpleSD_ModeLED SIMPLESD_LED_4HZ_MODE
        { resetMachine (fun _ => 0) with LED_Toggle_Counter := 125 })).trace =
        toggleCount (SimpleSD_ModeLED SIMPLESD_LED_4HZ_MODE
          { resetMachine (fun _ => 0) with LED_Toggle_Counter := 125 }).trace + 1 :=
  ⟨by decide,
    (blink_period (SimpleSD_ModeLED SIMPLESD_LED_4HZ_MODE
        { resetMachine (fun _ => 0) with LED_Toggle_Counter := 125 }) 125
      (by decide) (by decide) (by decide) (by decide)).2.1⟩

theorem mode_led_reload_witness :
    SIMPLESD_LED_4HZ_MODE < 256 ∧
      (SimpleSD_ModeLED SIMPLESD_LED_4HZ_MODE (resetMachine (fun _ => 0))).LED_Reload_Value =
        (if SIMPLESD_LED_4HZ_MODE = SIMPLESD_LED_STOPPED_MODE then 0
          else ((1000 / SIMPLESD_LED_4HZ_MODE : Nat) : Int)) :=
  ⟨by decide,
    (mode_led_reload SIMPLESD_LED_4HZ_MODE (by decide) (resetMachine (fun _ => 0))).1⟩

theorem programming_loop_passes_witness :
    (programLoop (healthyWorld 0x1E0000 validImage) APPLICATION_START_ADDRESS 0
        (resetMachine (fun _ => 0))).1 = none ∧
      programCursor (healthyWorld 0x1E0000 validImage) APPLICATION_START_ADDRESS 0
        (resetMachine (fun _ => 0)) = 0x08200000 :=
  ⟨(programming_loop_passes (healthyWorld 0x1E0000 validImage) 0 (resetMachine (fun _ => 0))
      (programLoop_healthy 0x1E0000 validImage 0 (resetMachine (fun _ => 0)) (by decide)
        rfl)).1,
    (programming_loop_passes (healthyWorld 0x1E0000 validImage) 0 (resetMachine (fun _ => 0))
      (programLoop_healthy 0x1E0000 validImage 0 (resetMachine (fun _ => 0)) (by decide)
        rfl)).2.2.2.2.2.1⟩

end SimpleSD
